import Mathlib

/-!
# BitStream (Source/TEST2/Base/bitStream.cpp)

A shallow embedding of the bit stream codec and proofs about it.

Conventions of the embedding.

* Memory is a list of bytes (natural numbers); a pointer is a list together with an
  offset.  An access outside the list, a read of an unterminated string and a shift
  by a count outside the width of the shifted type are undefined behaviour in C++:
  the operation then has no result (`none`).
* `S32` cursors, sizes and bit counts are integers (`Int`); a machine state holds
  values of the `S32` range in them.  Integer values that are stored, masked or shifted
  are wrapped explicitly to their width (`toU32`, `toS32`, `toU64`, `toS64`), a signed
  overflow being the two's complement wrap of the target.
* `S32` arithmetic that an operation evaluates before its memory access wraps to 32
  bits: the shifts of `setBuffer` and `setPosition`, the limit tests of `writeBits`,
  `readBits`, `writeFlag` and `readFlag`, the slot step of the flag cursor (`addS32`,
  `subS32`).  The rounding of a bit count and the cursor updates that follow the memory
  access (`bitNum += bitCount`, `flagNum++`) are exact: the wrapped limit test sees the
  same value modulo `2^32`, and on a block shorter than `2^28` bytes an access that has
  a result keeps the updated cursor inside the `S32` range.  The forms that wrap these
  too are `writeBits32`, `readBits32`, `writeFlag32` and `readFlag32`; on such a block
  they are equal to `writeBits`, `readBits`, `writeFlag` and `readFlag`
  (`writeBits_eq_writeBits32`, `readBits_eq_readBits32`, `writeFlag_eq_writeFlag32`,
  `readFlag_eq_readFlag32`).
* `LIB_ASSERT` is the release build one: it reports and execution continues.
* The class declaration (`bitStream.h`) and the byte order helper (`binary.h`) are not
  among the sources.  The fields are the ones `setBuffer` assigns.
-/

namespace Base

/-! ## Machine integers -/

/-- Conversion of an integer to `U32`: its value modulo `2^32`. -/
def toU32 (v : Int) : Nat := (v % 4294967296).toNat

/-- Conversion of a 32 bit pattern to `S32` (two's complement). -/
def toS32 (p : Nat) : Int :=
  if p % 4294967296 < 2147483648 then ((p % 4294967296 : Nat) : Int)
  else ((p % 4294967296 : Nat) : Int) - 4294967296

/-- Conversion of an integer to `U64`: its value modulo `2^64`. -/
def toU64 (v : Int) : Nat := (v % 18446744073709551616).toNat

/-- Conversion of a 64 bit pattern to `S64` (two's complement). -/
def toS64 (p : Nat) : Int :=
  if p % 18446744073709551616 < 9223372036854775808 then ((p % 18446744073709551616 : Nat) : Int)
  else ((p % 18446744073709551616 : Nat) : Int) - 18446744073709551616

/-- The operator `&` on two `S32` values: bitwise on the two's complement patterns. -/
def andS32 (a b : Int) : Int := toS32 (toU32 a &&& toU32 b)

/-- The operator `&` on two `S64` values: bitwise on the two's complement patterns. -/
def andS64 (a b : Int) : Int := toS64 (toU64 a &&& toU64 b)

/-- The operator `-` on `int`, wrapping to 32 bits. -/
def subS32 (a b : Int) : Int := toS32 (toU32 (a - b))

/-- The operator `+` on `int`, wrapping to 32 bits. -/
def addS32 (a b : Int) : Int := toS32 (toU32 (a + b))

/-- The shift `v << 3` of an `S32`, wrapping to 32 bits. -/
def shl3S32 (v : Int) : Int := toS32 (toU32 (v * 8))

/-- The operator `<<` with an `int` left operand: the result has type `int` whatever
the type of the count; a count outside `0..31` is undefined. -/
def shlS32 (a : Int) (count : Int) : Option Int :=
  if 0 ≤ count ∧ count < 32 then some (toS32 (toU32 (a * 2 ^ count.toNat))) else none

/-! ## Memory -/

/-- The call `memcpy(dst + dOff, src + sOff, n)`: undefined unless both ranges lie
inside their blocks. -/
def memcpy (dst : List Nat) (dOff : Int) (src : List Nat) (sOff : Int) (n : Int) :
    Option (List Nat) :=
  if 0 ≤ dOff ∧ 0 ≤ sOff ∧ 0 ≤ n ∧ dOff + n ≤ dst.length ∧ sOff + n ≤ src.length then
    some (dst.take dOff.toNat ++ (src.drop sOff.toNat).take n.toNat
      ++ dst.drop (dOff.toNat + n.toNat))
  else none

/-- The call `dMemset(dst, 0, n)`: undefined unless the range lies inside the block. -/
def dMemset0 (dst : List Nat) (n : Int) : Option (List Nat) :=
  if 0 ≤ n ∧ n ≤ dst.length then some (List.replicate n.toNat 0 ++ dst.drop n.toNat)
  else none

/-- Read of the byte `*(p + i)`. -/
def getByte (p : List Nat) (i : Int) : Option Nat :=
  if 0 ≤ i ∧ i < p.length then some (p.getD i.toNat 0) else none

/-- Store `*(p + i) = v`, the value truncated to a byte. -/
def setByte (p : List Nat) (i : Int) (v : Nat) : Option (List Nat) :=
  if 0 ≤ i ∧ i < p.length then some (p.set i.toNat (v % 256)) else none

/-- The call `dStrlen(str)`: the index of the first NUL byte of the block; undefined
when the block holds none. -/
def dStrlen (str : List Nat) : Option Nat :=
  if str.indexOf 0 < str.length then some (str.indexOf 0) else none

/-! ## Byte order helpers -/

/-- Modelled from the spec: `LITTLE->PutUint32(buff, v)` of the missing `binary.h`,
"All integer/float encodings normalize to a fixed little-endian byte order": the four
bytes of `v`, least significant first. -/
def PutUint32 (v : Nat) : List Nat :=
  [v % 256, v / 256 % 256, v / 65536 % 256, v / 16777216 % 256]

/-- Modelled from the spec: `LITTLE->Uint32(buff)` of the missing `binary.h`, the
little-endian decoding of the four bytes of `buff`. -/
def Uint32 (buff : List Nat) : Nat :=
  (buff.getD 0 0 + 256 * buff.getD 1 0 + 65536 * buff.getD 2 0
    + 16777216 * buff.getD 3 0) % 4294967296

/-- Modelled from the spec: `LITTLE->PutUint64(buff, v)` of the missing `binary.h`,
the eight bytes of `v`, least significant first. -/
def PutUint64 (v : Nat) : List Nat :=
  [v % 256, v / 256 % 256, v / 65536 % 256, v / 16777216 % 256,
   v / 4294967296 % 256, v / 1099511627776 % 256, v / 281474976710656 % 256,
   v / 72057594037927936 % 256]

/-- Modelled from the spec: `LITTLE->Uint64(buff)` of the missing `binary.h`, the
little-endian decoding of the eight bytes of `buff`. -/
def Uint64 (buff : List Nat) : Nat :=
  (buff.getD 0 0 + 256 * buff.getD 1 0 + 65536 * buff.getD 2 0
    + 16777216 * buff.getD 3 0 + 4294967296 * buff.getD 4 0
    + 1099511627776 * buff.getD 5 0 + 281474976710656 * buff.getD 6 0
    + 72057594037927936 * buff.getD 7 0) % 18446744073709551616

/-! ## The stream -/

/-- The fields of `BitStream`. -/
structure BitStream where
  dataPtr : List Nat
  bitNum : Int
  flagNum : Int
  tailFlag : Bool
  bufSize : Int
  maxReadBitNum : Int
  maxWriteBitNum : Int
  bitsLimite : Int
  error : Bool
  deriving DecidableEq, Repr

/-- Method `BitStream::setBuffer(bufPtr, size, maxSize)`. -/
def setBuffer (s : BitStream) (bufPtr : List Nat) (size : Int) (maxSize : Int) : BitStream :=
  let maxSize := if maxSize < 0 then size else maxSize
  { s with
    dataPtr := bufPtr
    bitNum := 0
    flagNum := 0
    tailFlag := false
    bufSize := size
    maxReadBitNum := shl3S32 size
    maxWriteBitNum := shl3S32 maxSize
    bitsLimite := shl3S32 size
    error := false }

/-- Method `BitStream::getPosition()`: `(bitNum + 7) >> 3` in `S32`, returned as a
`U32`. -/
def getPosition (s : BitStream) : Nat := toU32 (addS32 s.bitNum 7 / 8)

/-- Method `BitStream::setPosition(pos)`, `pos` a `U32`. -/
def setPosition (s : BitStream) (pos : Nat) : Bool × BitStream :=
  if pos ≠ 0 ∧ s.flagNum ≠ 0 then (false, s)
  else (true, { s with bitNum := toS32 (toU32 (pos * 8)), flagNum := 0 })

/-- Method `BitStream::clear()`. -/
def clear (s : BitStream) : Option BitStream :=
  match dMemset0 s.dataPtr s.bufSize with
  | none => none
  | some d => some { s with dataPtr := d }

/-- The rounding of `writeBits` and `readBits`:
`if (bitCount & 0x7) bitCount = (bitCount & ~0x7) + 8;`.  On two's complement
`bitCount & 0x7` is `bitCount % 8` and `bitCount & ~0x7` is `bitCount - bitCount % 8`.
The sum is exact; it leaves the `S32` range for the seven counts above `2^31 - 8` only,
where it is `2^31`: the limit test, which wraps, sees the machine's value, and the copy
is then one of `2^28` bytes. -/
def roundBits (bitCount : Int) : Int :=
  if bitCount % 8 ≠ 0 then (bitCount - bitCount % 8) + 8 else bitCount

/-- Method `BitStream::writeBits(bitCount, bitPtr)`. -/
def writeBits (s : BitStream) (bitCount : Int) (bitPtr : List Nat) : Option BitStream :=
  if bitCount = 0 then some s
  else if s.tailFlag then some { s with error := true }
  else
    let bitCount := roundBits bitCount
    if addS32 bitCount s.bitNum > s.maxWriteBitNum then some { s with error := true }
    else
      let byteCount := (bitCount + 7) / 8
      match memcpy s.dataPtr (s.bitNum / 8) bitPtr 0 byteCount with
      | none => none
      | some d => some { s with dataPtr := d, bitNum := s.bitNum + bitCount }

/-- Method `BitStream::writeFlag(val)`. -/
def writeFlag (s : BitStream) (val : Bool) : Option (Bool × BitStream) :=
  let s : BitStream :=
    if s.flagNum - (s.flagNum / 8) * 8 = 0 ∧ s.tailFlag = false then
      let s : BitStream := { s with flagNum := s.bitNum }
      if addS32 s.bitNum 8 < s.maxWriteBitNum then { s with bitNum := addS32 s.bitNum 8 }
      else { s with tailFlag := true }
    else s
  if addS32 s.flagNum 1 > s.maxWriteBitNum then some (false, { s with error := true })
  else
    match getByte s.dataPtr (s.flagNum / 8) with
    | none => none
    | some b =>
      let b := if val then b ||| (1 <<< (s.flagNum % 8).toNat)
        else b &&& (4294967295 - (1 <<< (s.flagNum % 8).toNat))
      match setByte s.dataPtr (s.flagNum / 8) b with
      | none => none
      | some d => some (val, { s with dataPtr := d, flagNum := s.flagNum + 1 })

/-- Modelled from the spec: `BitStream::readFlag()`, declared in the missing
`bitStream.h`: "mirrors `writeFlag` against `maxReadBits` and reads rather than sets
the bit, returning the boolean value". -/
def readFlag (s : BitStream) : Option (Bool × BitStream) :=
  let s : BitStream :=
    if s.flagNum - (s.flagNum / 8) * 8 = 0 ∧ s.tailFlag = false then
      let s : BitStream := { s with flagNum := s.bitNum }
      if addS32 s.bitNum 8 < s.maxReadBitNum then { s with bitNum := addS32 s.bitNum 8 }
      else { s with tailFlag := true }
    else s
  if addS32 s.flagNum 1 > s.maxReadBitNum then some (false, { s with error := true })
  else
    match getByte s.dataPtr (s.flagNum / 8) with
    | none => none
    | some b =>
      some (decide (b &&& (1 <<< (s.flagNum % 8).toNat) ≠ 0),
        { s with flagNum := s.flagNum + 1 })

/-- Method `BitStream::readBits(bitCount, bitPtr)`: the destination block is returned with
the stream. -/
def readBits (s : BitStream) (bitCount : Int) (bitPtr : List Nat) :
    Option (List Nat × BitStream) :=
  if bitCount = 0 then some (bitPtr, s)
  else if s.tailFlag then some (bitPtr, { s with error := true })
  else
    let bitCount := roundBits bitCount
    if addS32 bitCount s.bitNum > s.maxReadBitNum then some (bitPtr, { s with error := true })
    else
      let byteCount := (bitCount + 7) / 8
      match memcpy bitPtr 0 s.dataPtr (s.bitNum / 8) byteCount with
      | none => none
      | some d => some (d, { s with bitNum := s.bitNum + bitCount })

/-- Method `BitStream::writeInt(val, bitCount)`. -/
def writeInt (s : BitStream) (val : Int) (bitCount : Int) : Option BitStream :=
  writeBits s bitCount (PutUint32 (toU32 val))

/-- Method `BitStream::readInt(bitCount)`. -/
def readInt (s : BitStream) (bitCount : Int) : Option (Int × BitStream) :=
  match readBits s bitCount [0, 0, 0, 0] with
  | none => none
  | some (buff, s) =>
    let ret := toS32 (Uint32 buff)
    if bitCount = 32 then some (ret, s)
    else
      match shlS32 1 bitCount with
      | none => none
      | some sh => some (andS32 ret (subS32 sh 1), s)

/-- Method `BitStream::writeInt64(val, bitCount)`. -/
def writeInt64 (s : BitStream) (val : Int) (bitCount : Int) : Option BitStream :=
  writeBits s bitCount (PutUint64 (toU64 val))

/-- Method `BitStream::readInt64(bitCount)`.  In `(1 << S64(bitCount)) - 1` the literal `1`
is an `int`, so the shift and the subtraction are 32 bit ones; the `int` result is
then converted to `S64` (value preserved) for the `&=`. -/
def readInt64 (s : BitStream) (bitCount : Int) : Option (Int × BitStream) :=
  match readBits s bitCount [0, 0, 0, 0, 0, 0, 0, 0] with
  | none => none
  | some (buff, s) =>
    let ret := toS64 (Uint64 buff)
    if bitCount = 64 then some (ret, s)
    else
      match shlS32 1 bitCount with
      | none => none
      | some sh => some (andS64 ret (subS32 sh 1), s)

/-- Method `BitStream::writeFloat(f, bitCount)`; a float is its 32 bit pattern. -/
def writeFloat (s : BitStream) (f : Nat) (bitCount : Int) : Option BitStream :=
  writeInt s (toS32 f) bitCount

/-- Method `BitStream::readFloat(bitCount)`; a float is its 32 bit pattern. -/
def readFloat (s : BitStream) (bitCount : Int) : Option (Nat × BitStream) :=
  match readInt s bitCount with
  | none => none
  | some (val, s) => some (toU32 val, s)

/-- Method `BitStream::writeFloat64(f, bitCount)`; a double is its 64 bit pattern. -/
def writeFloat64 (s : BitStream) (f : Nat) (bitCount : Int) : Option BitStream :=
  writeInt64 s (toS64 f) bitCount

/-- Method `BitStream::readFloat64(bitCount)`; a double is its 64 bit pattern. -/
def readFloat64 (s : BitStream) (bitCount : Int) : Option (Nat × BitStream) :=
  match readInt64 s bitCount with
  | none => none
  | some (val, s) => some (toU64 val, s)

/-- Method `BitStream::readString(buf, maxSize)`: the caller's block `buf` is returned with
the stream.  The block of `new char[len]` is not initialised: `heap` gives the bytes it
holds when it is allocated (byte `i` is `heap[i]`, 0 past the end of `heap`). -/
def readString (s : BitStream) (buf : List Nat) (maxSize : Int) (heap : List Nat) :
    Option (List Nat × BitStream) :=
  match setByte buf 0 0 with
  | none => none
  | some buf =>
    match readFlag s with
    | none => none
    | some (false, s) => some (buf, s)
    | some (true, s) =>
      match readInt s 16 with
      | none => none
      | some (len, s) =>
        if len ≥ maxSize then
          match readBits s (shl3S32 len)
              ((List.range len.toNat).map (fun i => heap.getD i 0)) with
          | none => none
          | some (pNewBuf, s) =>
            let len := subS32 maxSize 1
            match memcpy buf 0 pNewBuf 0 len with
            | none => none
            | some buf =>
              match setByte buf len 0 with
              | none => none
              | some buf => some (buf, s)
        else
          match readBits s (shl3S32 len) buf with
          | none => none
          | some (buf, s) =>
            match setByte buf len 0 with
            | none => none
            | some buf => some (buf, s)

/-- Method `BitStream::writeString(string, maxSize)`: `string` is the null pointer (`none`)
or the block the pointer addresses. -/
def writeString (s : BitStream) (string : Option (List Nat)) (maxSize : Int) :
    Option BitStream :=
  let string := match string with
    | none => [0]
    | some m => m
  match dStrlen string with
  | none => none
  | some n =>
    let len : Int := toS32 n
    let len := if len ≥ maxSize then subS32 maxSize 1 else len
    match writeFlag s (decide (len > 0)) with
    | none => none
    | some (false, s) => some s
    | some (true, s) =>
      match writeInt s len 16 with
      | none => none
      | some s => writeBits s (shl3S32 len) string

/-- The first statement of `writeFlag`, and of `readFlag` with the read limit: at a slot
boundary and outside tail mode the flag cursor moves to the main cursor, and the main
cursor skips the slot when more than 8 bits are left below `limit` (the sum taken in
`S32`); otherwise tail mode is entered. -/
def flagSlot (s : BitStream) (limit : Int) : BitStream :=
  if s.flagNum - (s.flagNum / 8) * 8 = 0 ∧ s.tailFlag = false then
    let s : BitStream := { s with flagNum := s.bitNum }
    if addS32 s.bitNum 8 < limit then { s with bitNum := addS32 s.bitNum 8 }
    else { s with tailFlag := true }
  else s

/-- The byte `writeFlag` stores for the old byte `c`, bit index `k` and flag `val`:
`c | (1 << k)` or `c & ~(1 << k)`, truncated to a byte. -/
def flagByte (c k : Nat) (val : Bool) : Nat :=
  (if val then c ||| (1 <<< k) else c &&& (4294967295 - (1 <<< k))) % 256

/-! ## The 32 bit forms

`writeBits`, `readBits`, `writeFlag` and `readFlag` with the rounding and the cursor
update wrapped to 32 bits as well.  On every stream over a block shorter than `2^28`
bytes they are the functions above (`writeBits_eq_writeBits32`,
`readBits_eq_readBits32`, `writeFlag_eq_writeFlag32`, `readFlag_eq_readFlag32`). -/

/-- The rounding of `writeBits` and `readBits` with the sum `(bitCount & ~0x7) + 8`
wrapped to 32 bits. -/
def roundBits32 (bitCount : Int) : Int :=
  if bitCount % 8 ≠ 0 then addS32 (bitCount - bitCount % 8) 8 else bitCount

/-- Method `BitStream::writeBits(bitCount, bitPtr)`, every sum wrapped to 32 bits. -/
def writeBits32 (s : BitStream) (bitCount : Int) (bitPtr : List Nat) : Option BitStream :=
  if bitCount = 0 then some s
  else if s.tailFlag then some { s with error := true }
  else
    let bitCount := roundBits32 bitCount
    if addS32 bitCount s.bitNum > s.maxWriteBitNum then some { s with error := true }
    else
      let byteCount := addS32 bitCount 7 / 8
      match memcpy s.dataPtr (s.bitNum / 8) bitPtr 0 byteCount with
      | none => none
      | some d => some { s with dataPtr := d, bitNum := addS32 s.bitNum bitCount }

/-- Method `BitStream::readBits(bitCount, bitPtr)`, every sum wrapped to 32 bits. -/
def readBits32 (s : BitStream) (bitCount : Int) (bitPtr : List Nat) :
    Option (List Nat × BitStream) :=
  if bitCount = 0 then some (bitPtr, s)
  else if s.tailFlag then some (bitPtr, { s with error := true })
  else
    let bitCount := roundBits32 bitCount
    if addS32 bitCount s.bitNum > s.maxReadBitNum then some (bitPtr, { s with error := true })
    else
      let byteCount := addS32 bitCount 7 / 8
      match memcpy bitPtr 0 s.dataPtr (s.bitNum / 8) byteCount with
      | none => none
      | some d => some (d, { s with bitNum := addS32 s.bitNum bitCount })

/-- Method `BitStream::writeFlag(val)`, every sum wrapped to 32 bits. -/
def writeFlag32 (s : BitStream) (val : Bool) : Option (Bool × BitStream) :=
  let s : BitStream :=
    if s.flagNum - (s.flagNum / 8) * 8 = 0 ∧ s.tailFlag = false then
      let s : BitStream := { s with flagNum := s.bitNum }
      if addS32 s.bitNum 8 < s.maxWriteBitNum then { s with bitNum := addS32 s.bitNum 8 }
      else { s with tailFlag := true }
    else s
  if addS32 s.flagNum 1 > s.maxWriteBitNum then some (false, { s with error := true })
  else
    match getByte s.dataPtr (s.flagNum / 8) with
    | none => none
    | some b =>
      let b := if val then b ||| (1 <<< (s.flagNum % 8).toNat)
        else b &&& (4294967295 - (1 <<< (s.flagNum % 8).toNat))
      match setByte s.dataPtr (s.flagNum / 8) b with
      | none => none
      | some d => some (val, { s with dataPtr := d, flagNum := addS32 s.flagNum 1 })

/-- Modelled from the spec: `BitStream::readFlag()`, the mirror of `writeFlag32` against
the read limit. -/
def readFlag32 (s : BitStream) : Option (Bool × BitStream) :=
  let s : BitStream :=
    if s.flagNum - (s.flagNum / 8) * 8 = 0 ∧ s.tailFlag = false then
      let s : BitStream := { s with flagNum := s.bitNum }
      if addS32 s.bitNum 8 < s.maxReadBitNum then { s with bitNum := addS32 s.bitNum 8 }
      else { s with tailFlag := true }
    else s
  if addS32 s.flagNum 1 > s.maxReadBitNum then some (false, { s with error := true })
  else
    match getByte s.dataPtr (s.flagNum / 8) with
    | none => none
    | some b =>
      some (decide (b &&& (1 <<< (s.flagNum % 8).toNat) ≠ 0),
        { s with flagNum := addS32 s.flagNum 1 })

/-- The state of a stream object before its first `setBuffer`. -/
def unbound : BitStream :=
  { dataPtr := [], bitNum := 0, flagNum := 0, tailFlag := false, bufSize := 0,
    maxReadBitNum := 0, maxWriteBitNum := 0, bitsLimite := 0, error := false }

/-- The constructor `BitStream(bufPtr, bufSize, maxWriteSize)`. -/
def construct (bufPtr : List Nat) (bufSize : Int) (maxWriteSize : Int) : BitStream :=
  setBuffer unbound bufPtr bufSize maxWriteSize

/-! ## Sequences of write calls -/

/-- A call of one of the write operations, with its arguments. -/
inductive WriteOp where
  | flag (val : Bool)
  | bits (bitCount : Int) (bitPtr : List Nat)
  | int (val : Int) (bitCount : Int)
  | int64 (val : Int) (bitCount : Int)
  | string (str : Option (List Nat)) (maxSize : Int)

/-- The stream after one write call. -/
def applyWriteOp (s : BitStream) : WriteOp → Option BitStream
  | .flag val =>
    match writeFlag s val with
    | none => none
    | some (_, s1) => some s1
  | .bits bitCount bitPtr => writeBits s bitCount bitPtr
  | .int val bitCount => writeInt s val bitCount
  | .int64 val bitCount => writeInt64 s val bitCount
  | .string str maxSize => writeString s str maxSize

/-- The stream after a sequence of write calls, made in order. -/
def runWriteOps (s : BitStream) : List WriteOp → Option BitStream
  | [] => some s
  | op :: ops =>
    match applyWriteOp s op with
    | none => none
    | some s1 => runWriteOps s1 ops

/-- The part of the cursor invariant of a write pass that holds whatever the write limit
is: the main cursor is a whole number of bytes inside the buffer, outside tail mode the
flag cursor is at most the main cursor, and in tail mode the flag cursor and the write
limit are at most 8 bits past the main cursor.  The buffer is shorter than `2^28 - 1`
bytes, so that no cursor sum of the pass wraps. -/
def PassInv (s : BitStream) : Prop :=
  0 ≤ s.bitNum ∧ s.bitNum % 8 = 0 ∧ s.bitNum ≤ 8 * (s.dataPtr.length : Int) ∧ 0 ≤ s.flagNum
    ∧ (s.tailFlag = false → s.flagNum ≤ s.bitNum)
    ∧ (s.tailFlag = true → s.flagNum ≤ s.bitNum + 8 ∧ s.maxWriteBitNum ≤ s.bitNum + 8)
    ∧ s.dataPtr.length < 268435455

/-- The cursor invariant of a write pass: the limit-free part and, when the write limit
is not negative, the main cursor is at most the write limit, as is the flag cursor in
tail mode. -/
def WriteInv (s : BitStream) : Prop :=
  PassInv s ∧ (0 ≤ s.maxWriteBitNum → s.bitNum ≤ s.maxWriteBitNum
    ∧ (s.tailFlag = true → s.flagNum ≤ s.maxWriteBitNum))

/-- The bit of the buffer at bit offset `pos`: bit `pos & 7` of byte `pos >> 3`. -/
def bitAt (p : List Nat) (pos : Int) : Bool :=
  (p.getD (pos / 8).toNat 0).testBit (pos % 8).toNat

/-- A call of `writeFlag` or of `writeBits`. -/
inductive FlagOrBits where
  | flag (val : Bool)
  | bits (bitCount : Int) (bitPtr : List Nat)

/-- What a call stored in the buffer: a flag bit at a bit offset, or a block of `count`
bytes copied from byte `first` on. -/
inductive WriteEvent where
  | flag (pos : Int) (val : Bool)
  | copy (first : Int) (count : Int)

/-- One call of `writeFlag` or `writeBits`, with the record of what it stored: a
`writeFlag` that passes its overflow test stores its flag at the flag cursor left by the
slot step, a `writeBits` that reaches its `memcpy` copies `byteCount` bytes from byte
`bitNum >> 3`; the refused calls store nothing. -/
def tracedStep (s : BitStream) : FlagOrBits → Option (BitStream × List WriteEvent)
  | .flag val =>
    match writeFlag s val with
    | none => none
    | some (_, s1) =>
      if addS32 (flagSlot s s.maxWriteBitNum).flagNum 1 > s.maxWriteBitNum then some (s1, [])
      else some (s1, [WriteEvent.flag (flagSlot s s.maxWriteBitNum).flagNum val])
  | .bits bitCount bitPtr =>
    match writeBits s bitCount bitPtr with
    | none => none
    | some s1 =>
      if bitCount = 0 ∨ s.tailFlag = true
          ∨ addS32 (roundBits bitCount) s.bitNum > s.maxWriteBitNum
      then some (s1, [])
      else some (s1, [WriteEvent.copy (s.bitNum / 8) ((roundBits bitCount + 7) / 8)])

/-- A sequence of `writeFlag` and `writeBits` calls, with the record of what they stored,
in the order of the calls. -/
def tracedRun (s : BitStream) : List FlagOrBits → Option (BitStream × List WriteEvent)
  | [] => some (s, [])
  | op :: ops =>
    match tracedStep s op with
    | none => none
    | some (s1, ev) =>
      match tracedRun s1 ops with
      | none => none
      | some (sf, evs) => some (sf, ev ++ evs)

/-- The event `later` touches the bit stored by the flag event `e`: it is a flag at the
same bit offset, or a copy over the byte that holds the bit. -/
def clobbers (e later : WriteEvent) : Prop :=
  match e, later with
  | .flag p _, .flag q _ => p = q
  | .flag p _, .copy first count => first ≤ p / 8 ∧ p / 8 < first + count
  | .copy _ _, _ => False

end Base


/-! ## Helper lemmas: memory and machine integers -/

namespace Base

theorem roundBits_eq (n : Int) : roundBits n = 8 * ((n + 7) / 8) := by
  unfold roundBits
  split <;> omega

theorem memcpy_into (dst src : List Nat) (o k : Nat)
    (h1 : o + k ≤ dst.length) (h2 : k ≤ src.length) :
    memcpy dst (o : Int) src 0 (k : Int)
      = some (dst.take o ++ src.take k ++ dst.drop (o + k)) := by
  unfold memcpy
  rw [if_pos (by omega)]
  simp

theorem memcpy_back (buff dst src : List Nat) (o k : Nat)
    (h1 : o + k ≤ dst.length) (h2 : k ≤ src.length) (h3 : k ≤ buff.length) :
    memcpy buff 0 (dst.take o ++ src.take k ++ dst.drop (o + k)) (o : Int) (k : Int)
      = some (src.take k ++ buff.drop k) := by
  unfold memcpy
  have hlen : (dst.take o ++ src.take k ++ dst.drop (o + k)).length = dst.length := by
    simp [List.length_append, List.length_take, List.length_drop]; omega
  rw [if_pos (by rw [hlen]; omega)]
  have ho : (dst.take o).length = o := by simp [List.length_take]; omega
  have hk : (src.take k).length = k := by simp [List.length_take]; omega
  have hd : (dst.take o ++ src.take k ++ dst.drop (o + k)).drop o
      = src.take k ++ dst.drop (o + k) := by
    rw [List.append_assoc]
    exact List.drop_left' ho
  simp only [Int.toNat_ofNat, Int.toNat_zero, List.take_zero, List.nil_append, Nat.zero_add, hd]
  rw [List.take_left' hk]

end Base

namespace Base

theorem addS32_eq (a b : Int) (h : -2147483648 ≤ a + b ∧ a + b < 2147483648) :
    addS32 a b = a + b := by
  unfold addS32 toU32 toS32
  split <;> omega

theorem addS32_le (a b : Int) (h : 0 ≤ a + b) : addS32 a b ≤ a + b := by
  unfold addS32 toU32 toS32
  split <;> omega

theorem addS32_range (a b : Int) : -2147483648 ≤ addS32 a b ∧ addS32 a b < 2147483648 := by
  unfold addS32 toU32 toS32
  split <;> omega

theorem toS32_natCast (p : Nat) (h : p < 2147483648) : toS32 p = (p : Int) := by
  unfold toS32
  split <;> omega

theorem subS32_eq (a b : Int) (h : -2147483648 ≤ a - b ∧ a - b < 2147483648) :
    subS32 a b = a - b := by
  unfold subS32 toU32 toS32
  split <;> omega

theorem shl3S32_eq (v : Int) (h : -268435456 ≤ v ∧ v < 268435456) : shl3S32 v = v * 8 := by
  unfold shl3S32 toU32 toS32
  split <;> omega

theorem writeBits_ok (s : BitStream) (bitCount : Int) (src : List Nat) (o k : Nat)
    (h0 : bitCount ≠ 0) (ht : s.tailFlag = false)
    (hlim : roundBits bitCount + s.bitNum ≤ s.maxWriteBitNum)
    (ho : s.bitNum / 8 = (o : Int)) (hk : (roundBits bitCount + 7) / 8 = (k : Int))
    (h1 : o + k ≤ s.dataPtr.length) (h2 : k ≤ src.length) :
    writeBits s bitCount src
      = some { s with
          dataPtr := s.dataPtr.take o ++ src.take k ++ s.dataPtr.drop (o + k)
          bitNum := s.bitNum + roundBits bitCount } := by
  have hr := roundBits_eq bitCount
  have hle := addS32_le (roundBits bitCount) s.bitNum (by omega)
  unfold writeBits
  rw [if_neg h0, ht]
  simp only [Bool.false_eq_true, if_false]
  rw [if_neg (by omega), ho, hk, memcpy_into _ _ _ _ h1 h2]

theorem readBits_ok (s : BitStream) (bitCount : Int) (buff dst src : List Nat) (o k : Nat)
    (h0 : bitCount ≠ 0) (ht : s.tailFlag = false)
    (hlim : roundBits bitCount + s.bitNum ≤ s.maxReadBitNum)
    (ho : s.bitNum / 8 = (o : Int)) (hk : (roundBits bitCount + 7) / 8 = (k : Int))
    (hd : s.dataPtr = dst.take o ++ src.take k ++ dst.drop (o + k))
    (h1 : o + k ≤ dst.length) (h2 : k ≤ src.length) (h3 : k ≤ buff.length) :
    readBits s bitCount buff
      = some (src.take k ++ buff.drop k, { s with bitNum := s.bitNum + roundBits bitCount }) := by
  have hr := roundBits_eq bitCount
  have hle := addS32_le (roundBits bitCount) s.bitNum (by omega)
  unfold readBits
  rw [if_neg h0, ht]
  simp only [Bool.false_eq_true, if_false]
  rw [if_neg (by omega), ho, hk, hd, memcpy_back _ _ _ _ _ h1 h2 h3]

theorem toU32_lt (v : Int) : toU32 v < 4294967296 := by
  unfold toU32; omega

theorem toU32_toS32 (p : Nat) (h : p < 4294967296) : toU32 (toS32 p) = p := by
  unfold toU32 toS32
  split <;> omega

theorem toS32_toU32 (v : Int) (h : -2147483648 ≤ v ∧ v < 2147483648) : toS32 (toU32 v) = v := by
  unfold toU32 toS32
  split <;> omega

theorem Uint32_take_PutUint32 (u k : Nat) (hk : 1 ≤ k ∧ k ≤ 4) :
    Uint32 ((PutUint32 u).take k ++ [0, 0, 0, 0].drop k) = u % 2 ^ (8 * k) := by
  obtain ⟨h1, h4⟩ := hk
  interval_cases k <;> simp [PutUint32, Uint32] <;> omega

theorem mask32 (n : Nat) (hn : n < 32) :
    ∃ sh, shlS32 1 (n : Int) = some sh ∧ toU32 (subS32 sh 1) = 2 ^ n - 1 := by
  interval_cases n <;> exact ⟨_, rfl, rfl⟩

end Base

/-! ## C1: writeInt / readInt round trip -/

namespace Base

theorem toU32_pow_sub_one (n : Nat) (hn : n < 32) : toU32 ((2 : Int) ^ n - 1) = 2 ^ n - 1 := by
  interval_cases n <;> rfl

theorem andS32_low (a : Int) (n : Nat) (hn : n < 32) (m : Int) (hm : toU32 m = 2 ^ n - 1) :
    andS32 a m = ((toU32 a % 2 ^ n : Nat) : Int) := by
  unfold andS32
  rw [hm, Nat.and_pow_two_sub_one_eq_mod]
  have h1 : toU32 a % 2 ^ n < 2 ^ n := Nat.mod_lt _ (by positivity)
  have h2 : 2 ^ n ≤ 2 ^ 31 := Nat.pow_le_pow_right (by norm_num) (by omega)
  unfold toS32
  have h3 : toU32 a % 2 ^ n % 4294967296 = toU32 a % 2 ^ n := Nat.mod_eq_of_lt (by omega)
  rw [h3, if_pos (by omega)]

theorem toU32_mod_cast (v : Int) (n : Nat) (hn : n ≤ 32) :
    ((toU32 v % 2 ^ n : Nat) : Int) = v % 2 ^ n := by
  unfold toU32
  have h : ((v % 4294967296).toNat : Int) = v % 4294967296 := by omega
  push_cast
  rw [h]
  have hd : ((2 : Int) ^ n) ∣ 4294967296 := by
    have : (4294967296 : Int) = 2 ^ 32 := by norm_num
    rw [this]
    exact pow_dvd_pow 2 hn
  exact Int.emod_emod_of_dvd v hd

/-- C1: on a stream `s` that is not in tail mode and has room for `ceil(n/8)` bytes
below the write limit, `writeInt(v, n)` succeeds; `readInt(n)` on a stream `r` over the
written bytes, started at the same offset (not in tail mode, room below the read limit),
returns `v & ((1 << n) - 1)`, which is `v mod 2^n`, when `n < 32`, and `v` itself when
`n = 32`. -/
theorem writeInt_readInt_roundtrip (s r : BitStream) (v : Int) (n : Nat)
    (hv : -2147483648 ≤ v ∧ v < 2147483648) (hn : 1 ≤ n ∧ n ≤ 32)
    (hts : s.tailFlag = false) (hpos : 0 ≤ s.bitNum)
    (hbuf : s.bitNum / 8 + ((n : Int) + 7) / 8 ≤ s.dataPtr.length)
    (hw : s.bitNum + 8 * (((n : Int) + 7) / 8) ≤ s.maxWriteBitNum)
    (hrb : r.bitNum = s.bitNum) (hrt : r.tailFlag = false)
    (hrl : r.bitNum + 8 * (((n : Int) + 7) / 8) ≤ r.maxReadBitNum) :
    ∃ s1, writeInt s v n = some s1 ∧
      ∃ r1, readInt { r with dataPtr := s1.dataPtr } n
          = some (if n = 32 then v else andS32 v (2 ^ n - 1), r1)
        ∧ (n < 32 → andS32 v (2 ^ n - 1) = v % 2 ^ n) := by
  obtain ⟨o, ho⟩ := Int.eq_ofNat_of_zero_le (show 0 ≤ s.bitNum / 8 by omega)
  have hk : (roundBits (n : Int) + 7) / 8 = (((n + 7) / 8 : Nat) : Int) := by
    rw [roundBits_eq]; omega
  have hk4 : 1 ≤ (n + 7) / 8 ∧ (n + 7) / 8 ≤ 4 := by omega
  have hn0 : (n : Int) ≠ 0 := by omega
  have hlen : (PutUint32 (toU32 v)).length = 4 := rfl
  have hW := writeBits_ok s n (PutUint32 (toU32 v)) o ((n + 7) / 8) hn0 hts
    (by rw [roundBits_eq]; omega) ho hk (by omega) (by omega)
  refine ⟨_, hW, ?_⟩
  have hR := readBits_ok
    { r with dataPtr := s.dataPtr.take o ++ (PutUint32 (toU32 v)).take ((n + 7) / 8)
        ++ s.dataPtr.drop (o + (n + 7) / 8) }
    n [0, 0, 0, 0] s.dataPtr (PutUint32 (toU32 v)) o ((n + 7) / 8)
    hn0 hrt (by rw [roundBits_eq]; show _ + r.bitNum ≤ r.maxReadBitNum; omega)
    (by show r.bitNum / 8 = _; rw [hrb]; exact ho) hk rfl (by omega) (by omega)
    (by simp; omega)
  have hand : n < 32 → andS32 v (2 ^ n - 1) = v % 2 ^ n := by
    intro h32
    rw [andS32_low v n h32 _ (toU32_pow_sub_one n h32), toU32_mod_cast v n (by omega)]
  refine ⟨{ r with
    dataPtr := s.dataPtr.take o ++ (PutUint32 (toU32 v)).take ((n + 7) / 8)
      ++ s.dataPtr.drop (o + (n + 7) / 8)
    bitNum := r.bitNum + roundBits n }, ?_, hand⟩
  unfold readInt
  rw [hR]
  simp only [Uint32_take_PutUint32 _ _ hk4]
  by_cases h32 : n = 32
  · subst h32
    have hu : toU32 v % 4294967296 = toU32 v := Nat.mod_eq_of_lt (toU32_lt v)
    simp [hu, toS32_toU32 v hv]
  · have hlt : n < 32 := by omega
    obtain ⟨sh, hsh, hm⟩ := mask32 n hlt
    have hne : ¬ ((n : Int) = 32) := by omega
    rw [if_neg hne, hsh]
    simp only [if_neg h32]
    rw [andS32_low _ n hlt _ hm, andS32_low v n hlt _ (toU32_pow_sub_one n hlt)]
    have hb : toU32 v % 2 ^ (8 * ((n + 7) / 8)) < 4294967296 :=
      lt_of_le_of_lt (Nat.mod_le _ _) (toU32_lt v)
    rw [toU32_toS32 _ hb, Nat.mod_mod_of_dvd _ (pow_dvd_pow 2 (by omega))]

theorem writeInt_readInt_roundtrip_witness :
    ∃ s1, writeInt (construct [170, 170, 170, 170] 4 (-1)) (-3) (12 : Nat) = some s1 ∧
      ∃ r1, readInt { construct [170, 170, 170, 170] 4 (-1) with dataPtr := s1.dataPtr }
            (12 : Nat)
          = some (if 12 = 32 then (-3 : Int) else andS32 (-3) (2 ^ 12 - 1), r1)
        ∧ (12 < 32 → andS32 (-3) (2 ^ 12 - 1) = (-3 : Int) % 2 ^ 12) :=
  writeInt_readInt_roundtrip (construct [170, 170, 170, 170] 4 (-1))
    (construct [170, 170, 170, 170] 4 (-1)) (-3) 12
    (by decide) (by decide) rfl (by decide) (by decide) (by decide) rfl rfl (by decide)

end Base

/-! ## C2, C5: 64 bit integers and floats -/

namespace Base

theorem toU64_lt (v : Int) : toU64 v < 18446744073709551616 := by
  unfold toU64; omega

theorem toU64_toS64 (p : Nat) (h : p < 18446744073709551616) : toU64 (toS64 p) = p := by
  unfold toU64 toS64
  split <;> omega

theorem toS64_toU64 (v : Int) (h : -9223372036854775808 ≤ v ∧ v < 9223372036854775808) :
    toS64 (toU64 v) = v := by
  unfold toU64 toS64
  split <;> omega

theorem Uint64_take_PutUint64 (u k : Nat) (hk : 1 ≤ k ∧ k ≤ 8) :
    Uint64 ((PutUint64 u).take k ++ [0, 0, 0, 0, 0, 0, 0, 0].drop k) = u % 2 ^ (8 * k) := by
  obtain ⟨h1, h8⟩ := hk
  interval_cases k <;> simp [PutUint64, Uint64] <;> omega

theorem mask64 (n : Nat) (hn : n < 32) :
    ∃ sh, shlS32 1 (n : Int) = some sh ∧ toU64 (subS32 sh 1) = 2 ^ n - 1 := by
  interval_cases n <;> exact ⟨_, rfl, rfl⟩

theorem toU64_pow_sub_one (n : Nat) (hn : n < 64) : toU64 ((2 : Int) ^ n - 1) = 2 ^ n - 1 := by
  interval_cases n <;> rfl

theorem andS64_low (a : Int) (n : Nat) (hn : n < 64) (m : Int) (hm : toU64 m = 2 ^ n - 1) :
    andS64 a m = ((toU64 a % 2 ^ n : Nat) : Int) := by
  unfold andS64
  rw [hm, Nat.and_pow_two_sub_one_eq_mod]
  have h1 : toU64 a % 2 ^ n < 2 ^ n := Nat.mod_lt _ (by positivity)
  have h2 : 2 ^ n ≤ 2 ^ 63 := Nat.pow_le_pow_right (by norm_num) (by omega)
  unfold toS64
  have h3 : toU64 a % 2 ^ n % 18446744073709551616 = toU64 a % 2 ^ n :=
    Nat.mod_eq_of_lt (by omega)
  rw [h3, if_pos (by omega)]

theorem toU64_mod_cast (v : Int) (n : Nat) (hn : n ≤ 64) :
    ((toU64 v % 2 ^ n : Nat) : Int) = v % 2 ^ n := by
  unfold toU64
  have h : ((v % 18446744073709551616).toNat : Int) = v % 18446744073709551616 := by omega
  push_cast
  rw [h]
  have hd : ((2 : Int) ^ n) ∣ 18446744073709551616 := by
    have : (18446744073709551616 : Int) = 2 ^ 64 := by norm_num
    rw [this]
    exact pow_dvd_pow 2 hn
  exact Int.emod_emod_of_dvd v hd

/-- The 64 bit round trip on the widths where the `int` mask of `readInt64` is
defined and wide enough: `1 ≤ n ≤ 31`, and `n = 64` where no mask is applied. -/
theorem writeInt64_readInt64_ok (s r : BitStream) (v : Int) (n : Nat)
    (hv : -9223372036854775808 ≤ v ∧ v < 9223372036854775808)
    (hn : 1 ≤ n ∧ (n < 32 ∨ n = 64))
    (hts : s.tailFlag = false) (hpos : 0 ≤ s.bitNum)
    (hbuf : s.bitNum / 8 + ((n : Int) + 7) / 8 ≤ s.dataPtr.length)
    (hw : s.bitNum + 8 * (((n : Int) + 7) / 8) ≤ s.maxWriteBitNum)
    (hrb : r.bitNum = s.bitNum) (hrt : r.tailFlag = false)
    (hrl : r.bitNum + 8 * (((n : Int) + 7) / 8) ≤ r.maxReadBitNum) :
    ∃ s1, writeInt64 s v n = some s1 ∧
      ∃ r1, readInt64 { r with dataPtr := s1.dataPtr } n
          = some (if n = 64 then v else andS64 v (2 ^ n - 1), r1)
        ∧ (n < 64 → andS64 v (2 ^ n - 1) = v % 2 ^ n) := by
  obtain ⟨o, ho⟩ := Int.eq_ofNat_of_zero_le (show 0 ≤ s.bitNum / 8 by omega)
  have hk : (roundBits (n : Int) + 7) / 8 = (((n + 7) / 8 : Nat) : Int) := by
    rw [roundBits_eq]; omega
  have hk8 : 1 ≤ (n + 7) / 8 ∧ (n + 7) / 8 ≤ 8 := by omega
  have hn0 : (n : Int) ≠ 0 := by omega
  have hlen : (PutUint64 (toU64 v)).length = 8 := rfl
  have hW := writeBits_ok s n (PutUint64 (toU64 v)) o ((n + 7) / 8) hn0 hts
    (by rw [roundBits_eq]; omega) ho hk (by omega) (by omega)
  refine ⟨_, hW, ?_⟩
  have hR := readBits_ok
    { r with dataPtr := s.dataPtr.take o ++ (PutUint64 (toU64 v)).take ((n + 7) / 8)
        ++ s.dataPtr.drop (o + (n + 7) / 8) }
    n [0, 0, 0, 0, 0, 0, 0, 0] s.dataPtr (PutUint64 (toU64 v)) o
    ((n + 7) / 8) hn0 hrt (by rw [roundBits_eq]; show _ + r.bitNum ≤ r.maxReadBitNum; omega)
    (by show r.bitNum / 8 = _; rw [hrb]; exact ho) hk rfl
    (by omega) (by omega) (by simp; omega)
  have hand : n < 64 → andS64 v (2 ^ n - 1) = v % 2 ^ n := by
    intro h64
    rw [andS64_low v n h64 _ (toU64_pow_sub_one n h64), toU64_mod_cast v n (by omega)]
  refine ⟨{ r with
    dataPtr := s.dataPtr.take o ++ (PutUint64 (toU64 v)).take ((n + 7) / 8)
      ++ s.dataPtr.drop (o + (n + 7) / 8)
    bitNum := r.bitNum + roundBits n }, ?_, hand⟩
  unfold readInt64
  rw [hR]
  simp only [Uint64_take_PutUint64 _ _ hk8]
  by_cases h64 : n = 64
  · subst h64
    have hu : toU64 v % 18446744073709551616 = toU64 v := Nat.mod_eq_of_lt (toU64_lt v)
    simp [hu, toS64_toU64 v hv]
  · have hlt : n < 32 := by omega
    obtain ⟨sh, hsh, hm⟩ := mask64 n hlt
    have hne : ¬ ((n : Int) = 64) := by omega
    rw [if_neg hne, hsh]
    simp only [if_neg h64]
    rw [andS64_low _ n (by omega) _ hm, andS64_low v n (by omega) _ (toU64_pow_sub_one n (by omega))]
    have hb : toU64 v % 2 ^ (8 * ((n + 7) / 8)) < 18446744073709551616 :=
      lt_of_le_of_lt (Nat.mod_le _ _) (toU64_lt v)
    rw [toU64_toS64 _ hb, Nat.mod_mod_of_dvd _ (pow_dvd_pow 2 (by omega))]

/-- Whatever value of type `int` the mask `(1 << S64(33)) - 1` takes, masking the five
bytes `0x300000000` read by `readInt64(33)` with it does not give `0x100000000`, the
low 33 bits: an `int` converted to `S64` has equal bits 32 and 33. -/
theorem readInt64_int_mask_too_narrow (m : Int) (hm : -2147483648 ≤ m ∧ m < 2147483648) :
    andS64 (toS64 (Uint64 ((PutUint64 (toU64 12884901888)).take 5
      ++ [0, 0, 0, 0, 0, 0, 0, 0].drop 5))) m ≠ 4294967296 := by
  have hret : toS64 (Uint64 ((PutUint64 (toU64 12884901888)).take 5
      ++ [0, 0, 0, 0, 0, 0, 0, 0].drop 5)) = 12884901888 := by rfl
  rw [hret]
  unfold andS64
  have h1 : toU64 12884901888 = 12884901888 := by rfl
  rw [h1]
  intro h
  have hlt : 12884901888 &&& toU64 m < 18446744073709551616 :=
    lt_of_le_of_lt Nat.and_le_left (by norm_num)
  have h2 : 12884901888 &&& toU64 m = 4294967296 := by
    unfold toS64 at h
    split at h <;> omega
  have b32 : (12884901888 &&& toU64 m).testBit 32 = true := by rw [h2]; rfl
  have b33 : (12884901888 &&& toU64 m).testBit 33 = false := by rw [h2]; rfl
  rw [Nat.testBit_and] at b32 b33
  have c32 : (toU64 m).testBit 32 = true := by
    have : (12884901888 : Nat).testBit 32 = true := by rfl
    rw [this] at b32; simpa using b32
  have c33 : (toU64 m).testBit 33 = false := by
    have : (12884901888 : Nat).testBit 33 = true := by rfl
    rw [this] at b33; simpa using b33
  rw [Nat.testBit_to_div_mod] at c32 c33
  simp only [decide_eq_true_eq, decide_eq_false_iff_not] at c32 c33
  unfold toU64 at c32 c33
  omega

end Base

namespace Base

/-- C2: on a fresh 8 byte stream `writeInt64(0x300000000, 33)` stores the five bytes
`00 00 00 00 03`, and `readInt64(33)` from offset 0 then evaluates the `int` shift
`1 << S64(33)`, whose count exceeds the width of `int`: the read has no defined result,
where the round trip asks for `0x300000000 & (2^33 - 1) = 0x100000000`. -/
theorem readInt64_width33_undefined :
    ∃ s1, writeInt64 (construct [0, 0, 0, 0, 0, 0, 0, 0] 8 (-1)) 12884901888 33 = some s1
      ∧ s1.dataPtr = [0, 0, 0, 0, 3, 0, 0, 0]
      ∧ andS64 12884901888 (2 ^ 33 - 1) = 4294967296
      ∧ readInt64 (setPosition s1 0).2 33 = none :=
  ⟨_, rfl, rfl, rfl, rfl⟩

theorem toS32_range (p : Nat) : -2147483648 ≤ toS32 p ∧ toS32 p < 2147483648 := by
  unfold toS32
  split <;> omega

theorem toS64_range (p : Nat) :
    -9223372036854775808 ≤ toS64 p ∧ toS64 p < 9223372036854775808 := by
  unfold toS64
  split <;> omega

theorem writeInt_readInt_full (s r : BitStream) (v : Int)
    (hv : -2147483648 ≤ v ∧ v < 2147483648)
    (hts : s.tailFlag = false) (hpos : 0 ≤ s.bitNum)
    (hbuf : s.bitNum / 8 + 4 ≤ s.dataPtr.length)
    (hw : s.bitNum + 32 ≤ s.maxWriteBitNum)
    (hrb : r.bitNum = s.bitNum) (hrt : r.tailFlag = false)
    (hrl : r.bitNum + 32 ≤ r.maxReadBitNum) :
    ∃ s1, writeInt s v 32 = some s1 ∧
      ∃ r1, readInt { r with dataPtr := s1.dataPtr } 32 = some (v, r1) := by
  obtain ⟨o, ho⟩ := Int.eq_ofNat_of_zero_le (show 0 ≤ s.bitNum / 8 by omega)
  have hr : roundBits 32 = 32 := rfl
  have hW := writeBits_ok s 32 (PutUint32 (toU32 v)) o 4 (by decide) hts
    (by rw [hr]; omega) ho (by rw [hr]; rfl) (by omega) (by simp [PutUint32])
  refine ⟨_, hW, ?_⟩
  have hR := readBits_ok
    { r with dataPtr := s.dataPtr.take o ++ (PutUint32 (toU32 v)).take 4
        ++ s.dataPtr.drop (o + 4) }
    32 [0, 0, 0, 0] s.dataPtr (PutUint32 (toU32 v)) o 4
    (by decide) hrt (by rw [hr]; show _ + r.bitNum ≤ r.maxReadBitNum; omega)
    (by show r.bitNum / 8 = _; rw [hrb]; exact ho) (by rw [hr]; rfl) rfl
    (by omega) (by simp [PutUint32]) (by simp)
  refine ⟨{ r with
    dataPtr := s.dataPtr.take o ++ (PutUint32 (toU32 v)).take 4 ++ s.dataPtr.drop (o + 4)
    bitNum := r.bitNum + roundBits 32 }, ?_⟩
  unfold readInt
  rw [hR]
  have hU := Uint32_take_PutUint32 (toU32 v) 4 (by omega)
  have hu : toU32 v % 2 ^ (8 * 4) = toU32 v :=
    Nat.mod_eq_of_lt (by have := toU32_lt v; norm_num; omega)
  simp only [hU, hu, toS32_toU32 v hv, if_true]

theorem writeInt64_readInt64_full (s r : BitStream) (v : Int)
    (hv : -9223372036854775808 ≤ v ∧ v < 9223372036854775808)
    (hts : s.tailFlag = false) (hpos : 0 ≤ s.bitNum)
    (hbuf : s.bitNum / 8 + 8 ≤ s.dataPtr.length)
    (hw : s.bitNum + 64 ≤ s.maxWriteBitNum)
    (hrb : r.bitNum = s.bitNum) (hrt : r.tailFlag = false)
    (hrl : r.bitNum + 64 ≤ r.maxReadBitNum) :
    ∃ s1, writeInt64 s v 64 = some s1 ∧
      ∃ r1, readInt64 { r with dataPtr := s1.dataPtr } 64 = some (v, r1) := by
  obtain ⟨o, ho⟩ := Int.eq_ofNat_of_zero_le (show 0 ≤ s.bitNum / 8 by omega)
  have hr : roundBits 64 = 64 := rfl
  have hW := writeBits_ok s 64 (PutUint64 (toU64 v)) o 8 (by decide) hts
    (by rw [hr]; omega) ho (by rw [hr]; rfl) (by omega) (by simp [PutUint64])
  refine ⟨_, hW, ?_⟩
  have hR := readBits_ok
    { r with dataPtr := s.dataPtr.take o ++ (PutUint64 (toU64 v)).take 8
        ++ s.dataPtr.drop (o + 8) }
    64 [0, 0, 0, 0, 0, 0, 0, 0] s.dataPtr (PutUint64 (toU64 v)) o 8
    (by decide) hrt (by rw [hr]; show _ + r.bitNum ≤ r.maxReadBitNum; omega)
    (by show r.bitNum / 8 = _; rw [hrb]; exact ho) (by rw [hr]; rfl) rfl
    (by omega) (by simp [PutUint64]) (by simp)
  refine ⟨{ r with
    dataPtr := s.dataPtr.take o ++ (PutUint64 (toU64 v)).take 8 ++ s.dataPtr.drop (o + 8)
    bitNum := r.bitNum + roundBits 64 }, ?_⟩
  unfold readInt64
  rw [hR]
  have hU := Uint64_take_PutUint64 (toU64 v) 8 (by omega)
  have hu : toU64 v % 2 ^ (8 * 8) = toU64 v :=
    Nat.mod_eq_of_lt (by have := toU64_lt v; norm_num; omega)
  simp only [hU, hu, toS64_toU64 v hv, if_true]

/-- C5: a float being its raw bit pattern, on a stream `s` not in tail mode with room
below the write limit, `writeFloat(f, 32)` then `readFloat(32)` from the same offset
(stream `r` over the written bytes, not in tail mode, room below the read limit) returns
exactly `f` for every 32 bit pattern `f`, and `writeFloat64(d, 64)` then
`readFloat64(64)` returns exactly `d` for every 64 bit pattern `d`: NaN and infinity
patterns are patterns like the others. -/
theorem float_roundtrip (s r : BitStream) (f d : Nat)
    (hf : f < 4294967296) (hd : d < 18446744073709551616)
    (hts : s.tailFlag = false) (hpos : 0 ≤ s.bitNum)
    (hbuf : s.bitNum / 8 + 8 ≤ s.dataPtr.length)
    (hw : s.bitNum + 64 ≤ s.maxWriteBitNum)
    (hrb : r.bitNum = s.bitNum) (hrt : r.tailFlag = false)
    (hrl : r.bitNum + 64 ≤ r.maxReadBitNum) :
    (∃ s1, writeFloat s f 32 = some s1 ∧
      ∃ r1, readFloat { r with dataPtr := s1.dataPtr } 32 = some (f, r1))
    ∧ (∃ s1, writeFloat64 s d 64 = some s1 ∧
      ∃ r1, readFloat64 { r with dataPtr := s1.dataPtr } 64 = some (d, r1)) := by
  constructor
  · obtain ⟨s1, h1, r1, h3⟩ := writeInt_readInt_full s r (toS32 f) (toS32_range f) hts hpos
      (by omega) (by omega) hrb hrt (by omega)
    refine ⟨s1, h1, r1, ?_⟩
    unfold readFloat
    rw [h3]
    simp only [toU32_toS32 f hf]
  · obtain ⟨s1, h1, r1, h3⟩ := writeInt64_readInt64_full s r (toS64 d) (toS64_range d) hts hpos
      hbuf hw hrb hrt hrl
    refine ⟨s1, h1, r1, ?_⟩
    unfold readFloat64
    rw [h3]
    simp only [toU64_toS64 d hd]

theorem float_roundtrip_witness :
    (∃ s1, writeFloat (construct [0, 0, 0, 0, 0, 0, 0, 0] 8 (-1)) 2143289344 32 = some s1 ∧
      ∃ r1, readFloat { construct [0, 0, 0, 0, 0, 0, 0, 0] 8 (-1) with dataPtr := s1.dataPtr } 32
        = some (2143289344, r1))
    ∧ (∃ s1, writeFloat64 (construct [0, 0, 0, 0, 0, 0, 0, 0] 8 (-1)) 18442240474082181120 64
        = some s1 ∧
      ∃ r1, readFloat64 { construct [0, 0, 0, 0, 0, 0, 0, 0] 8 (-1) with dataPtr := s1.dataPtr }
        64 = some (18442240474082181120, r1)) :=
  float_roundtrip (construct [0, 0, 0, 0, 0, 0, 0, 0] 8 (-1))
    (construct [0, 0, 0, 0, 0, 0, 0, 0] 8 (-1)) 2143289344 18442240474082181120
    (by decide) (by decide) rfl (by decide) (by decide) (by decide) rfl rfl (by decide)

end Base

/-! ## Flags: single steps of writeFlag and readFlag -/

namespace Base

theorem flagByte_testBit (c k j : Nat) (val : Bool) (hk : k < 8) (hj : j < 8) :
    (flagByte c k val).testBit j = if k = j then val else c.testBit j := by
  unfold flagByte
  have h256 : (256 : Nat) = 2 ^ 8 := by norm_num
  have hm : (4294967295 : Nat) - 1 <<< k = 2 ^ 32 - (2 ^ k + 1) := by
    rw [Nat.one_shiftLeft]; omega
  have hlt : 2 ^ k < 2 ^ 32 := Nat.pow_lt_pow_right (by norm_num) (by omega)
  rw [h256, Nat.testBit_mod_two_pow]
  cases val
  · simp only [Bool.false_eq_true, if_false, hm, Nat.testBit_and,
      Nat.testBit_two_pow_sub_succ hlt, Nat.testBit_two_pow]
    by_cases hkj : k = j
    · simp [hkj, hj]
    · simp [hkj, hj]; intro _; omega
  · simp only [if_true, Nat.one_shiftLeft, Nat.testBit_or, Nat.testBit_two_pow]
    by_cases hkj : k = j
    · simp [hkj, hj]
    · simp [hkj, hj]

theorem flag_read_testBit (c k : Nat) :
    decide (c &&& (1 <<< k) ≠ 0) = c.testBit k := by
  rw [Nat.one_shiftLeft, Nat.and_two_pow]
  cases h : c.testBit k
  · simp
  · simp

theorem flagByte_lt (c k : Nat) (val : Bool) : flagByte c k val < 256 := by
  unfold flagByte
  exact Nat.mod_lt _ (by norm_num)

/-- Behaviour of `writeFlag` when the flag cursor is at a slot boundary and a slot can be reserved. -/
theorem writeFlag_newslot (s : BitStream) (val : Bool) (i : Nat)
    (hal : s.flagNum % 8 = 0) (ht : s.tailFlag = false)
    (hroom : s.bitNum + 8 < s.maxWriteBitNum)
    (hi : s.bitNum / 8 = (i : Int)) (hlen : i < s.dataPtr.length)
    (h31 : s.bitNum + 8 < 2147483648) :
    writeFlag s val = some (val, { s with
      dataPtr := s.dataPtr.set i (flagByte (s.dataPtr.getD i 0) (s.bitNum % 8).toNat val)
      bitNum := s.bitNum + 8
      flagNum := s.bitNum + 1 }) := by
  have h8 : addS32 s.bitNum 8 = s.bitNum + 8 := addS32_eq _ _ (by omega)
  have hf1 := addS32_le s.bitNum 1 (by omega)
  unfold writeFlag
  have h1 : s.flagNum - s.flagNum / 8 * 8 = 0 := by omega
  simp only [h1, ht, and_self, if_true, h8, hroom]
  rw [if_neg (by omega)]
  simp only [getByte, setByte, hi]
  rw [if_pos (by omega)]
  simp only [Int.toNat_ofNat]
  rw [if_pos (by omega)]
  simp only [Int.toNat_ofNat, flagByte]

/-- Behaviour of `writeFlag` inside a slot, or in tail mode: no reservation. -/
theorem writeFlag_inslot (s : BitStream) (val : Bool) (i : Nat)
    (hal : s.flagNum % 8 ≠ 0 ∨ s.tailFlag = true)
    (hroom : s.flagNum + 1 ≤ s.maxWriteBitNum)
    (hi : s.flagNum / 8 = (i : Int)) (hlen : i < s.dataPtr.length) :
    writeFlag s val = some (val, { s with
      dataPtr := s.dataPtr.set i (flagByte (s.dataPtr.getD i 0) (s.flagNum % 8).toNat val)
      flagNum := s.flagNum + 1 }) := by
  have hf1 := addS32_le s.flagNum 1 (by omega)
  unfold writeFlag
  have h1 : ¬ (s.flagNum - s.flagNum / 8 * 8 = 0 ∧ s.tailFlag = false) := by
    rintro ⟨h, h2⟩
    rcases hal with h3 | h3
    · omega
    · rw [h3] at h2; exact absurd h2 (by decide)
  simp only [h1, if_false]
  rw [if_neg (by omega)]
  simp only [getByte, setByte, hi]
  rw [if_pos (by omega)]
  simp only [Int.toNat_ofNat]
  rw [if_pos (by omega)]
  simp only [Int.toNat_ofNat, flagByte]

/-- Behaviour of `readFlag` when the flag cursor is at a slot boundary and a slot can be reserved. -/
theorem readFlag_newslot (s : BitStream) (i : Nat)
    (hal : s.flagNum % 8 = 0) (ht : s.tailFlag = false)
    (hroom : s.bitNum + 8 < s.maxReadBitNum)
    (hi : s.bitNum / 8 = (i : Int)) (hlen : i < s.dataPtr.length)
    (h31 : s.bitNum + 8 < 2147483648) :
    readFlag s = some ((s.dataPtr.getD i 0).testBit (s.bitNum % 8).toNat, { s with
      bitNum := s.bitNum + 8
      flagNum := s.bitNum + 1 }) := by
  have h8 : addS32 s.bitNum 8 = s.bitNum + 8 := addS32_eq _ _ (by omega)
  have hf1 := addS32_le s.bitNum 1 (by omega)
  unfold readFlag
  have h1 : s.flagNum - s.flagNum / 8 * 8 = 0 := by omega
  simp only [h1, ht, and_self, if_true, h8, hroom]
  rw [if_neg (by omega)]
  simp only [getByte, hi]
  rw [if_pos (by omega)]
  simp only [Int.toNat_ofNat, flag_read_testBit]

/-- Behaviour of `readFlag` inside a slot, or in tail mode: no reservation. -/
theorem readFlag_inslot (s : BitStream) (i : Nat)
    (hal : s.flagNum % 8 ≠ 0 ∨ s.tailFlag = true)
    (hroom : s.flagNum + 1 ≤ s.maxReadBitNum)
    (hi : s.flagNum / 8 = (i : Int)) (hlen : i < s.dataPtr.length) :
    readFlag s = some ((s.dataPtr.getD i 0).testBit (s.flagNum % 8).toNat, { s with
      flagNum := s.flagNum + 1 }) := by
  have hf1 := addS32_le s.flagNum 1 (by omega)
  unfold readFlag
  have h1 : ¬ (s.flagNum - s.flagNum / 8 * 8 = 0 ∧ s.tailFlag = false) := by
    rintro ⟨h, h2⟩
    rcases hal with h3 | h3
    · omega
    · rw [h3] at h2; exact absurd h2 (by decide)
  simp only [h1, if_false]
  rw [if_neg (by omega)]
  simp only [getByte, hi]
  rw [if_pos (by omega)]
  simp only [Int.toNat_ofNat, flag_read_testBit]

end Base

namespace Base

theorem memcpy_from (buff src : List Nat) (o k : Nat)
    (h1 : o + k ≤ src.length) (h3 : k ≤ buff.length) :
    memcpy buff 0 src (o : Int) (k : Int) = some ((src.drop o).take k ++ buff.drop k) := by
  unfold memcpy
  rw [if_pos (by omega)]
  simp

theorem readBits_eq (s : BitStream) (bitCount : Int) (buff : List Nat) (o k : Nat)
    (h0 : bitCount ≠ 0) (ht : s.tailFlag = false)
    (hlim : roundBits bitCount + s.bitNum ≤ s.maxReadBitNum)
    (ho : s.bitNum / 8 = (o : Int)) (hk : (roundBits bitCount + 7) / 8 = (k : Int))
    (h1 : o + k ≤ s.dataPtr.length) (h3 : k ≤ buff.length) :
    readBits s bitCount buff
      = some ((s.dataPtr.drop o).take k ++ buff.drop k,
          { s with bitNum := s.bitNum + roundBits bitCount }) := by
  have hr := roundBits_eq bitCount
  have hle := addS32_le (roundBits bitCount) s.bitNum (by omega)
  unfold readBits
  rw [if_neg h0, ht]
  simp only [Bool.false_eq_true, if_false]
  rw [if_neg (by omega), ho, hk, memcpy_from _ _ _ _ h1 h3]

/-- Decoding by `readInt` of bytes that hold the low bytes of `v`. -/
theorem readInt_decode (r : BitStream) (v : Int) (n o : Nat)
    (hv : -2147483648 ≤ v ∧ v < 2147483648) (hn : 1 ≤ n ∧ n ≤ 32)
    (hrt : r.tailFlag = false)
    (hlim : r.bitNum + 8 * (((n : Int) + 7) / 8) ≤ r.maxReadBitNum)
    (ho : r.bitNum / 8 = (o : Int)) (hlen : o + (n + 7) / 8 ≤ r.dataPtr.length)
    (hc : (r.dataPtr.drop o).take ((n + 7) / 8) = (PutUint32 (toU32 v)).take ((n + 7) / 8)) :
    readInt r n = some (if n = 32 then v else v % 2 ^ n,
      { r with bitNum := r.bitNum + 8 * (((n : Int) + 7) / 8) }) := by
  have hk : (roundBits (n : Int) + 7) / 8 = (((n + 7) / 8 : Nat) : Int) := by
    rw [roundBits_eq]; omega
  have hk4 : 1 ≤ (n + 7) / 8 ∧ (n + 7) / 8 ≤ 4 := by omega
  have hn0 : (n : Int) ≠ 0 := by omega
  have hR := readBits_eq r n [0, 0, 0, 0] o ((n + 7) / 8) hn0 hrt
    (by rw [roundBits_eq]; omega) ho hk hlen (by simp; omega)
  unfold readInt
  rw [hR, hc, roundBits_eq]
  simp only [Uint32_take_PutUint32 _ _ hk4]
  by_cases h32 : n = 32
  · subst h32
    have hu : toU32 v % 4294967296 = toU32 v := Nat.mod_eq_of_lt (toU32_lt v)
    simp [hu, toS32_toU32 v hv]
  · have hlt : n < 32 := by omega
    obtain ⟨sh, hsh, hm⟩ := mask32 n hlt
    have hne : ¬ ((n : Int) = 32) := by omega
    rw [if_neg hne, hsh]
    simp only [if_neg h32]
    rw [andS32_low _ n hlt _ hm]
    have hb : toU32 v % 2 ^ (8 * ((n + 7) / 8)) < 4294967296 :=
      lt_of_le_of_lt (Nat.mod_le _ _) (toU32_lt v)
    rw [toU32_toS32 _ hb, Nat.mod_mod_of_dvd _ (pow_dvd_pow 2 (by omega)),
      toU32_mod_cast v n (by omega)]

end Base

/-! ## C4: flags interleaved with data -/

namespace Base

theorem writeInt_eq (s : BitStream) (v : Int) (n o : Nat) (hn : 1 ≤ n ∧ n ≤ 32)
    (ht : s.tailFlag = false)
    (hlim : s.bitNum + 8 * (((n : Int) + 7) / 8) ≤ s.maxWriteBitNum)
    (ho : s.bitNum / 8 = (o : Int)) (h1 : o + (n + 7) / 8 ≤ s.dataPtr.length) :
    writeInt s v n = some { s with
      dataPtr := s.dataPtr.take o ++ (PutUint32 (toU32 v)).take ((n + 7) / 8)
        ++ s.dataPtr.drop (o + (n + 7) / 8)
      bitNum := s.bitNum + 8 * (((n : Int) + 7) / 8) } := by
  have hk : (roundBits (n : Int) + 7) / 8 = (((n + 7) / 8 : Nat) : Int) := by
    rw [roundBits_eq]; omega
  have hlen : (PutUint32 (toU32 v)).length = 4 := rfl
  unfold writeInt
  rw [writeBits_ok s n (PutUint32 (toU32 v)) o ((n + 7) / 8) (by omega) ht
    (by rw [roundBits_eq]; omega) ho hk h1 (by omega), roundBits_eq]

theorem byte_take_PutUint32 (x : Int) (hx : 0 ≤ x ∧ x ≤ 255) :
    (PutUint32 (toU32 x)).take 1 = [x.toNat] := by
  have : toU32 x = x.toNat := by unfold toU32; omega
  simp [PutUint32, this]
  omega

theorem flag_data_core (a b c d : Nat) (rest : List Nat) (B Rd W L : Int) (b1 b2 : Bool)
    (x y : Int) (hW : 32 ≤ W) (hR : 32 ≤ Rd)
    (hx : 0 ≤ x ∧ x ≤ 255) (hy : 0 ≤ y ∧ y ≤ 255) :
    ∃ s1 s2 s3 s4 s5 s6 s7 s8 s9,
      writeFlag ⟨a :: b :: c :: d :: rest, 0, 0, false, B, Rd, W, L, false⟩ b1 = some (b1, s1)
      ∧ writeInt s1 x 8 = some s2
      ∧ writeFlag s2 b2 = some (b2, s3)
      ∧ writeInt s3 y 8 = some s4
      ∧ setPosition s4 0 = (true, s5)
      ∧ readFlag s5 = some (b1, s6)
      ∧ readInt s6 8 = some (x, s7)
      ∧ readFlag s7 = some (b2, s8)
      ∧ readInt s8 8 = some (y, s9) := by
  have hxr : -2147483648 ≤ x ∧ x < 2147483648 := by omega
  have hyr : -2147483648 ≤ y ∧ y < 2147483648 := by omega
  have hxm : x % 2 ^ 8 = x := by norm_num; omega
  have hym : y % 2 ^ 8 = y := by norm_num; omega
  have e1 : writeFlag ⟨a :: b :: c :: d :: rest, 0, 0, false, B, Rd, W, L, false⟩ b1
      = some (b1, ⟨flagByte a 0 b1 :: b :: c :: d :: rest, 8, 1, false, B, Rd, W, L, false⟩) := by
    rw [writeFlag_newslot ⟨a :: b :: c :: d :: rest, 0, 0, false, B, Rd, W, L, false⟩ b1 0 rfl rfl
      (by show (0 : Int) + 8 < W; omega) rfl (by simp) (by norm_num)]
    simp
  have e2 : writeInt ⟨flagByte a 0 b1 :: b :: c :: d :: rest, 8, 1, false, B, Rd, W, L, false⟩ x 8
      = some ⟨flagByte a 0 b1 :: x.toNat :: c :: d :: rest, 16, 1, false, B, Rd, W, L, false⟩ := by
    have h := writeInt_eq ⟨flagByte a 0 b1 :: b :: c :: d :: rest, 8, 1, false, B, Rd, W, L, false⟩
      x 8 1 (by omega) rfl (by show (8 : Int) + 8 * ((((8 : Nat) : Int) + 7) / 8) ≤ W; omega)
      rfl (by simp)
    rw [show (8 + 7) / 8 = 1 from rfl, byte_take_PutUint32 x hx] at h
    simpa using h
  have e3 : writeFlag ⟨flagByte a 0 b1 :: x.toNat :: c :: d :: rest, 16, 1, false, B, Rd, W, L, false⟩ b2
      = some (b2, ⟨flagByte (flagByte a 0 b1) 1 b2 :: x.toNat :: c :: d :: rest, 16, 2, false, B, Rd, W, L, false⟩) := by
    rw [writeFlag_inslot ⟨flagByte a 0 b1 :: x.toNat :: c :: d :: rest, 16, 1, false, B, Rd, W, L, false⟩ b2 0 (Or.inl (by show (1 : Int) % 8 ≠ 0; omega))
      (by show (1 : Int) + 1 ≤ W; omega) rfl (by simp)]
    simp
  have e4 : writeInt ⟨flagByte (flagByte a 0 b1) 1 b2 :: x.toNat :: c :: d :: rest, 16, 2, false, B, Rd, W, L, false⟩ y 8
      = some ⟨flagByte (flagByte a 0 b1) 1 b2 :: x.toNat :: y.toNat :: d :: rest, 24, 2, false, B, Rd, W, L, false⟩ := by
    have h := writeInt_eq ⟨flagByte (flagByte a 0 b1) 1 b2 :: x.toNat :: c :: d :: rest, 16, 2, false, B, Rd, W, L, false⟩
      y 8 2 (by omega) rfl (by show (16 : Int) + 8 * ((((8 : Nat) : Int) + 7) / 8) ≤ W; omega)
      rfl (by simp)
    rw [show (8 + 7) / 8 = 1 from rfl, byte_take_PutUint32 y hy] at h
    simpa using h
  have e5 : setPosition ⟨flagByte (flagByte a 0 b1) 1 b2 :: x.toNat :: y.toNat :: d :: rest, 24, 2, false, B, Rd, W, L, false⟩ 0
      = (true, ⟨flagByte (flagByte a 0 b1) 1 b2 :: x.toNat :: y.toNat :: d :: rest, 0, 0, false, B, Rd, W, L, false⟩) := by
    simp [setPosition]
    rfl
  have e6 : readFlag ⟨flagByte (flagByte a 0 b1) 1 b2 :: x.toNat :: y.toNat :: d :: rest, 0, 0, false, B, Rd, W, L, false⟩
      = some (b1, ⟨flagByte (flagByte a 0 b1) 1 b2 :: x.toNat :: y.toNat :: d :: rest, 8, 1, false, B, Rd, W, L, false⟩) := by
    rw [readFlag_newslot ⟨flagByte (flagByte a 0 b1) 1 b2 :: x.toNat :: y.toNat :: d :: rest, 0, 0, false, B, Rd, W, L, false⟩ 0 rfl rfl
      (by show (0 : Int) + 8 < Rd; omega) rfl (by simp) (by norm_num)]
    have hb : (flagByte (flagByte a 0 b1) 1 b2).testBit 0 = b1 := by
      rw [flagByte_testBit _ 1 0 b2 (by omega) (by omega),
        flagByte_testBit _ 0 0 b1 (by omega) (by omega)]
      simp
    simp [hb]
  have e7 : readInt ⟨flagByte (flagByte a 0 b1) 1 b2 :: x.toNat :: y.toNat :: d :: rest, 8, 1, false, B, Rd, W, L, false⟩ 8
      = some (x, ⟨flagByte (flagByte a 0 b1) 1 b2 :: x.toNat :: y.toNat :: d :: rest, 16, 1, false, B, Rd, W, L, false⟩) := by
    have h := readInt_decode ⟨flagByte (flagByte a 0 b1) 1 b2 :: x.toNat :: y.toNat :: d :: rest, 8, 1, false, B, Rd, W, L, false⟩
      x 8 1 hxr (by omega) rfl
      (by show (8 : Int) + 8 * ((((8 : Nat) : Int) + 7) / 8) ≤ Rd; omega) rfl (by simp)
      (by rw [show (8 + 7) / 8 = 1 from rfl, byte_take_PutUint32 x hx]; simp)
    rw [hxm] at h
    simpa using h
  have e8 : readFlag ⟨flagByte (flagByte a 0 b1) 1 b2 :: x.toNat :: y.toNat :: d :: rest, 16, 1, false, B, Rd, W, L, false⟩
      = some (b2, ⟨flagByte (flagByte a 0 b1) 1 b2 :: x.toNat :: y.toNat :: d :: rest, 16, 2, false, B, Rd, W, L, false⟩) := by
    rw [readFlag_inslot ⟨flagByte (flagByte a 0 b1) 1 b2 :: x.toNat :: y.toNat :: d :: rest, 16, 1, false, B, Rd, W, L, false⟩ 0 (Or.inl (by show (1 : Int) % 8 ≠ 0; omega))
      (by show (1 : Int) + 1 ≤ Rd; omega) rfl (by simp)]
    have hb : (flagByte (flagByte a 0 b1) 1 b2).testBit 1 = b2 := by
      rw [flagByte_testBit _ 1 1 b2 (by omega) (by omega)]
      simp
    simp [hb]
  have e9 : readInt ⟨flagByte (flagByte a 0 b1) 1 b2 :: x.toNat :: y.toNat :: d :: rest, 16, 2, false, B, Rd, W, L, false⟩ 8
      = some (y, ⟨flagByte (flagByte a 0 b1) 1 b2 :: x.toNat :: y.toNat :: d :: rest, 24, 2, false, B, Rd, W, L, false⟩) := by
    have h := readInt_decode ⟨flagByte (flagByte a 0 b1) 1 b2 :: x.toNat :: y.toNat :: d :: rest, 16, 2, false, B, Rd, W, L, false⟩
      y 8 2 hyr (by omega) rfl
      (by show (16 : Int) + 8 * ((((8 : Nat) : Int) + 7) / 8) ≤ Rd; omega) rfl (by simp)
      (by rw [show (8 + 7) / 8 = 1 from rfl, byte_take_PutUint32 y hy]; simp)
    rw [hym] at h
    simpa using h
  exact ⟨_, _, _, _, _, _, _, _, _, e1, e2, e3, e4, e5, e6, e7, e8, e9⟩

/-- C4: on a freshly bound stream with a capacity of at least 4 bytes (the buffer has
at least 4 bytes, and the write limit and the read limit the binding leaves in the
stream, `maxSize << 3` and `size << 3` as `S32`, are at least 32 bits, as they are for
every size and write size from 4 up to `2^28 - 1`), for all flags `b1`, `b2` and all
`x`, `y` in `0..255`, the writes `writeFlag(b1)`, `writeInt(x, 8)`, `writeFlag(b2)`,
`writeInt(y, 8)` all succeed, and after `setPosition(0)` the reads `readFlag()`,
`readInt(8)`, `readFlag()`, `readInt(8)` return `b1`, `x`, `b2`, `y` in that order. -/
theorem flag_data_interleaving (buf : List Nat) (size maxSize : Int) (b1 b2 : Bool)
    (x y : Int) (hcap : 4 ≤ buf.length)
    (hW : 32 ≤ (construct buf size maxSize).maxWriteBitNum)
    (hR : 32 ≤ (construct buf size maxSize).maxReadBitNum)
    (hx : 0 ≤ x ∧ x ≤ 255) (hy : 0 ≤ y ∧ y ≤ 255) :
    ∃ s1 s2 s3 s4 s5 s6 s7 s8 s9,
      writeFlag (construct buf size maxSize) b1 = some (b1, s1)
      ∧ writeInt s1 x 8 = some s2
      ∧ writeFlag s2 b2 = some (b2, s3)
      ∧ writeInt s3 y 8 = some s4
      ∧ setPosition s4 0 = (true, s5)
      ∧ readFlag s5 = some (b1, s6)
      ∧ readInt s6 8 = some (x, s7)
      ∧ readFlag s7 = some (b2, s8)
      ∧ readInt s8 8 = some (y, s9) := by
  obtain ⟨a, tl, rfl⟩ := List.exists_cons_of_length_pos (show 0 < buf.length by omega)
  obtain ⟨b, tl, rfl⟩ := List.exists_cons_of_length_pos
    (show 0 < tl.length by simp at hcap; omega)
  obtain ⟨c, tl, rfl⟩ := List.exists_cons_of_length_pos
    (show 0 < tl.length by simp at hcap; omega)
  obtain ⟨d, rest, rfl⟩ := List.exists_cons_of_length_pos
    (show 0 < tl.length by simp at hcap; omega)
  exact flag_data_core a b c d rest _ _ _ _ b1 b2 x y hW hR hx hy

theorem flag_data_interleaving_witness :
    ∃ s1 s2 s3 s4 s5 s6 s7 s8 s9,
      writeFlag (construct [0, 0, 0, 0] 4 (-1)) true = some (true, s1)
      ∧ writeInt s1 5 8 = some s2
      ∧ writeFlag s2 false = some (false, s3)
      ∧ writeInt s3 7 8 = some s4
      ∧ setPosition s4 0 = (true, s5)
      ∧ readFlag s5 = some (true, s6)
      ∧ readInt s6 8 = some (5, s7)
      ∧ readFlag s7 = some (false, s8)
      ∧ readInt s8 8 = some (7, s9) :=
  flag_data_interleaving [0, 0, 0, 0] 4 (-1) true false 5 7 (by decide) (by decide)
    (by decide) (by decide) (by decide)

end Base

/-! ## C3: strings -/

namespace Base

/-- Behaviour of `writeFlag` at a slot boundary when no slot can be reserved: tail mode is entered
and the flag goes to the bit at the main cursor. -/
theorem writeFlag_entertail (s : BitStream) (val : Bool) (i : Nat)
    (hal : s.flagNum % 8 = 0) (ht : s.tailFlag = false)
    (hroom : ¬ (s.bitNum + 8 < s.maxWriteBitNum)) (h1 : s.bitNum + 1 ≤ s.maxWriteBitNum)
    (hi : s.bitNum / 8 = (i : Int)) (hlen : i < s.dataPtr.length)
    (h31 : s.bitNum + 8 < 2147483648) :
    writeFlag s val = some (val, { s with
      dataPtr := s.dataPtr.set i (flagByte (s.dataPtr.getD i 0) (s.bitNum % 8).toNat val)
      flagNum := s.bitNum + 1
      tailFlag := true }) := by
  have h8 : addS32 s.bitNum 8 = s.bitNum + 8 := addS32_eq _ _ (by omega)
  have hf1 := addS32_le s.bitNum 1 (by omega)
  unfold writeFlag
  have h1 : s.flagNum - s.flagNum / 8 * 8 = 0 := by omega
  simp only [h1, ht, and_self, if_true, h8, hroom, if_false]
  rw [if_neg (by omega)]
  simp only [getByte, setByte, hi]
  rw [if_pos (by omega)]
  simp only [Int.toNat_ofNat]
  rw [if_pos (by omega)]
  simp only [Int.toNat_ofNat, flagByte]

/-- Behaviour of `readFlag` at a slot boundary when no slot can be reserved. -/
theorem readFlag_entertail (s : BitStream) (i : Nat)
    (hal : s.flagNum % 8 = 0) (ht : s.tailFlag = false)
    (hroom : ¬ (s.bitNum + 8 < s.maxReadBitNum)) (h1 : s.bitNum + 1 ≤ s.maxReadBitNum)
    (hi : s.bitNum / 8 = (i : Int)) (hlen : i < s.dataPtr.length)
    (h31 : s.bitNum + 8 < 2147483648) :
    readFlag s = some ((s.dataPtr.getD i 0).testBit (s.bitNum % 8).toNat, { s with
      flagNum := s.bitNum + 1
      tailFlag := true }) := by
  have h8 : addS32 s.bitNum 8 = s.bitNum + 8 := addS32_eq _ _ (by omega)
  have hf1 := addS32_le s.bitNum 1 (by omega)
  unfold readFlag
  have h1 : s.flagNum - s.flagNum / 8 * 8 = 0 := by omega
  simp only [h1, ht, and_self, if_true, h8, hroom, if_false]
  rw [if_neg (by omega)]
  simp only [getByte, hi]
  rw [if_pos (by omega)]
  simp only [Int.toNat_ofNat, flag_read_testBit]

theorem dStrlen_terminated (s : List Nat) (hs : ∀ c ∈ s, c ≠ 0) :
    dStrlen (s ++ [0]) = some s.length := by
  have hnot : (0 : Nat) ∉ s := fun h => hs 0 h rfl
  have hidx : (s ++ [0]).indexOf 0 = s.length := by
    rw [List.indexOf_append_of_not_mem hnot]
    simp
  unfold dStrlen
  rw [hidx, if_pos (by simp)]

theorem writeBits_bytes (s : BitStream) (src : List Nat) (o k : Nat) (hk0 : 0 < k)
    (ht : s.tailFlag = false)
    (hlim : s.bitNum + 8 * (k : Int) ≤ s.maxWriteBitNum)
    (ho : s.bitNum / 8 = (o : Int))
    (h1 : o + k ≤ s.dataPtr.length) (h2 : k ≤ src.length) :
    writeBits s ((k : Int) * 8) src
      = some { s with
          dataPtr := s.dataPtr.take o ++ src.take k ++ s.dataPtr.drop (o + k)
          bitNum := s.bitNum + 8 * (k : Int) } := by
  have hr : roundBits ((k : Int) * 8) = 8 * (k : Int) := by rw [roundBits_eq]; omega
  rw [writeBits_ok s ((k : Int) * 8) src o k (by omega) ht (by rw [hr]; omega) ho
    (by rw [hr]; omega) h1 h2, hr]

theorem readBits_bytes (s : BitStream) (buff : List Nat) (o k : Nat) (hk0 : 0 < k)
    (ht : s.tailFlag = false)
    (hlim : s.bitNum + 8 * (k : Int) ≤ s.maxReadBitNum)
    (ho : s.bitNum / 8 = (o : Int))
    (h1 : o + k ≤ s.dataPtr.length) (h3 : k ≤ buff.length) :
    readBits s ((k : Int) * 8) buff
      = some ((s.dataPtr.drop o).take k ++ buff.drop k,
          { s with bitNum := s.bitNum + 8 * (k : Int) }) := by
  have hr : roundBits ((k : Int) * 8) = 8 * (k : Int) := by rw [roundBits_eq]; omega
  rw [readBits_eq s ((k : Int) * 8) buff o k (by omega) ht (by rw [hr]; omega) ho
    (by rw [hr]; omega) h1 h3, hr]

theorem word_take_PutUint32 (n : Nat) (hn : n ≤ 65535) :
    (PutUint32 (toU32 (n : Int))).take 2 = [n % 256, n / 256] := by
  have : toU32 (n : Int) = n := by unfold toU32; omega
  simp [PutUint32, this]
  omega

end Base

namespace Base

theorem drop_three_add (a b c : Nat) (tl : List Nat) (L : Nat) :
    List.drop (3 + L) (a :: b :: c :: tl) = List.drop L tl := by
  rw [show 3 + L = L + 1 + 1 + 1 by omega]
  rfl

/-- Behaviour of `writeString` of a string whose written length `L` is positive, on a stream at
offset 0 with room for the slot, the length and the bytes. -/
theorem writeString_nonempty (b0 t1 t2 : Nat) (tl : List Nat) (B Rd W Lm : Int)
    (s : List Nat) (maxSize : Int) (L : Nat)
    (hs : ∀ c ∈ s, c ≠ 0)
    (hL : (if (s.length : Int) ≥ maxSize then maxSize - 1 else (s.length : Int)) = (L : Int))
    (hL1 : 1 ≤ L) (hL16 : L ≤ 65535) (hfit : L ≤ tl.length)
    (hW : 8 * (3 + (L : Int)) ≤ W) (hsl : s.length < 2147483648) :
    writeString ⟨b0 :: t1 :: t2 :: tl, 0, 0, false, B, Rd, W, Lm, false⟩ (some (s ++ [0])) maxSize
      = some ⟨flagByte b0 0 true :: L % 256 :: L / 256 :: (s.take L ++ tl.drop L),
          24 + 8 * (L : Int), 1, false, B, Rd, W, Lm, false⟩ := by
  have hLs : L ≤ s.length := by split at hL <;> omega
  have e1 : writeFlag ⟨b0 :: t1 :: t2 :: tl, 0, 0, false, B, Rd, W, Lm, false⟩ true
      = some (true, ⟨flagByte b0 0 true :: t1 :: t2 :: tl, 8, 1, false, B, Rd, W, Lm, false⟩) := by
    rw [writeFlag_newslot ⟨b0 :: t1 :: t2 :: tl, 0, 0, false, B, Rd, W, Lm, false⟩ true 0 rfl rfl
      (by show (0 : Int) + 8 < W; omega) rfl (by simp) (by norm_num)]
    simp
  have e2 : writeInt ⟨flagByte b0 0 true :: t1 :: t2 :: tl, 8, 1, false, B, Rd, W, Lm, false⟩
        (L : Int) 16
      = some ⟨flagByte b0 0 true :: L % 256 :: L / 256 :: tl, 24, 1, false,
          B, Rd, W, Lm, false⟩ := by
    have h := writeInt_eq ⟨flagByte b0 0 true :: t1 :: t2 :: tl, 8, 1, false, B, Rd, W, Lm, false⟩
      (L : Int) 16 1 (by omega) rfl
      (by show (8 : Int) + 8 * ((((16 : Nat) : Int) + 7) / 8) ≤ W; omega) rfl (by simp)
    rw [show (16 + 7) / 8 = 2 from rfl, word_take_PutUint32 L hL16] at h
    simpa using h
  have e3 : writeBits ⟨flagByte b0 0 true :: L % 256 :: L / 256 :: tl, 24, 1, false,
        B, Rd, W, Lm, false⟩ ((L : Int) * 8) (s ++ [0])
      = some ⟨flagByte b0 0 true :: L % 256 :: L / 256 :: (s.take L ++ tl.drop L),
          24 + 8 * (L : Int), 1, false, B, Rd, W, Lm, false⟩ := by
    have h := writeBits_bytes ⟨flagByte b0 0 true :: L % 256 :: L / 256 :: tl, 24, 1, false,
        B, Rd, W, Lm, false⟩ (s ++ [0]) 3 L (by omega) rfl
      (by show (24 : Int) + 8 * (L : Int) ≤ W; omega) rfl
      (by simp only [List.length_cons]; omega) (by simp; omega)
    rw [h]
    have ht : (s ++ [0]).take L = s.take L := List.take_append_of_le_length hLs
    simp [ht, drop_three_add]
  have hL2 : (if toS32 s.length ≥ maxSize then subS32 maxSize 1 else toS32 s.length)
      = (L : Int) := by
    rw [toS32_natCast _ hsl]
    split at hL
    · rw [if_pos (by omega), subS32_eq _ _ (by omega)]; exact hL
    · rw [if_neg (by omega)]; exact hL
  unfold writeString
  simp only [dStrlen_terminated s hs, hL2]
  have hpos : decide ((L : Int) > 0) = true := by simp; omega
  rw [hpos, e1]
  simp only []
  rw [e2]
  simp only []
  rw [shl3S32_eq _ (by omega), e3]

end Base

namespace Base

/-- Behaviour of `readString` on a stream at offset 0 whose bytes are a set flag, the 16 bit length
`L` of `s` and the bytes of `s`. -/
theorem readString_nonempty (fb : Nat) (rest : List Nat) (B Rd W Lm : Int)
    (s out heap : List Nat) (maxSize : Int)
    (hfb : fb.testBit 0 = true)
    (hL1 : 1 ≤ s.length) (hL16 : s.length ≤ 65535)
    (hmax : (s.length : Int) < maxSize) (hout : maxSize ≤ out.length)
    (hR : 8 * (3 + (s.length : Int)) ≤ Rd) :
    readString ⟨fb :: s.length % 256 :: s.length / 256 :: (s ++ rest), 0, 0, false,
        B, Rd, W, Lm, false⟩ out maxSize heap
      = some ((s ++ (out.set 0 0).drop s.length).set s.length 0,
          ⟨fb :: s.length % 256 :: s.length / 256 :: (s ++ rest), 24 + 8 * (s.length : Int), 1,
            false, B, Rd, W, Lm, false⟩) := by
  have e0 : setByte out 0 0 = some (out.set 0 0) := by
    unfold setByte
    rw [if_pos (by omega)]
    rfl
  have e1 : readFlag ⟨fb :: s.length % 256 :: s.length / 256 :: (s ++ rest), 0, 0, false,
        B, Rd, W, Lm, false⟩
      = some (true, ⟨fb :: s.length % 256 :: s.length / 256 :: (s ++ rest), 8, 1, false,
          B, Rd, W, Lm, false⟩) := by
    rw [readFlag_newslot ⟨fb :: s.length % 256 :: s.length / 256 :: (s ++ rest), 0, 0, false,
        B, Rd, W, Lm, false⟩ 0 rfl rfl (by show (0 : Int) + 8 < Rd; omega) rfl (by simp)
      (by norm_num)]
    simp [hfb]
  have e2 : readInt ⟨fb :: s.length % 256 :: s.length / 256 :: (s ++ rest), 8, 1, false,
        B, Rd, W, Lm, false⟩ 16
      = some ((s.length : Int), ⟨fb :: s.length % 256 :: s.length / 256 :: (s ++ rest), 24, 1,
          false, B, Rd, W, Lm, false⟩) := by
    have h := readInt_decode ⟨fb :: s.length % 256 :: s.length / 256 :: (s ++ rest), 8, 1, false,
        B, Rd, W, Lm, false⟩ (s.length : Int) 16 1 (by omega) (by omega) rfl
      (by show (8 : Int) + 8 * ((((16 : Nat) : Int) + 7) / 8) ≤ Rd; omega) rfl
      (by simp only [List.length_cons]; omega)
      (by rw [show (16 + 7) / 8 = 2 from rfl, word_take_PutUint32 _ hL16]; simp)
    have hm : (s.length : Int) % 2 ^ 16 = s.length := by norm_num; omega
    rw [hm] at h
    simpa using h
  have e3 : readBits ⟨fb :: s.length % 256 :: s.length / 256 :: (s ++ rest), 24, 1, false,
        B, Rd, W, Lm, false⟩ ((s.length : Int) * 8) (out.set 0 0)
      = some (s ++ (out.set 0 0).drop s.length,
          ⟨fb :: s.length % 256 :: s.length / 256 :: (s ++ rest), 24 + 8 * (s.length : Int), 1,
            false, B, Rd, W, Lm, false⟩) := by
    rw [readBits_bytes ⟨fb :: s.length % 256 :: s.length / 256 :: (s ++ rest), 24, 1, false,
        B, Rd, W, Lm, false⟩ (out.set 0 0) 3 s.length (by omega) rfl
      (by show (24 : Int) + 8 * (s.length : Int) ≤ Rd; omega) rfl
      (by simp only [List.length_cons, List.length_append]; omega)
      (by simp only [List.length_set]; omega)]
    simp
  have e4 : setByte (s ++ (out.set 0 0).drop s.length) (s.length : Int) 0
      = some ((s ++ (out.set 0 0).drop s.length).set s.length 0) := by
    unfold setByte
    rw [if_pos (by simp only [List.length_append, List.length_drop, List.length_set]; omega)]
    rfl
  unfold readString
  rw [e0]
  simp only []
  rw [e1]
  simp only []
  rw [e2]
  simp only []
  rw [if_neg (by omega), shl3S32_eq _ (by omega), e3]
  simp only []
  rw [e4]

theorem string_out_take (s out : List Nat) (h : s.length < out.length) :
    ((s ++ (out.set 0 0).drop s.length).set s.length 0).take (s.length + 1) = s ++ [0] := by
  have h1 : (s ++ (out.set 0 0).drop s.length).set s.length 0
      = s ++ ((out.set 0 0).drop s.length).set 0 0 := by
    rw [List.set_append_right _ _ (le_refl _)]
    simp
  rw [h1]
  obtain ⟨x, tl, hx⟩ := List.exists_cons_of_length_pos
    (show 0 < ((out.set 0 0).drop s.length).length by
      simp only [List.length_drop, List.length_set]; omega)
  rw [hx]
  simp [List.take_append_eq_append_take]

end Base

namespace Base

/-- Behaviour of `writeString` when the written length is 0: only the flag is written.  The slot is
reserved when more than 8 bits are left below the write limit; otherwise the stream
enters tail mode and the main cursor stays. -/
theorem writeString_empty (b0 : Nat) (tl : List Nat) (B Rd W Lm : Int)
    (s : List Nat) (maxSize : Int)
    (hs : ∀ c ∈ s, c ≠ 0)
    (hL : (if (s.length : Int) ≥ maxSize then maxSize - 1 else (s.length : Int)) = 0)
    (hW : 8 ≤ W) (hsl : s.length < 2147483648) :
    writeString ⟨b0 :: tl, 0, 0, false, B, Rd, W, Lm, false⟩ (some (s ++ [0])) maxSize
      = some ⟨flagByte b0 0 false :: tl, if 8 < W then 8 else 0, 1, decide (¬ 8 < W),
          B, Rd, W, Lm, false⟩ := by
  have e1 : writeFlag ⟨b0 :: tl, 0, 0, false, B, Rd, W, Lm, false⟩ false
      = some (false, ⟨flagByte b0 0 false :: tl, if 8 < W then 8 else 0, 1, decide (¬ 8 < W),
          B, Rd, W, Lm, false⟩) := by
    by_cases h : 8 < W
    · rw [writeFlag_newslot ⟨b0 :: tl, 0, 0, false, B, Rd, W, Lm, false⟩ false 0 rfl rfl
        (by show (0 : Int) + 8 < W; omega) rfl (by simp) (by norm_num)]
      simp [h]
    · rw [writeFlag_entertail ⟨b0 :: tl, 0, 0, false, B, Rd, W, Lm, false⟩ false 0 rfl rfl
        (by show ¬ ((0 : Int) + 8 < W); omega) (by show (0 : Int) + 1 ≤ W; omega) rfl (by simp)
        (by norm_num)]
      simp [h]
  have hL2 : (if toS32 s.length ≥ maxSize then subS32 maxSize 1 else toS32 s.length)
      = (0 : Int) := by
    rw [toS32_natCast _ hsl]
    split at hL
    · rw [if_pos (by omega), subS32_eq _ _ (by omega)]; exact hL
    · rw [if_neg (by omega)]; exact hL
  unfold writeString
  simp only [dStrlen_terminated s hs, hL2]
  have hpos : decide ((0 : Int) > 0) = false := by decide
  rw [hpos, e1]

/-- Behaviour of `readString` on a stream at offset 0 whose first flag bit is clear: the caller's
block gets the empty string and no byte beyond the flag slot is consumed. -/
theorem readString_empty (fb : Nat) (tl : List Nat) (B Rd W Lm : Int) (t : Bool)
    (out heap : List Nat) (maxSize : Int)
    (hfb : fb.testBit 0 = false) (hout : 1 ≤ out.length) (hR : 8 ≤ Rd) :
    readString ⟨fb :: tl, 0, 0, t, B, Rd, W, Lm, false⟩ out maxSize heap
      = some (out.set 0 0,
          ⟨fb :: tl, if t = false ∧ 8 < Rd then 8 else 0, 1, t || decide (¬ 8 < Rd),
            B, Rd, W, Lm, false⟩) := by
  have e0 : setByte out 0 0 = some (out.set 0 0) := by
    unfold setByte
    rw [if_pos (by omega)]
    rfl
  have e1 : readFlag ⟨fb :: tl, 0, 0, t, B, Rd, W, Lm, false⟩
      = some (false, ⟨fb :: tl, if t = false ∧ 8 < Rd then 8 else 0, 1, t || decide (¬ 8 < Rd),
            B, Rd, W, Lm, false⟩) := by
    cases t
    · by_cases h : 8 < Rd
      · rw [readFlag_newslot ⟨fb :: tl, 0, 0, false, B, Rd, W, Lm, false⟩ 0 rfl rfl
          (by show (0 : Int) + 8 < Rd; omega) rfl (by simp) (by norm_num)]
        simp [h, hfb]
      · rw [readFlag_entertail ⟨fb :: tl, 0, 0, false, B, Rd, W, Lm, false⟩ 0 rfl rfl
          (by show ¬ ((0 : Int) + 8 < Rd); omega) (by show (0 : Int) + 1 ≤ Rd; omega) rfl
          (by simp) (by norm_num)]
        simp [h, hfb]
    · rw [readFlag_inslot ⟨fb :: tl, 0, 0, true, B, Rd, W, Lm, false⟩ 0 (Or.inr rfl)
        (by show (0 : Int) + 1 ≤ Rd; omega) rfl (by simp)]
      simp [hfb]
  unfold readString
  rw [e0]
  simp only []
  rw [e1]

theorem setPosition_zero (d : List Nat) (bit flag : Int) (t : Bool) (B Rd W Lm : Int)
    (e : Bool) :
    setPosition ⟨d, bit, flag, t, B, Rd, W, Lm, e⟩ 0 = (true, ⟨d, 0, 0, t, B, Rd, W, Lm, e⟩) := by
  simp [setPosition]
  rfl

end Base

namespace Base

/-- The round trip of a string through a stream at offset 0 whose buffer, write limit `W`
and read limit `Rd` hold the encoding. -/
theorem string_roundtrip_core (buf out s heap : List Nat) (B Rd W Lm maxSize : Int)
    (hs : ∀ c ∈ s, c ≠ 0) (hmax : (s.length : Int) < maxSize) (h16 : s.length ≤ 65535)
    (hout : maxSize ≤ out.length)
    (hcap : (if s.length = 0 then 2 else 3 + s.length) ≤ buf.length)
    (hW : 8 * ((if s.length = 0 then 2 else 3 + s.length : Nat) : Int) ≤ W)
    (hR : 8 * ((if s.length = 0 then 2 else 3 + s.length : Nat) : Int) ≤ Rd) :
    ∃ s1 s2 out1 s3,
      writeString ⟨buf, 0, 0, false, B, Rd, W, Lm, false⟩ (some (s ++ [0])) maxSize = some s1
      ∧ setPosition s1 0 = (true, s2)
      ∧ readString s2 out maxSize heap = some (out1, s3)
      ∧ out1.take (s.length + 1) = s ++ [0]
      ∧ s1.error = false ∧ s3.error = false
      ∧ s1.bitNum = (if s.length = 0 then 8 else 24 + 8 * (s.length : Int))
      ∧ s3.bitNum = (if s.length = 0 then 8 else 24 + 8 * (s.length : Int)) := by
  by_cases h0 : s.length = 0
  · rw [if_pos h0] at hcap hW hR
    rw [if_pos h0]
    obtain ⟨b0, tl, rfl⟩ := List.exists_cons_of_length_pos (show 0 < buf.length by omega)
    have hW2 : (8 : Int) < W := by omega
    have hR2 : (8 : Int) < Rd := by omega
    have hfb : (flagByte b0 0 false).testBit 0 = false := by
      rw [flagByte_testBit _ 0 0 false (by omega) (by omega)]; simp
    have hout1 : 1 ≤ out.length := by omega
    have hw := writeString_empty b0 tl B Rd W Lm s maxSize hs
      (by rw [if_neg (by omega)]; omega) (by omega) (by omega)
    rw [if_pos hW2] at hw
    have hdec : decide (¬ (8 : Int) < W) = false := decide_eq_false (by omega)
    rw [hdec] at hw
    have hr := readString_empty (flagByte b0 0 false) tl B Rd W Lm false out heap maxSize hfb
      hout1 (by omega)
    rw [if_pos (show false = false ∧ (8 : Int) < Rd from ⟨rfl, hR2⟩)] at hr
    refine ⟨_, _, _, _, hw, setPosition_zero _ _ _ _ _ _ _ _ _, hr, ?_, rfl, rfl, rfl, rfl⟩
    obtain ⟨o0, otl, rfl⟩ := List.exists_cons_of_length_pos (show 0 < out.length by omega)
    have : s = [] := List.eq_nil_of_length_eq_zero h0
    subst this
    simp
  · rw [if_neg h0] at hcap hW hR
    rw [if_neg h0]
    obtain ⟨b0, tl, rfl⟩ := List.exists_cons_of_length_pos (show 0 < buf.length by omega)
    obtain ⟨t1, tl, rfl⟩ := List.exists_cons_of_length_pos
      (show 0 < tl.length by simp at hcap; omega)
    obtain ⟨t2, tl, rfl⟩ := List.exists_cons_of_length_pos
      (show 0 < tl.length by simp at hcap; omega)
    have htl : s.length ≤ tl.length := by simp at hcap; omega
    have hW3 : 8 * (3 + (s.length : Int)) ≤ W := by omega
    have hR3 : 8 * (3 + (s.length : Int)) ≤ Rd := by omega
    have hfb : (flagByte b0 0 true).testBit 0 = true := by
      rw [flagByte_testBit _ 0 0 true (by omega) (by omega)]; simp
    have hw := writeString_nonempty b0 t1 t2 tl B Rd W Lm s maxSize s.length hs
      (by rw [if_neg (by omega)]) (by omega) h16 htl hW3 (by omega)
    rw [List.take_length] at hw
    exact ⟨_, _, _, _, hw, setPosition_zero _ _ _ _ _ _ _ _ _,
      readString_nonempty _ (tl.drop s.length) _ _ _ _ s out heap maxSize hfb (by omega) h16
        hmax hout hR3,
      string_out_take s out (by omega), rfl, rfl, rfl, rfl⟩

/-- C3: for a NUL-free string `s` with `length(s) < maxSize` and `length(s) ≤ 65535`, on
a freshly bound stream with enough capacity for the encoding (the buffer, the write
limit and the read limit the binding leaves in the stream, `maxSize << 3` and
`size << 3` as `S32`, hold the flag slot and one byte after it when `s` is empty, which
is what `writeFlag` and `readFlag` need to reserve the slot, and the slot, two length
bytes and the bytes of `s` otherwise), `writeString(s, maxSize)`, `setPosition(0)`,
`readString(buf, maxSize)` all succeed without error and leave `buf` holding `s`
followed by a NUL, whatever the heap holds.  When `s` is empty the main cursor ends
exactly 8 bits from the start, the flag slot: no length or data byte is consumed;
otherwise it ends after the slot, the two length bytes and the bytes of `s`. -/
theorem string_roundtrip (buf out s heap : List Nat) (size mw maxSize : Int)
    (hs : ∀ c ∈ s, c ≠ 0) (hmax : (s.length : Int) < maxSize) (h16 : s.length ≤ 65535)
    (hout : maxSize ≤ out.length)
    (hcap : (if s.length = 0 then 2 else 3 + s.length) ≤ buf.length)
    (hW : 8 * ((if s.length = 0 then 2 else 3 + s.length : Nat) : Int)
      ≤ (construct buf size mw).maxWriteBitNum)
    (hR : 8 * ((if s.length = 0 then 2 else 3 + s.length : Nat) : Int)
      ≤ (construct buf size mw).maxReadBitNum) :
    ∃ s1 s2 out1 s3,
      writeString (construct buf size mw) (some (s ++ [0])) maxSize = some s1
      ∧ setPosition s1 0 = (true, s2)
      ∧ readString s2 out maxSize heap = some (out1, s3)
      ∧ out1.take (s.length + 1) = s ++ [0]
      ∧ s1.error = false ∧ s3.error = false
      ∧ s1.bitNum = (if s.length = 0 then 8 else 24 + 8 * (s.length : Int))
      ∧ s3.bitNum = (if s.length = 0 then 8 else 24 + 8 * (s.length : Int)) :=
  string_roundtrip_core buf out s heap _ _ _ _ maxSize hs hmax h16 hout hcap hW hR

theorem string_roundtrip_witness :
    ∃ s1 s2 out1 s3,
      writeString (construct [0, 0, 0, 0, 0, 0, 0, 0] 8 (-1))
          (some ([104, 101, 108, 108, 111] ++ [0])) 16 = some s1
      ∧ setPosition s1 0 = (true, s2)
      ∧ readString s2 (List.replicate 16 255) 16 [7, 7, 7] = some (out1, s3)
      ∧ out1.take (([104, 101, 108, 108, 111] : List Nat).length + 1)
          = [104, 101, 108, 108, 111] ++ [0]
      ∧ s1.error = false ∧ s3.error = false
      ∧ s1.bitNum = (if ([104, 101, 108, 108, 111] : List Nat).length = 0 then 8
          else 24 + 8 * ((([104, 101, 108, 108, 111] : List Nat).length : Nat) : Int))
      ∧ s3.bitNum = (if ([104, 101, 108, 108, 111] : List Nat).length = 0 then 8
          else 24 + 8 * ((([104, 101, 108, 108, 111] : List Nat).length : Nat) : Int)) :=
  string_roundtrip [0, 0, 0, 0, 0, 0, 0, 0] (List.replicate 16 255) [104, 101, 108, 108, 111]
    [7, 7, 7] 8 (-1) 16 (by decide) (by decide) (by decide) (by decide) (by decide) (by decide)
    (by decide)

end Base

/-! ## C6, C7, C8: overflow and the error flag -/

namespace Base

theorem writeBits_error (s s1 : BitStream) (bitCount : Int) (src : List Nat)
    (h : writeBits s bitCount src = some s1) (he : s.error = true) : s1.error = true := by
  unfold writeBits at h
  split at h
  · cases h; exact he
  · split at h
    · cases h; rfl
    · simp only [] at h
      split at h
      · cases h; rfl
      · split at h
        · cases h
        · cases h; exact he

theorem readBits_error (s s1 : BitStream) (bitCount : Int) (dst dst1 : List Nat)
    (h : readBits s bitCount dst = some (dst1, s1)) (he : s.error = true) :
    s1.error = true := by
  unfold readBits at h
  split at h
  · cases h; exact he
  · split at h
    · cases h; rfl
    · simp only [] at h
      split at h
      · cases h; rfl
      · split at h
        · cases h
        · cases h; exact he

theorem writeFlag_eq_flagSlot (s : BitStream) (val : Bool) :
    writeFlag s val =
      if addS32 (flagSlot s s.maxWriteBitNum).flagNum 1
          > (flagSlot s s.maxWriteBitNum).maxWriteBitNum
      then some (false, { flagSlot s s.maxWriteBitNum with error := true })
      else
        match getByte (flagSlot s s.maxWriteBitNum).dataPtr
            ((flagSlot s s.maxWriteBitNum).flagNum / 8) with
        | none => none
        | some b =>
          match setByte (flagSlot s s.maxWriteBitNum).dataPtr
              ((flagSlot s s.maxWriteBitNum).flagNum / 8)
              (if val then b ||| (1 <<< ((flagSlot s s.maxWriteBitNum).flagNum % 8).toNat)
                else b &&& (4294967295
                  - (1 <<< ((flagSlot s s.maxWriteBitNum).flagNum % 8).toNat))) with
          | none => none
          | some d => some (val, { flagSlot s s.maxWriteBitNum with
              dataPtr := d, flagNum := (flagSlot s s.maxWriteBitNum).flagNum + 1 }) := rfl

theorem readFlag_eq_flagSlot (s : BitStream) :
    readFlag s =
      if addS32 (flagSlot s s.maxReadBitNum).flagNum 1
          > (flagSlot s s.maxReadBitNum).maxReadBitNum
      then some (false, { flagSlot s s.maxReadBitNum with error := true })
      else
        match getByte (flagSlot s s.maxReadBitNum).dataPtr
            ((flagSlot s s.maxReadBitNum).flagNum / 8) with
        | none => none
        | some b =>
          some (decide (b &&& (1 <<< ((flagSlot s s.maxReadBitNum).flagNum % 8).toNat) ≠ 0),
            { flagSlot s s.maxReadBitNum with
              flagNum := (flagSlot s s.maxReadBitNum).flagNum + 1 }) := rfl

theorem flagSlot_frame (s : BitStream) (limit : Int) :
    (flagSlot s limit).error = s.error ∧ (flagSlot s limit).dataPtr = s.dataPtr
      ∧ (flagSlot s limit).maxWriteBitNum = s.maxWriteBitNum
      ∧ (flagSlot s limit).maxReadBitNum = s.maxReadBitNum
      ∧ (flagSlot s limit).bufSize = s.bufSize := by
  unfold flagSlot
  split
  · simp only []
    split <;> exact ⟨rfl, rfl, rfl, rfl, rfl⟩
  · exact ⟨rfl, rfl, rfl, rfl, rfl⟩

theorem writeFlag_error (s s1 : BitStream) (val ret : Bool)
    (h : writeFlag s val = some (ret, s1)) (he : s.error = true) : s1.error = true := by
  rw [writeFlag_eq_flagSlot] at h
  have hf := (flagSlot_frame s s.maxWriteBitNum).1
  generalize flagSlot s s.maxWriteBitNum = t at h hf
  split at h
  · cases h; rfl
  · split at h
    · cases h
    · split at h
      · cases h
      · cases h
        show t.error = true
        rw [hf, he]

theorem readFlag_error (s s1 : BitStream) (ret : Bool)
    (h : readFlag s = some (ret, s1)) (he : s.error = true) : s1.error = true := by
  rw [readFlag_eq_flagSlot] at h
  have hf := (flagSlot_frame s s.maxReadBitNum).1
  generalize flagSlot s s.maxReadBitNum = t at h hf
  split at h
  · cases h; rfl
  · split at h
    · cases h
    · cases h
      show t.error = true
      rw [hf, he]

theorem readInt_error (s s1 : BitStream) (bitCount ret : Int)
    (h : readInt s bitCount = some (ret, s1)) (he : s.error = true) : s1.error = true := by
  unfold readInt at h
  split at h
  · cases h
  · rename_i buff s2 hrb
    have h2 := readBits_error s s2 bitCount _ buff hrb he
    simp only [] at h
    split at h
    · cases h; exact h2
    · split at h
      · cases h
      · cases h; exact h2

theorem readInt64_error (s s1 : BitStream) (bitCount ret : Int)
    (h : readInt64 s bitCount = some (ret, s1)) (he : s.error = true) : s1.error = true := by
  unfold readInt64 at h
  split at h
  · cases h
  · rename_i buff s2 hrb
    have h2 := readBits_error s s2 bitCount _ buff hrb he
    simp only [] at h
    split at h
    · cases h; exact h2
    · split at h
      · cases h
      · cases h; exact h2

theorem writeString_error (s s1 : BitStream) (str : Option (List Nat)) (maxSize : Int)
    (h : writeString s str maxSize = some s1) (he : s.error = true) : s1.error = true := by
  unfold writeString at h
  simp only [] at h
  split at h
  · cases h
  · split at h
    · cases h
    · rename_i s2 hwf
      cases h
      exact writeFlag_error s _ _ _ hwf he
    · rename_i s2 hwf
      have h2 := writeFlag_error s s2 _ _ hwf he
      split at h
      · cases h
      · rename_i s3 hwi
        have h3 := writeBits_error s2 s3 _ _ hwi h2
        exact writeBits_error s3 s1 _ _ h h3

theorem readString_error (s s1 : BitStream) (buf buf1 heap : List Nat) (maxSize : Int)
    (h : readString s buf maxSize heap = some (buf1, s1)) (he : s.error = true) :
    s1.error = true := by
  unfold readString at h
  split at h
  · cases h
  · split at h
    · cases h
    · rename_i s2 hrf
      cases h
      exact readFlag_error s _ _ hrf he
    · rename_i s2 hrf
      have h2 := readFlag_error s s2 _ hrf he
      split at h
      · cases h
      · rename_i len s3 hri
        have h3 := readInt_error s2 s3 16 len hri h2
        split at h
        · split at h
          · cases h
          · rename_i pNewBuf s4 hrb
            have h4 := readBits_error s3 s4 _ _ _ hrb h3
            simp only [] at h
            split at h
            · cases h
            · split at h
              · cases h
              · cases h; exact h4
        · split at h
          · cases h
          · rename_i b2 s4 hrb
            have h4 := readBits_error s3 s4 _ _ _ hrb h3
            split at h
            · cases h
            · cases h; exact h4

end Base

namespace Base

/-- C7: the error flag is sticky.  From a state in which it is set, every operation
other than rebinding the buffer (`setPosition`, `clear`, `writeBits`, `readBits`,
`writeFlag`, `readFlag`, `writeInt`, `readInt`, `writeInt64`, `readInt64`, `writeString`,
`readString`) that has a result leaves it set. -/
theorem error_sticky (s : BitStream) (he : s.error = true) :
    (∀ pos, (setPosition s pos).2.error = true)
    ∧ (∀ s1, clear s = some s1 → s1.error = true)
    ∧ (∀ bitCount src s1, writeBits s bitCount src = some s1 → s1.error = true)
    ∧ (∀ bitCount dst dst1 s1, readBits s bitCount dst = some (dst1, s1) → s1.error = true)
    ∧ (∀ val ret s1, writeFlag s val = some (ret, s1) → s1.error = true)
    ∧ (∀ ret s1, readFlag s = some (ret, s1) → s1.error = true)
    ∧ (∀ v bitCount s1, writeInt s v bitCount = some s1 → s1.error = true)
    ∧ (∀ bitCount ret s1, readInt s bitCount = some (ret, s1) → s1.error = true)
    ∧ (∀ v bitCount s1, writeInt64 s v bitCount = some s1 → s1.error = true)
    ∧ (∀ bitCount ret s1, readInt64 s bitCount = some (ret, s1) → s1.error = true)
    ∧ (∀ str maxSize s1, writeString s str maxSize = some s1 → s1.error = true)
    ∧ (∀ buf maxSize heap buf1 s1, readString s buf maxSize heap = some (buf1, s1) →
        s1.error = true) := by
  refine ⟨?_, ?_, ?_, ?_, ?_, ?_, ?_, ?_, ?_, ?_, ?_, ?_⟩
  · intro pos
    unfold setPosition
    split <;> exact he
  · intro s1 h
    unfold clear at h
    split at h
    · cases h
    · cases h; exact he
  · intro bitCount src s1 h
    exact writeBits_error s s1 bitCount src h he
  · intro bitCount dst dst1 s1 h
    exact readBits_error s s1 bitCount dst dst1 h he
  · intro val ret s1 h
    exact writeFlag_error s s1 val ret h he
  · intro ret s1 h
    exact readFlag_error s s1 ret h he
  · intro v bitCount s1 h
    exact writeBits_error s s1 bitCount _ h he
  · intro bitCount ret s1 h
    exact readInt_error s s1 bitCount ret h he
  · intro v bitCount s1 h
    exact writeBits_error s s1 bitCount _ h he
  · intro bitCount ret s1 h
    exact readInt64_error s s1 bitCount ret h he
  · intro str maxSize s1 h
    exact writeString_error s s1 str maxSize h he
  · intro buf maxSize heap buf1 s1 h
    exact readString_error s s1 buf buf1 heap maxSize h he

theorem error_sticky_witness :
    (∀ pos, (setPosition ⟨[0, 0], 0, 0, false, 2, 16, 16, 16, true⟩ pos).2.error = true)
    ∧ (∀ s1, clear ⟨[0, 0], 0, 0, false, 2, 16, 16, 16, true⟩ = some s1 → s1.error = true)
    ∧ (∀ bitCount src s1,
        writeBits ⟨[0, 0], 0, 0, false, 2, 16, 16, 16, true⟩ bitCount src = some s1 →
        s1.error = true)
    ∧ (∀ bitCount dst dst1 s1,
        readBits ⟨[0, 0], 0, 0, false, 2, 16, 16, 16, true⟩ bitCount dst = some (dst1, s1) →
        s1.error = true)
    ∧ (∀ val ret s1,
        writeFlag ⟨[0, 0], 0, 0, false, 2, 16, 16, 16, true⟩ val = some (ret, s1) →
        s1.error = true)
    ∧ (∀ ret s1, readFlag ⟨[0, 0], 0, 0, false, 2, 16, 16, 16, true⟩ = some (ret, s1) →
        s1.error = true)
    ∧ (∀ v bitCount s1,
        writeInt ⟨[0, 0], 0, 0, false, 2, 16, 16, 16, true⟩ v bitCount = some s1 →
        s1.error = true)
    ∧ (∀ bitCount ret s1,
        readInt ⟨[0, 0], 0, 0, false, 2, 16, 16, 16, true⟩ bitCount = some (ret, s1) →
        s1.error = true)
    ∧ (∀ v bitCount s1,
        writeInt64 ⟨[0, 0], 0, 0, false, 2, 16, 16, 16, true⟩ v bitCount = some s1 →
        s1.error = true)
    ∧ (∀ bitCount ret s1,
        readInt64 ⟨[0, 0], 0, 0, false, 2, 16, 16, 16, true⟩ bitCount = some (ret, s1) →
        s1.error = true)
    ∧ (∀ str maxSize s1,
        writeString ⟨[0, 0], 0, 0, false, 2, 16, 16, 16, true⟩ str maxSize = some s1 →
        s1.error = true)
    ∧ (∀ buf maxSize heap buf1 s1,
        readString ⟨[0, 0], 0, 0, false, 2, 16, 16, 16, true⟩ buf maxSize heap
          = some (buf1, s1) →
        s1.error = true) :=
  error_sticky ⟨[0, 0], 0, 0, false, 2, 16, 16, 16, true⟩ rfl

/-- C8, the claim fails: on a 3 byte stream whose error flag was set by an overflowing
`writeBits(32, ..)`, a following `writeBits(8, [255])` is not refused, it stores the byte
and advances the main cursor to 8; likewise `writeFlag(true)` reserves a slot, sets bit
0 of byte 0 and advances both cursors. -/
theorem error_does_not_refuse_writes :
    ∃ s1 s2 s3,
      writeBits (construct [0, 0, 0] 3 (-1)) 32 [1, 2, 3, 4] = some s1
      ∧ s1.error = true ∧ s1.dataPtr = [0, 0, 0] ∧ s1.bitNum = 0 ∧ s1.flagNum = 0
      ∧ writeBits s1 8 [255] = some s2
      ∧ s2.dataPtr = [255, 0, 0] ∧ s2.bitNum = 8
      ∧ writeFlag s1 true = some (true, s3)
      ∧ s3.dataPtr = [1, 0, 0] ∧ s3.bitNum = 8 ∧ s3.flagNum = 1 :=
  ⟨_, _, _, rfl, rfl, rfl, rfl, rfl, rfl, rfl, rfl, rfl, rfl, rfl, rfl⟩

theorem flagSlot_error_irrelevant (s : BitStream) (limit : Int) (e : Bool) :
    flagSlot { s with error := e } limit = { flagSlot s limit with error := e } := by
  unfold flagSlot
  simp only []
  split
  · split <;> rfl
  · rfl

theorem with_error_self (s : BitStream) (he : s.error = true) :
    { s with error := true } = s := by
  cases s
  simp only [] at he
  subst he
  rfl

/-- C8 as amended: the write operations never consult the error flag.  From a state with
the flag set, `writeBits` and `writeFlag` act on buffer, cursors and tail mode exactly as
from the same state with the flag clear, the flag staying set.  A write is refused only
when it fails its own check: `writeBits` with `bitCount = 0`, in tail mode, or with the
rounded `bitCount` added to the main cursor above `maxWriteBitNum` (the sum inside the
`S32` range) leaves the whole state unchanged; `writeFlag` whose flag position is at or
above `maxWriteBitNum` (the cursors inside the `S32` range, the main cursor more than 8
below its top) returns false and leaves buffer contents and main cursor unchanged. -/
theorem write_after_error (s : BitStream) (bitCount : Int) (src : List Nat) (val : Bool)
    (he : s.error = true) :
    writeBits s bitCount src
        = (writeBits { s with error := false } bitCount src).map
            (fun t => { t with error := true })
    ∧ writeFlag s val
        = (writeFlag { s with error := false } val).map
            (fun p => (p.1, { p.2 with error := true }))
    ∧ ((bitCount = 0 ∨ s.tailFlag = true
          ∨ (8 * ((bitCount + 7) / 8) + s.bitNum > s.maxWriteBitNum
              ∧ -2147483648 ≤ 8 * ((bitCount + 7) / 8) + s.bitNum
              ∧ 8 * ((bitCount + 7) / 8) + s.bitNum < 2147483648)) →
        writeBits s bitCount src = some s)
    ∧ (s.flagNum % 8 = 0 ∧ s.tailFlag = false → s.bitNum + 1 > s.maxWriteBitNum →
        -2147483648 ≤ s.bitNum ∧ s.bitNum + 8 < 2147483648 →
        writeFlag s val = some (false, { s with flagNum := s.bitNum, tailFlag := true }))
    ∧ ((s.flagNum % 8 ≠ 0 ∨ s.tailFlag = true) → s.flagNum + 1 > s.maxWriteBitNum →
        -2147483648 ≤ s.flagNum ∧ s.flagNum + 1 < 2147483648 →
        writeFlag s val = some (false, s)) := by
  have hs := with_error_self s he
  refine ⟨?_, ?_, ?_, ?_, ?_⟩
  · unfold writeBits
    simp only []
    by_cases h0 : bitCount = 0
    · rw [if_pos h0, if_pos h0]
      simp [hs]
    · rw [if_neg h0, if_neg h0]
      by_cases ht : s.tailFlag = true
      · rw [if_pos ht, if_pos ht]
        simp
      · rw [if_neg ht, if_neg ht]
        by_cases hov : addS32 (roundBits bitCount) s.bitNum > s.maxWriteBitNum
        · rw [if_pos hov, if_pos hov]
          simp
        · rw [if_neg hov, if_neg hov]
          cases hm : memcpy s.dataPtr (s.bitNum / 8) src 0 ((roundBits bitCount + 7) / 8) with
          | none => simp
          | some d => simp [he]
  · rw [writeFlag_eq_flagSlot, writeFlag_eq_flagSlot]
    simp only [flagSlot_error_irrelevant]
    have hf := (flagSlot_frame s s.maxWriteBitNum).1
    rw [he] at hf
    generalize flagSlot s s.maxWriteBitNum = t at hf
    by_cases hov : addS32 t.flagNum 1 > t.maxWriteBitNum
    · rw [if_pos hov, if_pos hov]
      simp
    · rw [if_neg hov, if_neg hov]
      cases hg : getByte t.dataPtr (t.flagNum / 8) with
      | none => simp
      | some b =>
        simp only []
        split
        · simp
        · simp [hf]
  · intro h
    unfold writeBits
    by_cases h0 : bitCount = 0
    · rw [if_pos h0]
    · rw [if_neg h0]
      by_cases ht : s.tailFlag = true
      · rw [if_pos ht, hs]
      · rw [if_neg ht]
        have hov : 8 * ((bitCount + 7) / 8) + s.bitNum > s.maxWriteBitNum
            ∧ -2147483648 ≤ 8 * ((bitCount + 7) / 8) + s.bitNum
            ∧ 8 * ((bitCount + 7) / 8) + s.bitNum < 2147483648 := by
          rcases h with h | h | h
          · exact absurd h h0
          · exact absurd h ht
          · exact h
        simp only []
        rw [roundBits_eq, addS32_eq _ _ ⟨hov.2.1, hov.2.2⟩, if_pos hov.1, hs]
  · intro h hov hb
    rw [writeFlag_eq_flagSlot]
    have hsl : flagSlot s s.maxWriteBitNum = { s with flagNum := s.bitNum, tailFlag := true } := by
      unfold flagSlot
      rw [if_pos ⟨by omega, h.2⟩]
      simp only []
      rw [addS32_eq _ _ (by omega), if_neg (by omega)]
    rw [hsl]
    simp only []
    rw [addS32_eq _ _ (by omega), if_pos hov]
    congr 2
    cases s
    simp only [] at he
    subst he
    rfl
  · intro h hov hf
    rw [writeFlag_eq_flagSlot]
    have hsl : flagSlot s s.maxWriteBitNum = s := by
      unfold flagSlot
      rw [if_neg]
      rintro ⟨h1, h2⟩
      rcases h with h | h
      · omega
      · rw [h] at h2; exact absurd h2 (by decide)
    rw [hsl, addS32_eq _ _ (by omega), if_pos hov, hs]

theorem write_after_error_witness :
    writeBits ⟨[0, 0], 16, 0, false, 2, 16, 16, 16, true⟩ 8 [255]
        = (writeBits { (⟨[0, 0], 16, 0, false, 2, 16, 16, 16, true⟩ : BitStream) with
              error := false } 8 [255]).map
            (fun t => { t with error := true })
    ∧ writeFlag ⟨[0, 0], 16, 0, false, 2, 16, 16, 16, true⟩ true
        = (writeFlag { (⟨[0, 0], 16, 0, false, 2, 16, 16, 16, true⟩ : BitStream) with
              error := false } true).map
            (fun p => (p.1, { p.2 with error := true }))
    ∧ (((8 : Int) = 0 ∨ (⟨[0, 0], 16, 0, false, 2, 16, 16, 16, true⟩ : BitStream).tailFlag = true
          ∨ (8 * (((8 : Int) + 7) / 8)
              + (⟨[0, 0], 16, 0, false, 2, 16, 16, 16, true⟩ : BitStream).bitNum
            > (⟨[0, 0], 16, 0, false, 2, 16, 16, 16, true⟩ : BitStream).maxWriteBitNum
            ∧ -2147483648 ≤ 8 * (((8 : Int) + 7) / 8)
              + (⟨[0, 0], 16, 0, false, 2, 16, 16, 16, true⟩ : BitStream).bitNum
            ∧ 8 * (((8 : Int) + 7) / 8)
              + (⟨[0, 0], 16, 0, false, 2, 16, 16, 16, true⟩ : BitStream).bitNum
              < 2147483648)) →
        writeBits ⟨[0, 0], 16, 0, false, 2, 16, 16, 16, true⟩ 8 [255]
          = some ⟨[0, 0], 16, 0, false, 2, 16, 16, 16, true⟩)
    ∧ ((⟨[0, 0], 16, 0, false, 2, 16, 16, 16, true⟩ : BitStream).flagNum % 8 = 0
          ∧ (⟨[0, 0], 16, 0, false, 2, 16, 16, 16, true⟩ : BitStream).tailFlag = false →
        (⟨[0, 0], 16, 0, false, 2, 16, 16, 16, true⟩ : BitStream).bitNum + 1
          > (⟨[0, 0], 16, 0, false, 2, 16, 16, 16, true⟩ : BitStream).maxWriteBitNum →
        -2147483648 ≤ (⟨[0, 0], 16, 0, false, 2, 16, 16, 16, true⟩ : BitStream).bitNum
          ∧ (⟨[0, 0], 16, 0, false, 2, 16, 16, 16, true⟩ : BitStream).bitNum + 8
            < 2147483648 →
        writeFlag ⟨[0, 0], 16, 0, false, 2, 16, 16, 16, true⟩ true
          = some (false, { (⟨[0, 0], 16, 0, false, 2, 16, 16, 16, true⟩ : BitStream) with
              flagNum := (⟨[0, 0], 16, 0, false, 2, 16, 16, 16, true⟩ : BitStream).bitNum
              tailFlag := true }))
    ∧ (((⟨[0, 0], 16, 0, false, 2, 16, 16, 16, true⟩ : BitStream).flagNum % 8 ≠ 0
          ∨ (⟨[0, 0], 16, 0, false, 2, 16, 16, 16, true⟩ : BitStream).tailFlag = true) →
        (⟨[0, 0], 16, 0, false, 2, 16, 16, 16, true⟩ : BitStream).flagNum + 1
          > (⟨[0, 0], 16, 0, false, 2, 16, 16, 16, true⟩ : BitStream).maxWriteBitNum →
        -2147483648 ≤ (⟨[0, 0], 16, 0, false, 2, 16, 16, 16, true⟩ : BitStream).flagNum
          ∧ (⟨[0, 0], 16, 0, false, 2, 16, 16, 16, true⟩ : BitStream).flagNum + 1
            < 2147483648 →
        writeFlag ⟨[0, 0], 16, 0, false, 2, 16, 16, 16, true⟩ true
          = some (false, ⟨[0, 0], 16, 0, false, 2, 16, 16, 16, true⟩)) :=
  write_after_error ⟨[0, 0], 16, 0, false, 2, 16, 16, 16, true⟩ 8 [255] true rfl

end Base

/-! ## C9, C10: wire format -/

namespace Base

/-- C9, the claim fails: `writeInt(0xFF, 4)` on a fresh stream stores the byte `0xFF`
at offset 0, not `0xFF` truncated to 4 bits (`0x0F`): the value is not masked to `n`
bits on the write side. -/
theorem writeInt_stores_whole_bytes :
    ∃ s1, writeInt (construct [0, 0, 0, 0] 4 (-1)) 255 4 = some s1
      ∧ s1.error = false ∧ s1.bitNum = 8
      ∧ s1.dataPtr.getD 0 0 = 255
      ∧ ((toU32 255 % 2 ^ 4) >>> (8 * 0)) &&& 255 = 15 :=
  ⟨_, rfl, rfl, rfl, rfl, rfl⟩

theorem and_255 (x : Nat) : x &&& 255 = x % 256 :=
  Nat.and_pow_two_sub_one_eq_mod x 8

theorem PutUint32_getD (u i : Nat) (hi : i < 4) :
    (PutUint32 u).getD i 0 = (u >>> (8 * i)) &&& 255 := by
  rw [and_255, Nat.shiftRight_eq_div_pow]
  interval_cases i <;> simp [PutUint32]

theorem getD_written (A P B : List Nat) (k i : Nat) (hi : i < k) (hk : k ≤ P.length) :
    (A ++ P.take k ++ B).getD (A.length + i) 0 = P.getD i 0 := by
  have h1 : i < (P.take k).length := by simp [List.length_take]; omega
  rw [List.append_assoc, List.getD_append_right _ _ _ _ (by omega)]
  simp only [Nat.add_sub_cancel_left]
  rw [List.getD_append _ _ _ _ h1]
  simp only [List.getD_eq_getElem?_getD, List.getElem?_take, hi, if_true]

/-- C9 as amended: after a successful `writeInt(v, n)`, `1 ≤ n ≤ 32`, at byte offset `p`,
the `ceil(n/8)` bytes from `p` are the little-endian bytes of the 32 bit pattern of `v`
cut to whole bytes: byte `p + i` is `(v >> 8i) & 0xFF` for every `i < ceil(n/8)`.  When
`n` is a multiple of 8 this is `((v mod 2^n) >> 8i) & 0xFF`. -/
theorem writeInt_wire_format (s : BitStream) (v : Int) (n : Nat)
    (hn : 1 ≤ n ∧ n ≤ 32) (hts : s.tailFlag = false) (hpos : 0 ≤ s.bitNum)
    (hbuf : s.bitNum / 8 + ((n : Int) + 7) / 8 ≤ s.dataPtr.length)
    (hw : s.bitNum + 8 * (((n : Int) + 7) / 8) ≤ s.maxWriteBitNum) :
    ∃ s1, writeInt s v n = some s1
      ∧ s1.error = s.error
      ∧ s1.bitNum = s.bitNum + 8 * (((n : Int) + 7) / 8)
      ∧ (∀ i, i < (n + 7) / 8 →
          s1.dataPtr.getD ((s.bitNum / 8).toNat + i) 0 = (toU32 v >>> (8 * i)) &&& 255)
      ∧ (n % 8 = 0 → ∀ i, i < (n + 7) / 8 →
          s1.dataPtr.getD ((s.bitNum / 8).toNat + i) 0
            = ((toU32 v % 2 ^ n) >>> (8 * i)) &&& 255) := by
  obtain ⟨o, ho⟩ := Int.eq_ofNat_of_zero_le (show 0 ≤ s.bitNum / 8 by omega)
  have hW := writeInt_eq s v n o hn hts hw ho (by omega)
  have hlen : (PutUint32 (toU32 v)).length = 4 := rfl
  have hbytes : ∀ i, i < (n + 7) / 8 →
      (s.dataPtr.take o ++ (PutUint32 (toU32 v)).take ((n + 7) / 8)
          ++ s.dataPtr.drop (o + (n + 7) / 8)).getD ((s.bitNum / 8).toNat + i) 0
        = (toU32 v >>> (8 * i)) &&& 255 := by
    intro i hi
    have hA : (s.dataPtr.take o).length = o := by simp [List.length_take]; omega
    have ho2 : (s.bitNum / 8).toNat = (s.dataPtr.take o).length := by rw [hA, ho]; rfl
    rw [ho2, getD_written _ _ _ _ _ hi (by omega), PutUint32_getD _ _ (by omega)]
  refine ⟨_, hW, rfl, rfl, hbytes, ?_⟩
  intro h8 i hi
  show (s.dataPtr.take o ++ (PutUint32 (toU32 v)).take ((n + 7) / 8)
          ++ s.dataPtr.drop (o + (n + 7) / 8)).getD ((s.bitNum / 8).toNat + i) 0 = _
  rw [hbytes i hi, and_255, and_255, Nat.shiftRight_eq_div_pow, Nat.shiftRight_eq_div_pow]
  obtain ⟨m, rfl⟩ : ∃ m, n = 8 * m := ⟨n / 8, by omega⟩
  have him : i < m := by omega
  have h256 : (256 : Nat) = 2 ^ 8 := by norm_num
  have hsplit : 2 ^ (8 * m) = 2 ^ (8 * i) * (2 ^ 8 * 2 ^ (8 * (m - i - 1))) := by
    rw [← pow_add, ← pow_add]
    congr 1
    omega
  rw [h256, hsplit, Nat.mod_mul_right_div_self, Nat.mod_mul_right_mod]

theorem writeInt_wire_format_witness :
    ∃ s1, writeInt (construct [9, 9, 9, 9] 4 (-1)) 4660 (12 : Nat) = some s1
      ∧ s1.error = (construct [9, 9, 9, 9] 4 (-1)).error
      ∧ s1.bitNum = (construct [9, 9, 9, 9] 4 (-1)).bitNum + 8 * ((((12 : Nat) : Int) + 7) / 8)
      ∧ (∀ i, i < (12 + 7) / 8 →
          s1.dataPtr.getD (((construct [9, 9, 9, 9] 4 (-1)).bitNum / 8).toNat + i) 0
            = (toU32 4660 >>> (8 * i)) &&& 255)
      ∧ (12 % 8 = 0 → ∀ i, i < (12 + 7) / 8 →
          s1.dataPtr.getD (((construct [9, 9, 9, 9] 4 (-1)).bitNum / 8).toNat + i) 0
            = ((toU32 4660 % 2 ^ 12) >>> (8 * i)) &&& 255) :=
  writeInt_wire_format (construct [9, 9, 9, 9] 4 (-1)) 4660 12 (by decide) rfl (by decide)
    (by decide) (by decide)

end Base

namespace Base

/-- The wire format of `writeString` on a stream at offset 0 whose buffer and write limit
`W` hold the encoding. -/
theorem writeString_wire_core (buf s : List Nat) (B Rd W Lm maxSize : Int) (L : Nat)
    (hs : ∀ c ∈ s, c ≠ 0)
    (hL : (L : Int) = min (s.length : Int) (maxSize - 1)) (hL16 : L ≤ 65535)
    (hcap : (if L = 0 then 2 else 3 + L) ≤ buf.length)
    (hW : 8 * ((if L = 0 then 2 else 3 + L : Nat) : Int) ≤ W)
    (hsl : s.length < 2147483648) :
    ∃ s1, writeString ⟨buf, 0, 0, false, B, Rd, W, Lm, false⟩ (some (s ++ [0])) maxSize
        = some s1
      ∧ s1.error = false ∧ s1.tailFlag = false ∧ s1.flagNum = 1
      ∧ (s1.dataPtr.getD 0 0).testBit 0 = decide (0 < L)
      ∧ (∀ j, 1 ≤ j → j < 8 → (s1.dataPtr.getD 0 0).testBit j = (buf.getD 0 0).testBit j)
      ∧ (L = 0 → s1.bitNum = 8 ∧ s1.dataPtr.drop 1 = buf.drop 1)
      ∧ (0 < L → s1.bitNum = 8 + (16 + 8 * (L : Int))
          ∧ (s1.dataPtr.drop 1).take 2 = [L % 256, L / 256 % 256]
          ∧ (s1.dataPtr.drop 3).take L = s.take L
          ∧ s1.dataPtr.drop (3 + L) = buf.drop (3 + L)) := by
  have hLc : (if (s.length : Int) ≥ maxSize then maxSize - 1 else (s.length : Int)) = (L : Int) := by
    split <;> omega
  by_cases h0 : L = 0
  · rw [if_pos h0] at hcap hW
    subst h0
    obtain ⟨b0, tl, rfl⟩ := List.exists_cons_of_length_pos (show 0 < buf.length by omega)
    have hW2 : (8 : Int) < W := by omega
    have hw := writeString_empty b0 tl B Rd W Lm s maxSize hs hLc (by omega) hsl
    rw [if_pos hW2] at hw
    have hd : decide (¬ (8 : Int) < W) = false := decide_eq_false (by omega)
    rw [hd] at hw
    refine ⟨_, hw, rfl, rfl, rfl, ?_, ?_, ?_, ?_⟩
    · show (flagByte b0 0 false).testBit 0 = _
      rw [flagByte_testBit _ 0 0 false (by omega) (by omega)]
      simp
    · intro j hj1 hj8
      show (flagByte b0 0 false).testBit j = b0.testBit j
      rw [flagByte_testBit _ 0 j false (by omega) hj8, if_neg (by omega)]
    · intro _
      exact ⟨rfl, rfl⟩
    · intro h
      omega
  · rw [if_neg h0] at hcap hW
    obtain ⟨b0, tl, rfl⟩ := List.exists_cons_of_length_pos (show 0 < buf.length by omega)
    obtain ⟨t1, tl, rfl⟩ := List.exists_cons_of_length_pos
      (show 0 < tl.length by simp at hcap; omega)
    obtain ⟨t2, tl, rfl⟩ := List.exists_cons_of_length_pos
      (show 0 < tl.length by simp at hcap; omega)
    have htl : L ≤ tl.length := by simp at hcap; omega
    have hLs : L ≤ s.length := by omega
    have hW3 : 8 * (3 + (L : Int)) ≤ W := by omega
    have hw := writeString_nonempty b0 t1 t2 tl B Rd W Lm s maxSize L hs hLc (by omega) hL16
      htl hW3 hsl
    refine ⟨_, hw, rfl, rfl, rfl, ?_, ?_, ?_, ?_⟩
    · show (flagByte b0 0 true).testBit 0 = _
      rw [flagByte_testBit _ 0 0 true (by omega) (by omega)]
      simp
      omega
    · intro j hj1 hj8
      show (flagByte b0 0 true).testBit j = b0.testBit j
      rw [flagByte_testBit _ 0 j true (by omega) hj8, if_neg (by omega)]
    · intro h
      exact absurd h h0
    · intro _
      have hL256 : L / 256 % 256 = L / 256 := by omega
      have htk : (s.take L).length = L := by simp [List.length_take]; omega
      refine ⟨by show (24 : Int) + 8 * (L : Int) = _; omega, ?_, ?_, ?_⟩
      · show ((flagByte b0 0 true :: L % 256 :: L / 256 :: (s.take L ++ tl.drop L)).drop 1).take 2
          = _
        rw [hL256]
        rfl
      · show ((flagByte b0 0 true :: L % 256 :: L / 256 :: (s.take L ++ tl.drop L)).drop 3).take L
          = _
        show (s.take L ++ tl.drop L).take L = _
        exact List.take_left' htk
      · show (flagByte b0 0 true :: L % 256 :: L / 256 :: (s.take L ++ tl.drop L)).drop (3 + L)
          = (b0 :: t1 :: t2 :: tl).drop (3 + L)
        rw [drop_three_add, drop_three_add]
        exact List.drop_left' htk

/-- C10: wire format of strings.  For a NUL-free `s` (its length an `S32`) and
`L = min(length(s), maxSize - 1)` with `0 ≤ L ≤ 65535` (so `maxSize ≥ 1`), on a freshly
bound stream with enough capacity (the buffer and the write limit the binding leaves in
the stream, `maxSize << 3` as `S32`, hold the slot plus one byte when `L = 0`, which is
what `writeFlag` needs to reserve the slot, and the `3 + L` bytes of the encoding
otherwise), `writeString(s, maxSize)` succeeds without error or tail mode, reserves the
flag slot at offset 0 and writes the single flag bit `L > 0` into its bit 0 (the other
bits of the byte keep their value).  When `L = 0` the main cursor is just past the slot
and no other byte changes; when `L > 0` the two little-endian bytes of `L` and the first
`L` bytes of `s` follow the slot, the main cursor is `16 + 8L` bits past it and the bytes
after them are unchanged. -/
theorem writeString_wire_format (buf s : List Nat) (size mw maxSize : Int) (L : Nat)
    (hs : ∀ c ∈ s, c ≠ 0)
    (hL : (L : Int) = min (s.length : Int) (maxSize - 1)) (hL16 : L ≤ 65535)
    (hcap : (if L = 0 then 2 else 3 + L) ≤ buf.length)
    (hW : 8 * ((if L = 0 then 2 else 3 + L : Nat) : Int)
      ≤ (construct buf size mw).maxWriteBitNum)
    (hsl : s.length < 2147483648) :
    ∃ s1, writeString (construct buf size mw) (some (s ++ [0])) maxSize = some s1
      ∧ s1.error = false ∧ s1.tailFlag = false ∧ s1.flagNum = 1
      ∧ (s1.dataPtr.getD 0 0).testBit 0 = decide (0 < L)
      ∧ (∀ j, 1 ≤ j → j < 8 → (s1.dataPtr.getD 0 0).testBit j = (buf.getD 0 0).testBit j)
      ∧ (L = 0 → s1.bitNum = 8 ∧ s1.dataPtr.drop 1 = buf.drop 1)
      ∧ (0 < L → s1.bitNum = 8 + (16 + 8 * (L : Int))
          ∧ (s1.dataPtr.drop 1).take 2 = [L % 256, L / 256 % 256]
          ∧ (s1.dataPtr.drop 3).take L = s.take L
          ∧ s1.dataPtr.drop (3 + L) = buf.drop (3 + L)) :=
  writeString_wire_core buf s _ _ _ _ maxSize L hs hL hL16 hcap hW hsl

theorem writeString_wire_format_witness :
    ∃ s1, writeString (construct [0, 0, 0, 0, 0, 0] 6 (-1))
        (some ([104, 105, 33] ++ [0])) 3 = some s1
      ∧ s1.error = false ∧ s1.tailFlag = false ∧ s1.flagNum = 1
      ∧ (s1.dataPtr.getD 0 0).testBit 0 = decide (0 < 2)
      ∧ (∀ j, 1 ≤ j → j < 8 →
          (s1.dataPtr.getD 0 0).testBit j = (([0, 0, 0, 0, 0, 0] : List Nat).getD 0 0).testBit j)
      ∧ (2 = 0 → s1.bitNum = 8 ∧ s1.dataPtr.drop 1 = ([0, 0, 0, 0, 0, 0] : List Nat).drop 1)
      ∧ (0 < 2 → s1.bitNum = 8 + (16 + 8 * ((2 : Nat) : Int))
          ∧ (s1.dataPtr.drop 1).take 2 = [2 % 256, 2 / 256 % 256]
          ∧ (s1.dataPtr.drop 3).take 2 = ([104, 105, 33] : List Nat).take 2
          ∧ s1.dataPtr.drop (3 + 2) = ([0, 0, 0, 0, 0, 0] : List Nat).drop (3 + 2)) :=
  writeString_wire_format [0, 0, 0, 0, 0, 0] [104, 105, 33] 6 (-1) 3 2 (by decide) (by decide)
    (by decide) (by decide) (by decide) (by decide)

end Base

/-! ## C11: flag packing -/

namespace Base

theorem flag_packing_core (a b c : Nat) (rest : List Nat) (B Rd W L : Int)
    (v1 v2 v3 v4 v5 v6 v7 v8 v9 : Bool) (hW : 24 ≤ W) :
    ∃ s1 s2 s3 s4 s5 s6 s7 s8 s9,
      writeFlag ⟨a :: b :: c :: rest, 0, 0, false, B, Rd, W, L, false⟩ v1 = some (v1, s1)
      ∧ writeFlag s1 v2 = some (v2, s2) ∧ writeFlag s2 v3 = some (v3, s3)
      ∧ writeFlag s3 v4 = some (v4, s4) ∧ writeFlag s4 v5 = some (v5, s5)
      ∧ writeFlag s5 v6 = some (v6, s6) ∧ writeFlag s6 v7 = some (v7, s7)
      ∧ writeFlag s7 v8 = some (v8, s8) ∧ writeFlag s8 v9 = some (v9, s9)
      ∧ s9.bitNum = 16 ∧ s9.error = false ∧ s9.tailFlag = false
      ∧ (s9.dataPtr.getD 0 0).testBit 0 = v1 ∧ (s9.dataPtr.getD 0 0).testBit 1 = v2
      ∧ (s9.dataPtr.getD 0 0).testBit 2 = v3 ∧ (s9.dataPtr.getD 0 0).testBit 3 = v4
      ∧ (s9.dataPtr.getD 0 0).testBit 4 = v5 ∧ (s9.dataPtr.getD 0 0).testBit 5 = v6
      ∧ (s9.dataPtr.getD 0 0).testBit 6 = v7 ∧ (s9.dataPtr.getD 0 0).testBit 7 = v8
      ∧ (s9.dataPtr.getD 1 0).testBit 0 = v9 := by
  have e1 : writeFlag ⟨a :: b :: c :: rest, 0, 0, false, B, Rd, W, L, false⟩ v1
      = some (v1, ⟨flagByte a 0 v1 :: b :: c :: rest, 8, 1, false, B, Rd, W, L, false⟩) := by
    rw [writeFlag_newslot ⟨a :: b :: c :: rest, 0, 0, false, B, Rd, W, L, false⟩ v1 0 rfl rfl
      (by show (0 : Int) + 8 < W; omega) rfl (by simp) (by norm_num)]
    simp
  have e2 : writeFlag ⟨flagByte a 0 v1 :: b :: c :: rest, 8, 1, false, B, Rd, W, L, false⟩ v2
      = some (v2, ⟨flagByte (flagByte a 0 v1) 1 v2 :: b :: c :: rest, 8, 2, false, B, Rd, W, L, false⟩) := by
    rw [writeFlag_inslot ⟨flagByte a 0 v1 :: b :: c :: rest, 8, 1, false, B, Rd, W, L, false⟩ v2 0
      (Or.inl (by show (1 : Int) % 8 ≠ 0; omega)) (by show (1 : Int) + 1 ≤ W; omega) rfl
      (by simp)]
    simp
  have e3 : writeFlag ⟨flagByte (flagByte a 0 v1) 1 v2 :: b :: c :: rest, 8, 2, false, B, Rd, W, L, false⟩ v3
      = some (v3, ⟨flagByte (flagByte (flagByte a 0 v1) 1 v2) 2 v3 :: b :: c :: rest, 8, 3, false, B, Rd, W, L, false⟩) := by
    rw [writeFlag_inslot ⟨flagByte (flagByte a 0 v1) 1 v2 :: b :: c :: rest, 8, 2, false, B, Rd, W, L, false⟩ v3 0
      (Or.inl (by show (2 : Int) % 8 ≠ 0; omega)) (by show (2 : Int) + 1 ≤ W; omega) rfl
      (by simp)]
    simp
  have e4 : writeFlag ⟨flagByte (flagByte (flagByte a 0 v1) 1 v2) 2 v3 :: b :: c :: rest, 8, 3, false, B, Rd, W, L, false⟩ v4
      = some (v4, ⟨flagByte (flagByte (flagByte (flagByte a 0 v1) 1 v2) 2 v3) 3 v4 :: b :: c :: rest, 8, 4, false, B, Rd, W, L, false⟩) := by
    rw [writeFlag_inslot ⟨flagByte (flagByte (flagByte a 0 v1) 1 v2) 2 v3 :: b :: c :: rest, 8, 3, false, B, Rd, W, L, false⟩ v4 0
      (Or.inl (by show (3 : Int) % 8 ≠ 0; omega)) (by show (3 : Int) + 1 ≤ W; omega) rfl
      (by simp)]
    simp
  have e5 : writeFlag ⟨flagByte (flagByte (flagByte (flagByte a 0 v1) 1 v2) 2 v3) 3 v4 :: b :: c :: rest, 8, 4, false, B, Rd, W, L, false⟩ v5
      = some (v5, ⟨flagByte (flagByte (flagByte (flagByte (flagByte a 0 v1) 1 v2) 2 v3) 3 v4) 4 v5 :: b :: c :: rest, 8, 5, false, B, Rd, W, L, false⟩) := by
    rw [writeFlag_inslot ⟨flagByte (flagByte (flagByte (flagByte a 0 v1) 1 v2) 2 v3) 3 v4 :: b :: c :: rest, 8, 4, false, B, Rd, W, L, false⟩ v5 0
      (Or.inl (by show (4 : Int) % 8 ≠ 0; omega)) (by show (4 : Int) + 1 ≤ W; omega) rfl
      (by simp)]
    simp
  have e6 : writeFlag ⟨flagByte (flagByte (flagByte (flagByte (flagByte a 0 v1) 1 v2) 2 v3) 3 v4) 4 v5 :: b :: c :: rest, 8, 5, false, B, Rd, W, L, false⟩ v6
      = some (v6, ⟨flagByte (flagByte (flagByte (flagByte (flagByte (flagByte a 0 v1) 1 v2) 2 v3) 3 v4) 4 v5) 5 v6 :: b :: c :: rest, 8, 6, false, B, Rd, W, L, false⟩) := by
    rw [writeFlag_inslot ⟨flagByte (flagByte (flagByte (flagByte (flagByte a 0 v1) 1 v2) 2 v3) 3 v4) 4 v5 :: b :: c :: rest, 8, 5, false, B, Rd, W, L, false⟩ v6 0
      (Or.inl (by show (5 : Int) % 8 ≠ 0; omega)) (by show (5 : Int) + 1 ≤ W; omega) rfl
      (by simp)]
    simp
  have e7 : writeFlag ⟨flagByte (flagByte (flagByte (flagByte (flagByte (flagByte a 0 v1) 1 v2) 2 v3) 3 v4) 4 v5) 5 v6 :: b :: c :: rest, 8, 6, false, B, Rd, W, L, false⟩ v7
      = some (v7, ⟨flagByte (flagByte (flagByte (flagByte (flagByte (flagByte (flagByte a 0 v1) 1 v2) 2 v3) 3 v4) 4 v5) 5 v6) 6 v7 :: b :: c :: rest, 8, 7, false, B, Rd, W, L, false⟩) := by
    rw [writeFlag_inslot ⟨flagByte (flagByte (flagByte (flagByte (flagByte (flagByte a 0 v1) 1 v2) 2 v3) 3 v4) 4 v5) 5 v6 :: b :: c :: rest, 8, 6, false, B, Rd, W, L, false⟩ v7 0
      (Or.inl (by show (6 : Int) % 8 ≠ 0; omega)) (by show (6 : Int) + 1 ≤ W; omega) rfl
      (by simp)]
    simp
  have e8 : writeFlag ⟨flagByte (flagByte (flagByte (flagByte (flagByte (flagByte (flagByte a 0 v1) 1 v2) 2 v3) 3 v4) 4 v5) 5 v6) 6 v7 :: b :: c :: rest, 8, 7, false, B, Rd, W, L, false⟩ v8
      = some (v8, ⟨flagByte (flagByte (flagByte (flagByte (flagByte (flagByte (flagByte (flagByte a 0 v1) 1 v2) 2 v3) 3 v4) 4 v5) 5 v6) 6 v7) 7 v8 :: b :: c :: rest, 8, 8, false, B, Rd, W, L, false⟩) := by
    rw [writeFlag_inslot ⟨flagByte (flagByte (flagByte (flagByte (flagByte (flagByte (flagByte a 0 v1) 1 v2) 2 v3) 3 v4) 4 v5) 5 v6) 6 v7 :: b :: c :: rest, 8, 7, false, B, Rd, W, L, false⟩ v8 0
      (Or.inl (by show (7 : Int) % 8 ≠ 0; omega)) (by show (7 : Int) + 1 ≤ W; omega) rfl
      (by simp)]
    simp
  have e9 : writeFlag ⟨flagByte (flagByte (flagByte (flagByte (flagByte (flagByte (flagByte (flagByte a 0 v1) 1 v2) 2 v3) 3 v4) 4 v5) 5 v6) 6 v7) 7 v8 :: b :: c :: rest, 8, 8, false, B, Rd, W, L, false⟩ v9
      = some (v9, ⟨flagByte (flagByte (flagByte (flagByte (flagByte (flagByte (flagByte (flagByte a 0 v1) 1 v2) 2 v3) 3 v4) 4 v5) 5 v6) 6 v7) 7 v8 :: flagByte b 0 v9 :: c :: rest, 16, 9, false, B, Rd, W, L, false⟩) := by
    rw [writeFlag_newslot ⟨flagByte (flagByte (flagByte (flagByte (flagByte (flagByte (flagByte (flagByte a 0 v1) 1 v2) 2 v3) 3 v4) 4 v5) 5 v6) 6 v7) 7 v8 :: b :: c :: rest, 8, 8, false, B, Rd, W, L, false⟩ v9 1 rfl rfl
      (by show (8 : Int) + 8 < W; omega) rfl (by simp) (by norm_num)]
    simp
  refine ⟨_, _, _, _, _, _, _, _, _, e1, e2, e3, e4, e5, e6, e7, e8, e9, rfl, rfl, rfl,
    ?_, ?_, ?_, ?_, ?_, ?_, ?_, ?_, ?_⟩
  · dsimp only [List.getD_cons_zero, List.getD_cons_succ]
    rw [flagByte_testBit _ 7 0 v8 (by omega) (by omega), if_neg (by omega),
      flagByte_testBit _ 6 0 v7 (by omega) (by omega), if_neg (by omega),
      flagByte_testBit _ 5 0 v6 (by omega) (by omega), if_neg (by omega),
      flagByte_testBit _ 4 0 v5 (by omega) (by omega), if_neg (by omega),
      flagByte_testBit _ 3 0 v4 (by omega) (by omega), if_neg (by omega),
      flagByte_testBit _ 2 0 v3 (by omega) (by omega), if_neg (by omega),
      flagByte_testBit _ 1 0 v2 (by omega) (by omega), if_neg (by omega),
      flagByte_testBit _ 0 0 v1 (by omega) (by omega), if_pos rfl]
  · dsimp only [List.getD_cons_zero, List.getD_cons_succ]
    rw [flagByte_testBit _ 7 1 v8 (by omega) (by omega), if_neg (by omega),
      flagByte_testBit _ 6 1 v7 (by omega) (by omega), if_neg (by omega),
      flagByte_testBit _ 5 1 v6 (by omega) (by omega), if_neg (by omega),
      flagByte_testBit _ 4 1 v5 (by omega) (by omega), if_neg (by omega),
      flagByte_testBit _ 3 1 v4 (by omega) (by omega), if_neg (by omega),
      flagByte_testBit _ 2 1 v3 (by omega) (by omega), if_neg (by omega),
      flagByte_testBit _ 1 1 v2 (by omega) (by omega), if_pos rfl]
  · dsimp only [List.getD_cons_zero, List.getD_cons_succ]
    rw [flagByte_testBit _ 7 2 v8 (by omega) (by omega), if_neg (by omega),
      flagByte_testBit _ 6 2 v7 (by omega) (by omega), if_neg (by omega),
      flagByte_testBit _ 5 2 v6 (by omega) (by omega), if_neg (by omega),
      flagByte_testBit _ 4 2 v5 (by omega) (by omega), if_neg (by omega),
      flagByte_testBit _ 3 2 v4 (by omega) (by omega), if_neg (by omega),
      flagByte_testBit _ 2 2 v3 (by omega) (by omega), if_pos rfl]
  · dsimp only [List.getD_cons_zero, List.getD_cons_succ]
    rw [flagByte_testBit _ 7 3 v8 (by omega) (by omega), if_neg (by omega),
      flagByte_testBit _ 6 3 v7 (by omega) (by omega), if_neg (by omega),
      flagByte_testBit _ 5 3 v6 (by omega) (by omega), if_neg (by omega),
      flagByte_testBit _ 4 3 v5 (by omega) (by omega), if_neg (by omega),
      flagByte_testBit _ 3 3 v4 (by omega) (by omega), if_pos rfl]
  · dsimp only [List.getD_cons_zero, List.getD_cons_succ]
    rw [flagByte_testBit _ 7 4 v8 (by omega) (by omega), if_neg (by omega),
      flagByte_testBit _ 6 4 v7 (by omega) (by omega), if_neg (by omega),
      flagByte_testBit _ 5 4 v6 (by omega) (by omega), if_neg (by omega),
      flagByte_testBit _ 4 4 v5 (by omega) (by omega), if_pos rfl]
  · dsimp only [List.getD_cons_zero, List.getD_cons_succ]
    rw [flagByte_testBit _ 7 5 v8 (by omega) (by omega), if_neg (by omega),
      flagByte_testBit _ 6 5 v7 (by omega) (by omega), if_neg (by omega),
      flagByte_testBit _ 5 5 v6 (by omega) (by omega), if_pos rfl]
  · dsimp only [List.getD_cons_zero, List.getD_cons_succ]
    rw [flagByte_testBit _ 7 6 v8 (by omega) (by omega), if_neg (by omega),
      flagByte_testBit _ 6 6 v7 (by omega) (by omega), if_pos rfl]
  · dsimp only [List.getD_cons_zero, List.getD_cons_succ]
    rw [flagByte_testBit _ 7 7 v8 (by omega) (by omega), if_pos rfl]
  · dsimp only [List.getD_cons_zero, List.getD_cons_succ]
    rw [flagByte_testBit _ 0 0 v9 (by omega) (by omega), if_pos rfl]

/-- C11: flag packing.  On a freshly bound stream with a write capacity of at least 3
bytes (the buffer has at least 3 bytes, and the write limit the binding leaves in the
stream, `maxSize << 3` as `S32`, is at least 24 bits, as it is for every write size from
3 up to `2^28 - 1`) and with no other write, nine consecutive
`writeFlag` calls each return their argument, leave the main cursor at 16 bits (two
reserved slots), store flags 1 to 8 in bits 0 to 7 of byte 0 and flag 9 in bit 0 of
byte 1, and set neither the error flag nor tail mode. -/
theorem flag_packing (buf : List Nat) (size mw : Int)
    (v1 v2 v3 v4 v5 v6 v7 v8 v9 : Bool) (hcap : 3 ≤ buf.length)
    (hW : 24 ≤ (construct buf size mw).maxWriteBitNum) :
    ∃ s1 s2 s3 s4 s5 s6 s7 s8 s9,
      writeFlag (construct buf size mw) v1 = some (v1, s1)
      ∧ writeFlag s1 v2 = some (v2, s2) ∧ writeFlag s2 v3 = some (v3, s3)
      ∧ writeFlag s3 v4 = some (v4, s4) ∧ writeFlag s4 v5 = some (v5, s5)
      ∧ writeFlag s5 v6 = some (v6, s6) ∧ writeFlag s6 v7 = some (v7, s7)
      ∧ writeFlag s7 v8 = some (v8, s8) ∧ writeFlag s8 v9 = some (v9, s9)
      ∧ s9.bitNum = 16 ∧ s9.error = false ∧ s9.tailFlag = false
      ∧ (s9.dataPtr.getD 0 0).testBit 0 = v1 ∧ (s9.dataPtr.getD 0 0).testBit 1 = v2
      ∧ (s9.dataPtr.getD 0 0).testBit 2 = v3 ∧ (s9.dataPtr.getD 0 0).testBit 3 = v4
      ∧ (s9.dataPtr.getD 0 0).testBit 4 = v5 ∧ (s9.dataPtr.getD 0 0).testBit 5 = v6
      ∧ (s9.dataPtr.getD 0 0).testBit 6 = v7 ∧ (s9.dataPtr.getD 0 0).testBit 7 = v8
      ∧ (s9.dataPtr.getD 1 0).testBit 0 = v9 := by
  obtain ⟨a, tl, rfl⟩ := List.exists_cons_of_length_pos (show 0 < buf.length by omega)
  obtain ⟨b, tl, rfl⟩ := List.exists_cons_of_length_pos
    (show 0 < tl.length by simp at hcap; omega)
  obtain ⟨c, rest, rfl⟩ := List.exists_cons_of_length_pos
    (show 0 < tl.length by simp at hcap; omega)
  exact flag_packing_core a b c rest _ _ _ _ v1 v2 v3 v4 v5 v6 v7 v8 v9 hW

theorem flag_packing_witness :
    ∃ s1 s2 s3 s4 s5 s6 s7 s8 s9,
      writeFlag (construct [0, 0, 0] 3 (-1)) true = some (true, s1)
      ∧ writeFlag s1 false = some (false, s2) ∧ writeFlag s2 true = some (true, s3)
      ∧ writeFlag s3 true = some (true, s4) ∧ writeFlag s4 false = some (false, s5)
      ∧ writeFlag s5 false = some (false, s6) ∧ writeFlag s6 true = some (true, s7)
      ∧ writeFlag s7 false = some (false, s8) ∧ writeFlag s8 true = some (true, s9)
      ∧ s9.bitNum = 16 ∧ s9.error = false ∧ s9.tailFlag = false
      ∧ (s9.dataPtr.getD 0 0).testBit 0 = true ∧ (s9.dataPtr.getD 0 0).testBit 1 = false
      ∧ (s9.dataPtr.getD 0 0).testBit 2 = true ∧ (s9.dataPtr.getD 0 0).testBit 3 = true
      ∧ (s9.dataPtr.getD 0 0).testBit 4 = false ∧ (s9.dataPtr.getD 0 0).testBit 5 = false
      ∧ (s9.dataPtr.getD 0 0).testBit 6 = true ∧ (s9.dataPtr.getD 0 0).testBit 7 = false
      ∧ (s9.dataPtr.getD 1 0).testBit 0 = true :=
  flag_packing [0, 0, 0] 3 (-1) true false true true false false true false true
    (by decide) (by decide)

end Base

/-! ## C12, C13: writeBits frame, setPosition -/

namespace Base

/-- C12: postcondition and frame of `writeBits`.  For a stream not in tail mode and
`bitCount > 0`, with `r = 8 * ceil(bitCount/8)` and `bitNum + r ≤ maxWriteBitNum` (the
buffer holding these bytes and `src` at least `r/8` bytes), `writeBits(bitCount, src)`
copies the first `r/8` bytes of `src` to the buffer bytes from `bitNum/8`, leaves every
other byte unchanged, advances the main cursor by exactly `r` and changes no other field;
`writeBits(0, src)` changes nothing at all. -/
theorem writeBits_frame (s : BitStream) (bitCount : Int) (src : List Nat)
    (hts : s.tailFlag = false) (h0 : 0 < bitCount) (hpos : 0 ≤ s.bitNum)
    (hlim : s.bitNum + 8 * ((bitCount + 7) / 8) ≤ s.maxWriteBitNum)
    (hbuf : s.bitNum / 8 + (bitCount + 7) / 8 ≤ s.dataPtr.length)
    (hsrc : (bitCount + 7) / 8 ≤ src.length) :
    ∃ s1, writeBits s bitCount src = some s1
      ∧ (s1.dataPtr.drop (s.bitNum / 8).toNat).take ((bitCount + 7) / 8).toNat
          = src.take ((bitCount + 7) / 8).toNat
      ∧ s1.dataPtr.take (s.bitNum / 8).toNat = s.dataPtr.take (s.bitNum / 8).toNat
      ∧ s1.dataPtr.drop ((s.bitNum / 8).toNat + ((bitCount + 7) / 8).toNat)
          = s.dataPtr.drop ((s.bitNum / 8).toNat + ((bitCount + 7) / 8).toNat)
      ∧ s1.dataPtr.length = s.dataPtr.length
      ∧ s1.bitNum = s.bitNum + 8 * ((bitCount + 7) / 8)
      ∧ s1.flagNum = s.flagNum ∧ s1.tailFlag = s.tailFlag ∧ s1.error = s.error
      ∧ s1 = { s with dataPtr := s1.dataPtr, bitNum := s1.bitNum }
      ∧ writeBits s 0 src = some s := by
  obtain ⟨o, ho⟩ := Int.eq_ofNat_of_zero_le (show 0 ≤ s.bitNum / 8 by omega)
  obtain ⟨k, hk⟩ := Int.eq_ofNat_of_zero_le (show 0 ≤ (bitCount + 7) / 8 by omega)
  have hkr : (roundBits bitCount + 7) / 8 = (k : Int) := by rw [roundBits_eq]; omega
  have hW := writeBits_ok s bitCount src o k (by omega) hts (by rw [roundBits_eq]; omega) ho hkr
    (by omega) (by omega)
  have hA : (s.dataPtr.take o).length = o := by simp [List.length_take]; omega
  have hP : (src.take k).length = k := by simp [List.length_take]; omega
  rw [ho, hk]
  simp only [Int.toNat_ofNat]
  refine ⟨_, hW, ?_, ?_, ?_, ?_, ?_, rfl, rfl, rfl, rfl, ?_⟩
  · show ((s.dataPtr.take o ++ src.take k ++ s.dataPtr.drop (o + k)).drop o).take k = _
    rw [List.append_assoc, List.drop_left' hA, List.take_left' hP]
  · show (s.dataPtr.take o ++ src.take k ++ s.dataPtr.drop (o + k)).take o = _
    rw [List.append_assoc, List.take_left' hA]
  · show (s.dataPtr.take o ++ src.take k ++ s.dataPtr.drop (o + k)).drop (o + k) = _
    exact List.drop_left' (by rw [List.length_append, hA, hP])
  · show (s.dataPtr.take o ++ src.take k ++ s.dataPtr.drop (o + k)).length = _
    simp only [List.length_append, hA, hP, List.length_drop]
    omega
  · show s.bitNum + roundBits bitCount = _
    rw [roundBits_eq, hk]
  · unfold writeBits
    rw [if_pos rfl]

theorem writeBits_frame_witness :
    ∃ s1, writeBits (construct [1, 2, 3, 4] 4 (-1)) 12 [170, 187, 204] = some s1
      ∧ (s1.dataPtr.drop ((construct [1, 2, 3, 4] 4 (-1)).bitNum / 8).toNat).take
            (((12 : Int) + 7) / 8).toNat
          = ([170, 187, 204] : List Nat).take (((12 : Int) + 7) / 8).toNat
      ∧ s1.dataPtr.take ((construct [1, 2, 3, 4] 4 (-1)).bitNum / 8).toNat
          = (construct [1, 2, 3, 4] 4 (-1)).dataPtr.take
              ((construct [1, 2, 3, 4] 4 (-1)).bitNum / 8).toNat
      ∧ s1.dataPtr.drop (((construct [1, 2, 3, 4] 4 (-1)).bitNum / 8).toNat
            + (((12 : Int) + 7) / 8).toNat)
          = (construct [1, 2, 3, 4] 4 (-1)).dataPtr.drop
              (((construct [1, 2, 3, 4] 4 (-1)).bitNum / 8).toNat + (((12 : Int) + 7) / 8).toNat)
      ∧ s1.dataPtr.length = (construct [1, 2, 3, 4] 4 (-1)).dataPtr.length
      ∧ s1.bitNum = (construct [1, 2, 3, 4] 4 (-1)).bitNum + 8 * (((12 : Int) + 7) / 8)
      ∧ s1.flagNum = (construct [1, 2, 3, 4] 4 (-1)).flagNum
      ∧ s1.tailFlag = (construct [1, 2, 3, 4] 4 (-1)).tailFlag
      ∧ s1.error = (construct [1, 2, 3, 4] 4 (-1)).error
      ∧ s1 = { construct [1, 2, 3, 4] 4 (-1) with dataPtr := s1.dataPtr, bitNum := s1.bitNum }
      ∧ writeBits (construct [1, 2, 3, 4] 4 (-1)) 0 [170, 187, 204]
          = some (construct [1, 2, 3, 4] 4 (-1)) :=
  writeBits_frame (construct [1, 2, 3, 4] 4 (-1)) 12 [170, 187, 204] rfl (by decide) (by decide)
    (by decide) (by decide) (by decide)

/-- C13, the claim fails: `setPosition(0x20000000)` on a fresh stream succeeds, and the
`U32` shift `pos << 3` wraps to 0, so the main cursor is 0 and not `pos * 8 = 2^32`. -/
theorem setPosition_shift_wraps :
    (setPosition (construct [0] 1 (-1)) 536870912).1 = true
      ∧ (setPosition (construct [0] 1 (-1)) 536870912).2.bitNum = 0
      ∧ (536870912 : Int) * 8 = 4294967296 :=
  ⟨rfl, rfl, rfl⟩

/-- C13 as amended: `setPosition(pos)` returns success if and only if `pos = 0` or the
flag cursor is 0.  On success the flag cursor becomes 0 and the main cursor becomes the
32 bit value of `pos << 3`, which is `pos * 8` for every `pos < 2^28`; on failure both
cursors are unchanged.  In both cases the buffer contents, tail mode, the error flag, the
limits and the size are unchanged. -/
theorem setPosition_spec (s : BitStream) (pos : Nat) :
    ((setPosition s pos).1 = true ↔ (pos = 0 ∨ s.flagNum = 0))
    ∧ ((setPosition s pos).1 = true →
        (setPosition s pos).2.flagNum = 0
        ∧ (setPosition s pos).2.bitNum = toS32 (toU32 ((pos : Int) * 8))
        ∧ (pos < 268435456 → (setPosition s pos).2.bitNum = (pos : Int) * 8))
    ∧ ((setPosition s pos).1 = false →
        (setPosition s pos).2.bitNum = s.bitNum ∧ (setPosition s pos).2.flagNum = s.flagNum)
    ∧ (setPosition s pos).2.dataPtr = s.dataPtr
    ∧ (setPosition s pos).2.tailFlag = s.tailFlag
    ∧ (setPosition s pos).2.error = s.error
    ∧ (setPosition s pos).2.maxReadBitNum = s.maxReadBitNum
    ∧ (setPosition s pos).2.maxWriteBitNum = s.maxWriteBitNum
    ∧ (setPosition s pos).2.bufSize = s.bufSize := by
  unfold setPosition
  by_cases h : pos ≠ 0 ∧ s.flagNum ≠ 0
  · rw [if_pos h]
    refine ⟨?_, ?_, ?_, rfl, rfl, rfl, rfl, rfl, rfl⟩
    · constructor
      · intro h1; exact absurd h1 Bool.false_ne_true
      · intro h1
        rcases h1 with h1 | h1
        · exact absurd h1 h.1
        · exact absurd h1 h.2
    · intro h1; exact absurd h1 Bool.false_ne_true
    · intro _; exact ⟨rfl, rfl⟩
  · rw [if_neg h]
    refine ⟨?_, ?_, ?_, rfl, rfl, rfl, rfl, rfl, rfl⟩
    · constructor
      · intro _
        by_cases hp : pos = 0
        · exact Or.inl hp
        · right
          by_contra hf
          exact h ⟨hp, hf⟩
      · intro _; rfl
    · intro _
      refine ⟨rfl, rfl, ?_⟩
      intro hlt
      show toS32 (toU32 ((pos : Int) * 8)) = (pos : Int) * 8
      exact toS32_toU32 _ (by omega)
    · intro h1; exact absurd h1.symm Bool.false_ne_true

end Base

/-! ## C16, C17, C18: tail mode, the example scenario, the slot threshold -/

namespace Base

/-- C16, the claim fails: on a fresh 1 byte stream the first `writeFlag(false)` sets
tail mode; the next `writeFlag(true)` is carried out all the same and sets bit 1 of
byte 0, so the buffer changes from `[0]` to `[2]`. -/
theorem tail_mode_flag_still_written :
    ∃ s1 s2, writeFlag (construct [0] 1 (-1)) false = some (false, s1)
      ∧ s1.tailFlag = true ∧ s1.dataPtr = [0]
      ∧ writeFlag s1 true = some (true, s2)
      ∧ s2.dataPtr = [2] ∧ s2.error = false :=
  ⟨_, _, rfl, rfl, rfl, rfl, rfl, rfl⟩

/-- C16 as amended: in tail mode no slot is reserved and it is ordinary data that is
refused.  For every state with `tailFlag` set, `writeBits` with `bitCount ≠ 0` only sets
the error flag; `writeFlag(val)` leaves the main cursor and tail mode unchanged, and
while `flagNum + 1 ≤ maxWriteBitNum` it still writes the flag, into bit `flagNum & 7` of
byte `flagNum >> 3` of the buffer (the other bits of that byte and all other bytes
unchanged) and advances the flag cursor; once `flagNum + 1 > maxWriteBitNum` (the flag
cursor an `S32` below the top of the range) it sets the error flag, returns false and
modifies nothing else, whatever the buffer. -/
theorem writeFlag_in_tail_mode (s : BitStream) (val : Bool) (ht : s.tailFlag = true) :
    (∀ bitCount src, bitCount ≠ 0 → writeBits s bitCount src = some { s with error := true })
    ∧ (s.flagNum + 1 > s.maxWriteBitNum →
        -2147483648 ≤ s.flagNum ∧ s.flagNum < 2147483647 →
        writeFlag s val = some (false, { s with error := true }))
    ∧ (∀ i : Nat, s.flagNum / 8 = (i : Int) → i < s.dataPtr.length →
        s.flagNum + 1 ≤ s.maxWriteBitNum →
        writeFlag s val = some (val, { s with
          dataPtr := s.dataPtr.set i (flagByte (s.dataPtr.getD i 0) (s.flagNum % 8).toNat val)
          flagNum := s.flagNum + 1 })
        ∧ ∀ j, j < 8 →
          (flagByte (s.dataPtr.getD i 0) (s.flagNum % 8).toNat val).testBit j
            = if (s.flagNum % 8).toNat = j then val else (s.dataPtr.getD i 0).testBit j) := by
  refine ⟨?_, ?_, ?_⟩
  · intro bitCount src h0
    unfold writeBits
    rw [if_neg h0, if_pos ht]
  · intro hov hS
    rw [writeFlag_eq_flagSlot]
    have hsl : flagSlot s s.maxWriteBitNum = s := by
      unfold flagSlot
      rw [if_neg]
      rintro ⟨_, h2⟩
      rw [ht] at h2
      exact absurd h2 (by decide)
    rw [hsl, addS32_eq _ _ (by omega), if_pos hov]
  · intro i hi hlen hroom
    refine ⟨writeFlag_inslot s val i (Or.inr ht) hroom hi hlen, ?_⟩
    intro j hj
    exact flagByte_testBit _ _ j val (by omega) hj

theorem writeFlag_in_tail_mode_witness :
    writeFlag ⟨[255], 0, 8, true, 1, 8, 8, 8, false⟩ true
        = some (false, ⟨[255], 0, 8, true, 1, 8, 8, 8, true⟩)
    ∧ writeFlag ⟨[0], 0, 1, true, 1, 8, 8, 8, false⟩ true
        = some (true, ⟨[2], 0, 2, true, 1, 8, 8, 8, false⟩)
    ∧ writeBits ⟨[0], 0, 1, true, 1, 8, 8, 8, false⟩ 8 [255]
        = some ⟨[0], 0, 1, true, 1, 8, 8, 8, true⟩ :=
  ⟨(writeFlag_in_tail_mode ⟨[255], 0, 8, true, 1, 8, 8, 8, false⟩ true rfl).2.1
      (by decide) (by decide),
    ((writeFlag_in_tail_mode ⟨[0], 0, 1, true, 1, 8, 8, 8, false⟩ true rfl).2.2 0 rfl
      (by decide) (by decide)).1,
    (writeFlag_in_tail_mode ⟨[0], 0, 1, true, 1, 8, 8, 8, false⟩ true rfl).1 8 [255]
      (by decide)⟩

/-- C17, the claim fails: in the example scenario the last call `writeInt(0xF, 4)` leaves
the main cursor at 24, not 20, because `writeBits` rounds the 4 bits up to a byte. -/
theorem scenario_cursor_is_24 :
    ∃ s1 s2 s3, writeInt (construct [0, 0, 0, 0, 0, 0, 0, 0] 8 8) 255 8 = some s1
      ∧ writeFlag s1 true = some (true, s2)
      ∧ writeInt s2 15 4 = some s3
      ∧ s3.bitNum = 24 ∧ s3.bitNum ≠ 20 :=
  ⟨_, _, _, rfl, rfl, rfl, rfl, by decide⟩

/-- C17 as amended: on a stream bound over an 8 byte buffer with `maxWriteSize = 8`,
after `writeInt(255, 8)` the main cursor is 8; after then `writeFlag(true)` the main
cursor is 16, the flag was written at bit offset 8 (the flag cursor is 9) and bit 0 of
byte 1 is 1; after then `writeInt(0xF, 4)` the main cursor is 24, the 4 bits taking a
whole byte, and the buffer starts with `255`, the slot byte and `15`. -/
theorem scenario_write_side (a b c d e f g h : Nat) :
    ∃ s1 s2 s3, writeInt (construct [a, b, c, d, e, f, g, h] 8 8) 255 8 = some s1
      ∧ s1.bitNum = 8
      ∧ writeFlag s1 true = some (true, s2)
      ∧ s2.bitNum = 16 ∧ s2.flagNum = 9 ∧ (s2.dataPtr.getD 1 0).testBit 0 = true
      ∧ writeInt s2 15 4 = some s3
      ∧ s3.bitNum = 24
      ∧ s3.dataPtr = [255, flagByte b 0 true, 15, d, e, f, g, h] := by
  have hc : construct [a, b, c, d, e, f, g, h] 8 8
      = ⟨[a, b, c, d, e, f, g, h], 0, 0, false, 8, 64, 64, 64, false⟩ := rfl
  have e1 : writeInt ⟨[a, b, c, d, e, f, g, h], 0, 0, false, 8, 64, 64, 64, false⟩ 255 8
      = some ⟨[255, b, c, d, e, f, g, h], 8, 0, false, 8, 64, 64, 64, false⟩ := by
    have h1 := writeInt_eq ⟨[a, b, c, d, e, f, g, h], 0, 0, false, 8, 64, 64, 64, false⟩
      255 8 0 (by omega) rfl
      (by show (0 : Int) + 8 * ((((8 : Nat) : Int) + 7) / 8) ≤ 64; omega) rfl (by simp)
    rw [show (8 + 7) / 8 = 1 from rfl, byte_take_PutUint32 255 (by omega)] at h1
    simpa using h1
  have e2 : writeFlag ⟨[255, b, c, d, e, f, g, h], 8, 0, false, 8, 64, 64, 64, false⟩ true
      = some (true,
          ⟨[255, flagByte b 0 true, c, d, e, f, g, h], 16, 9, false, 8, 64, 64, 64, false⟩) := by
    rw [writeFlag_newslot ⟨[255, b, c, d, e, f, g, h], 8, 0, false, 8, 64, 64, 64, false⟩ true 1
      rfl rfl (by show (8 : Int) + 8 < 64; omega) rfl (by simp) (by norm_num)]
    simp
  have e3 : writeInt
        ⟨[255, flagByte b 0 true, c, d, e, f, g, h], 16, 9, false, 8, 64, 64, 64, false⟩ 15 4
      = some
        ⟨[255, flagByte b 0 true, 15, d, e, f, g, h], 24, 9, false, 8, 64, 64, 64, false⟩ := by
    have h1 := writeInt_eq
      ⟨[255, flagByte b 0 true, c, d, e, f, g, h], 16, 9, false, 8, 64, 64, 64, false⟩
      15 4 2 (by omega) rfl
      (by show (16 : Int) + 8 * ((((4 : Nat) : Int) + 7) / 8) ≤ 64; omega) rfl (by simp)
    rw [show (4 + 7) / 8 = 1 from rfl, byte_take_PutUint32 15 (by omega)] at h1
    simpa using h1
  rw [hc]
  refine ⟨_, _, _, e1, rfl, e2, rfl, rfl, ?_, e3, rfl, rfl⟩
  show (flagByte b 0 true).testBit 0 = true
  rw [flagByte_testBit _ 0 0 true (by omega) (by omega), if_pos rfl]

/-- C18, the claim fails: on a fresh 1 byte stream `bitNum + 8 ≤ maxWriteBitNum` holds
(0 + 8 ≤ 8), yet `writeFlag` reserves no slot: it sets tail mode and leaves the main
cursor at 0, writing the flag at bit 0. -/
theorem writeFlag_no_slot_at_equality :
    ∃ s1, (construct [0] 1 (-1)).bitNum + 8 ≤ (construct [0] 1 (-1)).maxWriteBitNum
      ∧ (construct [0] 1 (-1)).tailFlag = false ∧ (construct [0] 1 (-1)).flagNum % 8 = 0
      ∧ writeFlag (construct [0] 1 (-1)) true = some (true, s1)
      ∧ s1.tailFlag = true ∧ s1.bitNum = 0 ∧ s1.flagNum = 1 ∧ s1.dataPtr = [1] :=
  ⟨_, by decide, rfl, rfl, rfl, rfl, rfl, rfl, rfl⟩

/-- C18 as amended: for a stream not in tail mode whose flag cursor is a multiple of 8
(the main cursor an `S32` more than 8 below the top of the range, so that `bitNum + 8`
is the sum), `writeFlag(val)` reserves a new slot (flag written at the old main cursor,
main cursor advanced by 8, tail mode still false) exactly when
`bitNum + 8 < maxWriteBitNum`, strictly.  When `bitNum + 8 ≥ maxWriteBitNum` it sets
tail mode without advancing the main cursor: the flag is then written at the main cursor
if `bitNum + 1 ≤ maxWriteBitNum`, and otherwise the call fails with the error flag,
whatever the buffer. -/
theorem writeFlag_slot_threshold (s : BitStream) (val : Bool)
    (ht : s.tailFlag = false) (hal : s.flagNum % 8 = 0)
    (hS : -2147483648 ≤ s.bitNum ∧ s.bitNum + 8 < 2147483648) :
    (∀ i : Nat, s.bitNum / 8 = (i : Int) → i < s.dataPtr.length →
      s.bitNum + 8 < s.maxWriteBitNum →
      writeFlag s val = some (val, { s with
        dataPtr := s.dataPtr.set i (flagByte (s.dataPtr.getD i 0) (s.bitNum % 8).toNat val)
        bitNum := s.bitNum + 8
        flagNum := s.bitNum + 1 }))
    ∧ (∀ i : Nat, s.bitNum / 8 = (i : Int) → i < s.dataPtr.length →
      s.bitNum + 8 ≥ s.maxWriteBitNum → s.bitNum + 1 ≤ s.maxWriteBitNum →
      writeFlag s val = some (val, { s with
        dataPtr := s.dataPtr.set i (flagByte (s.dataPtr.getD i 0) (s.bitNum % 8).toNat val)
        flagNum := s.bitNum + 1
        tailFlag := true }))
    ∧ (s.bitNum + 1 > s.maxWriteBitNum →
      writeFlag s val = some (false, { s with
        flagNum := s.bitNum, tailFlag := true, error := true })) := by
  refine ⟨?_, ?_, ?_⟩
  · intro i hi hlen hroom
    exact writeFlag_newslot s val i hal ht hroom hi hlen hS.2
  · intro i hi hlen hno h1
    exact writeFlag_entertail s val i hal ht (by omega) h1 hi hlen hS.2
  · intro hov
    rw [writeFlag_eq_flagSlot]
    have hsl : flagSlot s s.maxWriteBitNum = { s with flagNum := s.bitNum, tailFlag := true } := by
      unfold flagSlot
      rw [if_pos ⟨by omega, ht⟩]
      simp only []
      rw [addS32_eq _ _ (by omega), if_neg (by omega)]
    rw [hsl]
    simp only []
    rw [addS32_eq _ _ (by omega), if_pos hov]

theorem writeFlag_slot_threshold_witness :
    writeFlag ⟨[0, 0], 0, 0, false, 2, 16, 16, 16, false⟩ true
        = some (true, ⟨[1, 0], 8, 1, false, 2, 16, 16, 16, false⟩)
    ∧ writeFlag ⟨[0], 0, 0, false, 1, 8, 8, 8, false⟩ true
        = some (true, ⟨[1], 0, 1, true, 1, 8, 8, 8, false⟩)
    ∧ writeFlag ⟨[0], 8, 0, false, 1, 8, 8, 8, false⟩ true
        = some (false, ⟨[0], 8, 8, true, 1, 8, 8, 8, true⟩) :=
  ⟨(writeFlag_slot_threshold ⟨[0, 0], 0, 0, false, 2, 16, 16, 16, false⟩ true rfl rfl
      (by decide)).1 0 rfl (by decide) (by decide),
    (writeFlag_slot_threshold ⟨[0], 0, 0, false, 1, 8, 8, 8, false⟩ true rfl rfl
      (by decide)).2.1 0 rfl (by decide) (by decide) (by decide),
    (writeFlag_slot_threshold ⟨[0], 8, 0, false, 1, 8, 8, 8, false⟩ true rfl rfl
      (by decide)).2.2 (by decide)⟩

end Base

/-! ## The cursor invariant of a write pass -/

namespace Base

theorem memcpy_eq_some (dst src d : List Nat) (dOff sOff n : Int)
    (h : memcpy dst dOff src sOff n = some d) :
    0 ≤ dOff ∧ 0 ≤ sOff ∧ 0 ≤ n ∧ dOff + n ≤ dst.length ∧ sOff + n ≤ src.length
      ∧ d = dst.take dOff.toNat ++ (src.drop sOff.toNat).take n.toNat
          ++ dst.drop (dOff.toNat + n.toNat) := by
  unfold memcpy at h
  split at h
  · rename_i hc
    cases h
    exact ⟨hc.1, hc.2.1, hc.2.2.1, hc.2.2.2.1, hc.2.2.2.2, rfl⟩
  · cases h

/-- The three ways `writeBits` returns: nothing to write, refused, or copied. -/
theorem writeBits_cases (s s1 : BitStream) (bitCount : Int) (src : List Nat)
    (h : writeBits s bitCount src = some s1) :
    (bitCount = 0 ∧ s1 = s)
    ∨ (bitCount ≠ 0
        ∧ (s.tailFlag = true ∨ addS32 (roundBits bitCount) s.bitNum > s.maxWriteBitNum)
        ∧ s1 = { s with error := true })
    ∨ (bitCount ≠ 0 ∧ s.tailFlag = false
        ∧ addS32 (roundBits bitCount) s.bitNum ≤ s.maxWriteBitNum
        ∧ 0 ≤ s.bitNum / 8 ∧ 0 ≤ (roundBits bitCount + 7) / 8
        ∧ s.bitNum / 8 + (roundBits bitCount + 7) / 8 ≤ s.dataPtr.length
        ∧ s1 = { s with
            dataPtr := s.dataPtr.take (s.bitNum / 8).toNat
              ++ src.take ((roundBits bitCount + 7) / 8).toNat
              ++ s.dataPtr.drop ((s.bitNum / 8).toNat + ((roundBits bitCount + 7) / 8).toNat)
            bitNum := s.bitNum + roundBits bitCount }
        ∧ s1.dataPtr.length = s.dataPtr.length) := by
  unfold writeBits at h
  by_cases h0 : bitCount = 0
  · rw [if_pos h0] at h
    cases h
    exact Or.inl ⟨h0, rfl⟩
  · rw [if_neg h0] at h
    by_cases ht : s.tailFlag = true
    · rw [if_pos ht] at h
      cases h
      exact Or.inr (Or.inl ⟨h0, Or.inl ht, rfl⟩)
    · rw [if_neg ht] at h
      simp only [] at h
      by_cases hov : addS32 (roundBits bitCount) s.bitNum > s.maxWriteBitNum
      · rw [if_pos hov] at h
        cases h
        exact Or.inr (Or.inl ⟨h0, Or.inr hov, rfl⟩)
      · rw [if_neg hov] at h
        cases hm : memcpy s.dataPtr (s.bitNum / 8) src 0 ((roundBits bitCount + 7) / 8) with
        | none => rw [hm] at h; cases h
        | some d =>
          rw [hm] at h
          cases h
          obtain ⟨h1, _, h3, h4, h5, h6⟩ := memcpy_eq_some _ _ _ _ _ _ hm
          refine Or.inr (Or.inr ⟨h0, by simpa using ht, by omega, h1, h3, h4, ?_, ?_⟩)
          · rw [h6]
            simp
          · show d.length = s.dataPtr.length
            rw [h6]
            simp only [List.length_append, List.length_take, List.length_drop,
              Int.toNat_zero, List.drop_zero]
            omega

/-! ### The embedding and its 32 bit forms -/

/-- The `S32` sum sees its first operand modulo `2^32`. -/
theorem addS32_wrap (a b : Int) : addS32 (toS32 (toU32 a)) b = addS32 a b := by
  unfold addS32 toU32 toS32
  split <;> split <;> split <;> omega

/-- The wrapped rounding is the exact one modulo `2^32`. -/
theorem roundBits32_eq (bitCount : Int)
    (hc : -2147483648 ≤ bitCount ∧ bitCount < 2147483648) :
    roundBits32 bitCount = toS32 (toU32 (roundBits bitCount)) := by
  unfold roundBits32 roundBits
  by_cases h : bitCount % 8 ≠ 0
  · rw [if_pos h, if_pos h]
    rfl
  · rw [if_neg h, if_neg h, toS32_toU32 _ hc]

/-- On a buffer shorter than `2^28` bytes the exact rounding and cursor update of
`writeBits` are the machine's: for every `S32` bit count the embedding and its 32 bit
form agree, in the result and in having one. -/
theorem writeBits_eq_writeBits32 (s : BitStream) (bitCount : Int) (src : List Nat)
    (hlen : s.dataPtr.length < 268435456)
    (hc : -2147483648 ≤ bitCount ∧ bitCount < 2147483648) :
    writeBits s bitCount src = writeBits32 s bitCount src := by
  unfold writeBits writeBits32
  by_cases h0 : bitCount = 0
  · rw [if_pos h0, if_pos h0]
  · rw [if_neg h0, if_neg h0]
    by_cases ht : s.tailFlag = true
    · rw [if_pos ht, if_pos ht]
    · rw [if_neg ht, if_neg ht]
      simp only []
      have hr := roundBits_eq bitCount
      have h32 := roundBits32_eq bitCount hc
      have hg : addS32 (roundBits32 bitCount) s.bitNum = addS32 (roundBits bitCount) s.bitNum := by
        rw [h32, addS32_wrap]
      rw [hg]
      by_cases hov : addS32 (roundBits bitCount) s.bitNum > s.maxWriteBitNum
      · rw [if_pos hov, if_pos hov]
      · rw [if_neg hov, if_neg hov]
        by_cases hbig : roundBits bitCount < 2147483648
        · have he : roundBits32 bitCount = roundBits bitCount := by
            rw [h32, toS32_toU32 _ (by omega)]
          rw [he, addS32_eq _ 7 (by omega)]
          cases hm : memcpy s.dataPtr (s.bitNum / 8) src 0 ((roundBits bitCount + 7) / 8) with
          | none => rfl
          | some d =>
            obtain ⟨m1, _, m3, m4, _, _⟩ := memcpy_eq_some _ _ _ _ _ _ hm
            simp only []
            rw [addS32_eq _ _ (by omega)]
        · have hr2 : roundBits bitCount = 2147483648 := by omega
          have he : roundBits32 bitCount = -2147483648 := by
            rw [h32, hr2]
            rfl
          have e1 : memcpy s.dataPtr (s.bitNum / 8) src 0 ((roundBits bitCount + 7) / 8)
              = none := by
            unfold memcpy
            rw [if_neg (by omega)]
          have e2 : memcpy s.dataPtr (s.bitNum / 8) src 0 (addS32 (roundBits32 bitCount) 7 / 8)
              = none := by
            rw [he]
            unfold memcpy
            rw [if_neg]
            rintro ⟨_, _, h3, _⟩
            exact absurd h3 (by decide)
          rw [e1, e2]

/-- The same for `readBits`: on a buffer shorter than `2^28` bytes the embedding and its
32 bit form agree for every `S32` bit count. -/
theorem readBits_eq_readBits32 (s : BitStream) (bitCount : Int) (dst : List Nat)
    (hlen : s.dataPtr.length < 268435456)
    (hc : -2147483648 ≤ bitCount ∧ bitCount < 2147483648) :
    readBits s bitCount dst = readBits32 s bitCount dst := by
  unfold readBits readBits32
  by_cases h0 : bitCount = 0
  · rw [if_pos h0, if_pos h0]
  · rw [if_neg h0, if_neg h0]
    by_cases ht : s.tailFlag = true
    · rw [if_pos ht, if_pos ht]
    · rw [if_neg ht, if_neg ht]
      simp only []
      have hr := roundBits_eq bitCount
      have h32 := roundBits32_eq bitCount hc
      have hg : addS32 (roundBits32 bitCount) s.bitNum = addS32 (roundBits bitCount) s.bitNum := by
        rw [h32, addS32_wrap]
      rw [hg]
      by_cases hov : addS32 (roundBits bitCount) s.bitNum > s.maxReadBitNum
      · rw [if_pos hov, if_pos hov]
      · rw [if_neg hov, if_neg hov]
        by_cases hbig : roundBits bitCount < 2147483648
        · have he : roundBits32 bitCount = roundBits bitCount := by
            rw [h32, toS32_toU32 _ (by omega)]
          rw [he, addS32_eq _ 7 (by omega)]
          cases hm : memcpy dst 0 s.dataPtr (s.bitNum / 8) ((roundBits bitCount + 7) / 8) with
          | none => rfl
          | some d =>
            obtain ⟨_, m2, m3, _, m5, _⟩ := memcpy_eq_some _ _ _ _ _ _ hm
            simp only []
            rw [addS32_eq _ _ (by omega)]
        · have hr2 : roundBits bitCount = 2147483648 := by omega
          have he : roundBits32 bitCount = -2147483648 := by
            rw [h32, hr2]
            rfl
          have e1 : memcpy dst 0 s.dataPtr (s.bitNum / 8) ((roundBits bitCount + 7) / 8)
              = none := by
            unfold memcpy
            rw [if_neg (by omega)]
          have e2 : memcpy dst 0 s.dataPtr (s.bitNum / 8) (addS32 (roundBits32 bitCount) 7 / 8)
              = none := by
            rw [he]
            unfold memcpy
            rw [if_neg]
            rintro ⟨_, _, h3, _⟩
            exact absurd h3 (by decide)
          rw [e1, e2]

/-- The two ways `writeFlag` returns: refused by the overflow test, or the flag stored at
the flag cursor left by the slot step. -/
theorem writeFlag_cases (s s1 : BitStream) (val ret : Bool)
    (h : writeFlag s val = some (ret, s1)) :
    (addS32 (flagSlot s s.maxWriteBitNum).flagNum 1 > s.maxWriteBitNum ∧ ret = false
        ∧ s1 = { flagSlot s s.maxWriteBitNum with error := true })
    ∨ (addS32 (flagSlot s s.maxWriteBitNum).flagNum 1 ≤ s.maxWriteBitNum ∧ ret = val
        ∧ 0 ≤ (flagSlot s s.maxWriteBitNum).flagNum / 8
        ∧ (flagSlot s s.maxWriteBitNum).flagNum / 8 < s.dataPtr.length
        ∧ s1 = { flagSlot s s.maxWriteBitNum with
            dataPtr := s.dataPtr.set ((flagSlot s s.maxWriteBitNum).flagNum / 8).toNat
              (flagByte (s.dataPtr.getD ((flagSlot s s.maxWriteBitNum).flagNum / 8).toNat 0)
                ((flagSlot s s.maxWriteBitNum).flagNum % 8).toNat val)
            flagNum := (flagSlot s s.maxWriteBitNum).flagNum + 1 }) := by
  rw [writeFlag_eq_flagSlot] at h
  obtain ⟨_, hd, hm, _, _⟩ := flagSlot_frame s s.maxWriteBitNum
  generalize flagSlot s s.maxWriteBitNum = t at h hd hm ⊢
  rw [← hd, ← hm]
  by_cases hov : addS32 t.flagNum 1 > t.maxWriteBitNum
  · rw [if_pos hov] at h
    cases h
    exact Or.inl ⟨hov, rfl, rfl⟩
  · rw [if_neg hov] at h
    unfold getByte setByte at h
    by_cases hr : 0 ≤ t.flagNum / 8 ∧ t.flagNum / 8 < t.dataPtr.length
    · rw [if_pos hr] at h
      simp only [] at h
      rw [if_pos hr] at h
      cases h
      exact Or.inr ⟨by omega, rfl, hr.1, hr.2, rfl⟩
    · rw [if_neg hr] at h
      cases h

/-- On a buffer shorter than `2^28` bytes the exact `flagNum++` of `writeFlag` is the
machine's: the embedding and its 32 bit form agree, in the result and in having one. -/
theorem writeFlag_eq_writeFlag32 (s : BitStream) (val : Bool)
    (hlen : s.dataPtr.length < 268435456) :
    writeFlag s val = writeFlag32 s val := by
  have hd := (flagSlot_frame s s.maxWriteBitNum).2.1
  have e1 : writeFlag s val = (fun t : BitStream =>
      if addS32 t.flagNum 1 > t.maxWriteBitNum then some (false, { t with error := true })
      else
        match getByte t.dataPtr (t.flagNum / 8) with
        | none => none
        | some b =>
          match setByte t.dataPtr (t.flagNum / 8)
              (if val then b ||| (1 <<< (t.flagNum % 8).toNat)
                else b &&& (4294967295 - (1 <<< (t.flagNum % 8).toNat))) with
          | none => none
          | some d => some (val, { t with dataPtr := d, flagNum := t.flagNum + 1 }))
      (flagSlot s s.maxWriteBitNum) := rfl
  have e2 : writeFlag32 s val = (fun t : BitStream =>
      if addS32 t.flagNum 1 > t.maxWriteBitNum then some (false, { t with error := true })
      else
        match getByte t.dataPtr (t.flagNum / 8) with
        | none => none
        | some b =>
          match setByte t.dataPtr (t.flagNum / 8)
              (if val then b ||| (1 <<< (t.flagNum % 8).toNat)
                else b &&& (4294967295 - (1 <<< (t.flagNum % 8).toNat))) with
          | none => none
          | some d => some (val, { t with dataPtr := d, flagNum := addS32 t.flagNum 1 }))
      (flagSlot s s.maxWriteBitNum) := rfl
  rw [e1, e2]
  generalize flagSlot s s.maxWriteBitNum = t at hd
  simp only []
  by_cases hov : addS32 t.flagNum 1 > t.maxWriteBitNum
  · rw [if_pos hov, if_pos hov]
  · rw [if_neg hov, if_neg hov]
    unfold getByte
    by_cases hr : 0 ≤ t.flagNum / 8 ∧ t.flagNum / 8 < t.dataPtr.length
    · rw [if_pos hr]
      simp only []
      rw [addS32_eq _ _ (by rw [hd] at hr; omega)]
    · rw [if_neg hr]

/-- The same for `readFlag`, against the read limit. -/
theorem readFlag_eq_readFlag32 (s : BitStream) (hlen : s.dataPtr.length < 268435456) :
    readFlag s = readFlag32 s := by
  have hd := (flagSlot_frame s s.maxReadBitNum).2.1
  have e1 : readFlag s = (fun t : BitStream =>
      if addS32 t.flagNum 1 > t.maxReadBitNum then some (false, { t with error := true })
      else
        match getByte t.dataPtr (t.flagNum / 8) with
        | none => none
        | some b =>
          some (decide (b &&& (1 <<< (t.flagNum % 8).toNat) ≠ 0),
            { t with flagNum := t.flagNum + 1 }))
      (flagSlot s s.maxReadBitNum) := rfl
  have e2 : readFlag32 s = (fun t : BitStream =>
      if addS32 t.flagNum 1 > t.maxReadBitNum then some (false, { t with error := true })
      else
        match getByte t.dataPtr (t.flagNum / 8) with
        | none => none
        | some b =>
          some (decide (b &&& (1 <<< (t.flagNum % 8).toNat) ≠ 0),
            { t with flagNum := addS32 t.flagNum 1 }))
      (flagSlot s s.maxReadBitNum) := rfl
  rw [e1, e2]
  generalize flagSlot s s.maxReadBitNum = t at hd
  simp only []
  by_cases hov : addS32 t.flagNum 1 > t.maxReadBitNum
  · rw [if_pos hov, if_pos hov]
  · rw [if_neg hov, if_neg hov]
    unfold getByte
    by_cases hr : 0 ≤ t.flagNum / 8 ∧ t.flagNum / 8 < t.dataPtr.length
    · rw [if_pos hr]
      simp only []
      rw [addS32_eq _ _ (by rw [hd] at hr; omega)]
    · rw [if_neg hr]

/-! ### The invariant -/

/-- The three shapes of the state left by the slot step, when the sum `bitNum + 8` does
not wrap. -/
theorem flagSlot_shape (s : BitStream) (h8 : addS32 s.bitNum 8 = s.bitNum + 8) :
    (s.flagNum % 8 = 0 ∧ s.tailFlag = false ∧ s.bitNum + 8 < s.maxWriteBitNum
        ∧ flagSlot s s.maxWriteBitNum = { s with flagNum := s.bitNum, bitNum := s.bitNum + 8 })
    ∨ (s.flagNum % 8 = 0 ∧ s.tailFlag = false ∧ ¬ (s.bitNum + 8 < s.maxWriteBitNum)
        ∧ flagSlot s s.maxWriteBitNum = { s with flagNum := s.bitNum, tailFlag := true })
    ∨ ((s.flagNum % 8 ≠ 0 ∨ s.tailFlag = true) ∧ flagSlot s s.maxWriteBitNum = s) := by
  unfold flagSlot
  by_cases ha : s.flagNum - s.flagNum / 8 * 8 = 0 ∧ s.tailFlag = false
  · rw [if_pos ha]
    simp only [h8]
    by_cases hr : s.bitNum + 8 < s.maxWriteBitNum
    · rw [if_pos hr]
      exact Or.inl ⟨by omega, ha.2, hr, rfl⟩
    · rw [if_neg hr]
      exact Or.inr (Or.inl ⟨by omega, ha.2, hr, rfl⟩)
  · rw [if_neg ha]
    refine Or.inr (Or.inr ⟨?_, rfl⟩)
    by_cases ht : s.tailFlag = true
    · exact Or.inr ht
    · refine Or.inl ?_
      intro h0
      exact ha ⟨by omega, by simpa using ht⟩

/-- One `writeFlag` keeps the limit-free invariant and does not move a cursor back; the
flag cursor left by the slot step is not negative and not below the old one. -/
theorem writeFlag_pass (s s1 : BitStream) (val ret : Bool) (hI : PassInv s)
    (h : writeFlag s val = some (ret, s1)) :
    PassInv s1 ∧ s.flagNum ≤ s1.flagNum ∧ s.bitNum ≤ s1.bitNum
      ∧ (s1.tailFlag = false → s.tailFlag = false)
      ∧ 0 ≤ (flagSlot s s.maxWriteBitNum).flagNum
      ∧ s.flagNum ≤ (flagSlot s s.maxWriteBitNum).flagNum := by
  obtain ⟨k1, k2, k3, k4, k5, k6, k7⟩ := hI
  have h8 : addS32 s.bitNum 8 = s.bitNum + 8 := addS32_eq _ _ (by omega)
  rcases flagSlot_shape s h8 with ⟨ha, ht, hr, hsh⟩ | ⟨ha, ht, hr, hsh⟩ | ⟨ha, hsh⟩
  · have k5' := k5 ht
    rcases writeFlag_cases s s1 val ret h with ⟨hov, _, rfl⟩ | ⟨_, _, h0, h1, rfl⟩
    · rw [hsh] at hov
      simp only [] at hov
      rw [addS32_eq _ _ (by omega)] at hov
      omega
    · rw [hsh] at h0 h1 ⊢
      simp only [] at h0 h1 ⊢
      refine ⟨⟨?_, ?_, ?_, ?_, ?_, ?_, ?_⟩, ?_, ?_, ?_, k1, k5'⟩
      · show 0 ≤ s.bitNum + 8; omega
      · show (s.bitNum + 8) % 8 = 0; omega
      · show s.bitNum + 8 ≤ 8 * ((s.dataPtr.set _ _).length : Int)
        rw [List.length_set]; omega
      · show 0 ≤ s.bitNum + 1; omega
      · intro _; show s.bitNum + 1 ≤ s.bitNum + 8; omega
      · intro htt; exact absurd (ht.symm.trans htt) (by decide)
      · show (s.dataPtr.set _ _).length < 268435455
        rw [List.length_set]; exact k7
      · show s.flagNum ≤ s.bitNum + 1; omega
      · show s.bitNum ≤ s.bitNum + 8; omega
      · intro _; exact ht
  · have k5' := k5 ht
    rcases writeFlag_cases s s1 val ret h with ⟨_, _, rfl⟩ | ⟨_, _, h0, h1, rfl⟩
    · rw [hsh]
      refine ⟨⟨k1, k2, k3, k1, ?_, ?_, k7⟩, k5', le_refl _, ?_, k1, k5'⟩
      · intro htt; exact Bool.noConfusion (htt : true = false)
      · intro _; exact ⟨by show s.bitNum ≤ s.bitNum + 8; omega,
          by show s.maxWriteBitNum ≤ s.bitNum + 8; omega⟩
      · intro htt; exact Bool.noConfusion (htt : true = false)
    · rw [hsh] at h0 h1 ⊢
      simp only [] at h0 h1 ⊢
      refine ⟨⟨k1, k2, ?_, ?_, ?_, ?_, ?_⟩, ?_, le_refl _, ?_, k1, k5'⟩
      · show s.bitNum ≤ 8 * ((s.dataPtr.set _ _).length : Int)
        rw [List.length_set]; exact k3
      · show 0 ≤ s.bitNum + 1; omega
      · intro htt; exact Bool.noConfusion (htt : true = false)
      · intro _; exact ⟨by show s.bitNum + 1 ≤ s.bitNum + 8; omega,
          by show s.maxWriteBitNum ≤ s.bitNum + 8; omega⟩
      · show (s.dataPtr.set _ _).length < 268435455
        rw [List.length_set]; exact k7
      · show s.flagNum ≤ s.bitNum + 1; omega
      · intro htt; exact Bool.noConfusion (htt : true = false)
  · have hfl : s.flagNum ≤ s.bitNum + 8 := by
      cases ht : s.tailFlag
      · have := k5 ht; omega
      · exact (k6 ht).1
    rcases writeFlag_cases s s1 val ret h with ⟨_, _, rfl⟩ | ⟨hroom, _, h0, h1, rfl⟩
    · rw [hsh]
      exact ⟨⟨k1, k2, k3, k4, k5, k6, k7⟩, le_refl _, le_refl _, fun h => h, k4, le_refl _⟩
    · rw [hsh] at hroom h0 h1 ⊢
      rw [addS32_eq _ _ (by omega)] at hroom
      refine ⟨⟨k1, k2, ?_, ?_, ?_, ?_, ?_⟩, ?_, le_refl _, fun h => h, k4, le_refl _⟩
      · show s.bitNum ≤ 8 * ((s.dataPtr.set _ _).length : Int)
        rw [List.length_set]; exact k3
      · show 0 ≤ s.flagNum + 1; omega
      · intro htt
        have := k5 htt
        have hne : s.flagNum % 8 ≠ 0 := by
          rcases ha with ha | ha
          · exact ha
          · exact absurd (ha.symm.trans htt) (by decide)
        show s.flagNum + 1 ≤ s.bitNum
        omega
      · intro htt
        have := (k6 htt).2
        exact ⟨by show s.flagNum + 1 ≤ s.bitNum + 8; omega, this⟩
      · show (s.dataPtr.set _ _).length < 268435455
        rw [List.length_set]; exact k7
      · show s.flagNum ≤ s.flagNum + 1; omega

/-- One `writeBits` keeps the limit-free invariant. -/
theorem writeBits_pass (s s1 : BitStream) (bitCount : Int) (src : List Nat) (hI : PassInv s)
    (h : writeBits s bitCount src = some s1) :
    PassInv s1 ∧ s1.flagNum = s.flagNum ∧ s.bitNum ≤ s1.bitNum
      ∧ s1.tailFlag = s.tailFlag := by
  obtain ⟨k1, k2, k3, k4, k5, k6, k7⟩ := hI
  rcases writeBits_cases s s1 bitCount src h with ⟨_, rfl⟩ | ⟨_, _, rfl⟩ |
    ⟨_, ht, _, _, hk, hfit, rfl, hl⟩
  · exact ⟨⟨k1, k2, k3, k4, k5, k6, k7⟩, rfl, le_refl _, rfl⟩
  · exact ⟨⟨k1, k2, k3, k4, k5, k6, k7⟩, rfl, le_refl _, rfl⟩
  · have hr := roundBits_eq bitCount
    have hr0 : 0 ≤ roundBits bitCount := by omega
    refine ⟨⟨?_, ?_, ?_, k4, ?_, ?_, ?_⟩, rfl, ?_, rfl⟩
    · show 0 ≤ s.bitNum + roundBits bitCount; omega
    · show (s.bitNum + roundBits bitCount) % 8 = 0; omega
    · rw [hl]
      show s.bitNum + roundBits bitCount ≤ 8 * (s.dataPtr.length : Int)
      omega
    · intro htf
      have := k5 htf
      show s.flagNum ≤ s.bitNum + roundBits bitCount
      omega
    · intro htf
      rw [ht] at htf
      exact absurd htf (by decide)
    · rw [hl]; exact k7
    · show s.bitNum ≤ s.bitNum + roundBits bitCount; omega

theorem construct_pass (buf : List Nat) (size mw : Int) (hsz : buf.length < 268435455) :
    PassInv (construct buf size mw) := by
  refine ⟨le_refl _, rfl, ?_, le_refl _, fun _ => le_refl _, ?_, hsz⟩
  · show (0 : Int) ≤ 8 * (buf.length : Int)
    omega
  · intro ht
    exact Bool.noConfusion (ht : false = true)

/-- One `writeFlag` keeps the write limit and, under the limit-free invariant, the bound
of the cursors by the write limit. -/
theorem writeFlag_limit (s s1 : BitStream) (val ret : Bool) (hP : PassInv s)
    (h : writeFlag s val = some (ret, s1)) :
    s1.maxWriteBitNum = s.maxWriteBitNum
      ∧ (s.bitNum ≤ s.maxWriteBitNum → (s.tailFlag = true → s.flagNum ≤ s.maxWriteBitNum) →
          s1.bitNum ≤ s.maxWriteBitNum ∧ (s1.tailFlag = true → s1.flagNum ≤ s.maxWriteBitNum)) := by
  obtain ⟨k1, k2, k3, k4, k5, k6, k7⟩ := hP
  have h8 : addS32 s.bitNum 8 = s.bitNum + 8 := addS32_eq _ _ (by omega)
  rcases flagSlot_shape s h8 with ⟨ha, ht, hr, hsh⟩ | ⟨ha, ht, hr, hsh⟩ | ⟨ha, hsh⟩
  · rcases writeFlag_cases s s1 val ret h with ⟨hov, _, rfl⟩ | ⟨_, _, _, _, rfl⟩
    · rw [hsh] at hov
      simp only [] at hov
      rw [addS32_eq _ _ (by omega)] at hov
      omega
    · rw [hsh]
      refine ⟨rfl, fun hlim htm => ⟨?_, ?_⟩⟩
      · show s.bitNum + 8 ≤ s.maxWriteBitNum; omega
      · intro htt; exact absurd (ht.symm.trans htt) (by decide)
  · rcases writeFlag_cases s s1 val ret h with ⟨_, _, rfl⟩ | ⟨hroom, _, _, _, rfl⟩
    · rw [hsh]
      exact ⟨rfl, fun hlim htm => ⟨hlim, fun _ => hlim⟩⟩
    · rw [hsh] at hroom ⊢
      simp only [] at hroom
      rw [addS32_eq _ _ (by omega)] at hroom
      exact ⟨rfl, fun hlim htm => ⟨hlim, fun _ => hroom⟩⟩
  · have hfl : s.flagNum ≤ s.bitNum + 8 := by
      cases ht : s.tailFlag
      · have := k5 ht; omega
      · exact (k6 ht).1
    rcases writeFlag_cases s s1 val ret h with ⟨_, _, rfl⟩ | ⟨hroom, _, _, _, rfl⟩
    · rw [hsh]
      exact ⟨rfl, fun hlim htm => ⟨hlim, htm⟩⟩
    · rw [hsh] at hroom ⊢
      rw [addS32_eq _ _ (by omega)] at hroom
      exact ⟨rfl, fun hlim htm => ⟨hlim, fun _ => hroom⟩⟩

/-- One `writeFlag` keeps the cursor invariant and the write limit. -/
theorem writeFlag_inv (s s1 : BitStream) (val ret : Bool) (hI : WriteInv s)
    (h : writeFlag s val = some (ret, s1)) :
    WriteInv s1 ∧ s1.maxWriteBitNum = s.maxWriteBitNum := by
  obtain ⟨hP, hL⟩ := hI
  obtain ⟨hP1, _, _, _, _, _⟩ := writeFlag_pass s s1 val ret hP h
  obtain ⟨hm, hlim⟩ := writeFlag_limit s s1 val ret hP h
  refine ⟨⟨hP1, fun h0 => ?_⟩, hm⟩
  rw [hm] at h0 ⊢
  exact hlim (hL h0).1 (hL h0).2

/-- One `writeBits` keeps the cursor invariant and the write limit. -/
theorem writeBits_inv (s s1 : BitStream) (bitCount : Int) (src : List Nat) (hI : WriteInv s)
    (h : writeBits s bitCount src = some s1) :
    WriteInv s1 ∧ s1.maxWriteBitNum = s.maxWriteBitNum := by
  obtain ⟨hP, hL⟩ := hI
  obtain ⟨hP1, _, _, _⟩ := writeBits_pass s s1 bitCount src hP h
  obtain ⟨k1, k2, k3, k4, k5, k6, k7⟩ := hP
  rcases writeBits_cases s s1 bitCount src h with ⟨_, rfl⟩ | ⟨_, _, rfl⟩ |
    ⟨_, ht, hgd, _, hk, hfit, rfl, _⟩
  · exact ⟨⟨hP1, hL⟩, rfl⟩
  · exact ⟨⟨hP1, hL⟩, rfl⟩
  · have hr := roundBits_eq bitCount
    rw [addS32_eq _ _ (by omega)] at hgd
    refine ⟨⟨hP1, fun _ => ⟨?_, ?_⟩⟩, rfl⟩
    · show s.bitNum + roundBits bitCount ≤ s.maxWriteBitNum; omega
    · intro htt
      rw [ht] at htt
      exact absurd htt (by decide)

theorem writeString_inv (s s1 : BitStream) (str : Option (List Nat)) (maxSize : Int)
    (hI : WriteInv s) (h : writeString s str maxSize = some s1) :
    WriteInv s1 ∧ s1.maxWriteBitNum = s.maxWriteBitNum := by
  unfold writeString at h
  simp only [] at h
  split at h
  · cases h
  · split at h
    · cases h
    · rename_i s2 hwf
      cases h
      exact writeFlag_inv s _ _ _ hI hwf
    · rename_i s2 hwf
      obtain ⟨hI2, hm2⟩ := writeFlag_inv s s2 _ _ hI hwf
      split at h
      · cases h
      · rename_i s3 hwi
        obtain ⟨hI3, hm3⟩ := writeBits_inv s2 s3 _ _ hI2 hwi
        obtain ⟨hI4, hm4⟩ := writeBits_inv s3 s1 _ _ hI3 h
        exact ⟨hI4, by rw [hm4, hm3, hm2]⟩

theorem applyWriteOp_inv (s s1 : BitStream) (op : WriteOp) (hI : WriteInv s)
    (h : applyWriteOp s op = some s1) :
    WriteInv s1 ∧ s1.maxWriteBitNum = s.maxWriteBitNum := by
  cases op with
  | flag val =>
    simp only [applyWriteOp] at h
    split at h
    · cases h
    · rename_i ret s2 hwf
      cases h
      exact writeFlag_inv s _ val ret hI hwf
  | bits bitCount bitPtr => exact writeBits_inv s s1 bitCount bitPtr hI h
  | int val bitCount => exact writeBits_inv s s1 bitCount _ hI h
  | int64 val bitCount => exact writeBits_inv s s1 bitCount _ hI h
  | string str maxSize => exact writeString_inv s s1 str maxSize hI h

theorem runWriteOps_inv (ops : List WriteOp) (s sf : BitStream) (hI : WriteInv s)
    (h : runWriteOps s ops = some sf) :
    WriteInv sf ∧ sf.maxWriteBitNum = s.maxWriteBitNum := by
  induction ops generalizing s with
  | nil =>
    unfold runWriteOps at h
    cases h
    exact ⟨hI, rfl⟩
  | cons op ops ih =>
    unfold runWriteOps at h
    split at h
    · cases h
    · rename_i s1 h1
      obtain ⟨hI1, hm1⟩ := applyWriteOp_inv s s1 op hI h1
      obtain ⟨hIf, hmf⟩ := ih s1 hI1 h
      exact ⟨hIf, by rw [hmf, hm1]⟩

/-- A freshly bound stream over a buffer shorter than `2^28 - 1` bytes satisfies the
cursor invariant. -/
theorem construct_inv (buf : List Nat) (size mw : Int) (hsz : buf.length < 268435455) :
    WriteInv (construct buf size mw) :=
  ⟨construct_pass buf size mw hsz, fun hW => ⟨hW, fun ht => Bool.noConfusion (ht : false = true)⟩⟩

end Base

/-! ## C14, C15: cursor bounds in a write pass -/

namespace Base

/-- C14, the claim fails: on a stream bound over 1 byte with `maxWriteSize = 1`, the
single call `writeFlag(true)` finds no room to reserve a slot (`0 + 8 < 8` is false),
enters tail mode and writes the flag at the main cursor: the flag cursor is then 1 and
the main cursor still 0. -/
theorem flag_cursor_passes_main_cursor :
    ∃ s, runWriteOps (construct [0] 1 1) [WriteOp.flag true] = some s
      ∧ s.flagNum = 1 ∧ s.bitNum = 0 ∧ s.tailFlag = true ∧ s.error = false
      ∧ ¬ (s.flagNum ≤ s.bitNum) :=
  ⟨_, rfl, rfl, rfl, rfl, rfl, by decide⟩

/-- C14 as amended: in every state reached from a freshly bound stream (any size and
`maxWriteSize`, over a buffer shorter than `2^28 - 1` bytes, so that no cursor sum
leaves the `S32` range) by a sequence of `writeFlag`, `writeBits`, `writeInt`,
`writeInt64` and `writeString` calls, the flag cursor is at most the main cursor as long
as tail mode is not set; in tail mode it may pass the main cursor, by at most 8 bits;
and when the write limit `maxWriteBitNum` is not negative the flag cursor never passes
it. -/
theorem flag_cursor_bound (buf : List Nat) (size mw : Int) (ops : List WriteOp)
    (sf : BitStream) (hsz : buf.length < 268435455)
    (h : runWriteOps (construct buf size mw) ops = some sf) :
    (sf.tailFlag = false → sf.flagNum ≤ sf.bitNum)
      ∧ sf.flagNum ≤ sf.bitNum + 8
      ∧ (0 ≤ sf.maxWriteBitNum → sf.flagNum ≤ sf.maxWriteBitNum) := by
  obtain ⟨⟨⟨_, _, _, _, h5, h6, _⟩, hL⟩, _⟩ :=
    runWriteOps_inv ops _ sf (construct_inv buf size mw hsz) h
  refine ⟨h5, ?_, ?_⟩
  · cases ht : sf.tailFlag
    · have := h5 ht; omega
    · exact (h6 ht).1
  · intro h0
    cases ht : sf.tailFlag
    · have := h5 ht
      have := (hL h0).1
      omega
    · exact (hL h0).2 ht

theorem flag_cursor_bound_witness :
    ((⟨[255, 7, 1], 16, 18, true, 3, 24, 24, 24, false⟩ : BitStream).tailFlag = false →
        (⟨[255, 7, 1], 16, 18, true, 3, 24, 24, 24, false⟩ : BitStream).flagNum
          ≤ (⟨[255, 7, 1], 16, 18, true, 3, 24, 24, 24, false⟩ : BitStream).bitNum)
      ∧ (⟨[255, 7, 1], 16, 18, true, 3, 24, 24, 24, false⟩ : BitStream).flagNum
          ≤ (⟨[255, 7, 1], 16, 18, true, 3, 24, 24, 24, false⟩ : BitStream).bitNum + 8
      ∧ (0 ≤ (⟨[255, 7, 1], 16, 18, true, 3, 24, 24, 24, false⟩ : BitStream).maxWriteBitNum →
        (⟨[255, 7, 1], 16, 18, true, 3, 24, 24, 24, false⟩ : BitStream).flagNum
          ≤ (⟨[255, 7, 1], 16, 18, true, 3, 24, 24, 24, false⟩ : BitStream).maxWriteBitNum) :=
  flag_cursor_bound [0, 0, 0] 3 3
    [WriteOp.flag true, WriteOp.int 7 8, WriteOp.flag true, WriteOp.flag true, WriteOp.flag true,
      WriteOp.flag true, WriteOp.flag true, WriteOp.flag true, WriteOp.flag true,
      WriteOp.flag true, WriteOp.flag false]
    ⟨[255, 7, 1], 16, 18, true, 3, 24, 24, 24, false⟩ (by decide) rfl

/-- C15, the claim fails: a stream bound with `maxWriteSize = 2^28` has the write limit
`maxSize << 3`, which is `-2^31` in `S32`: the main cursor of the fresh stream, 0, is
already above `maxWriteBitNum`, and stays there after a `writeFlag`, which is refused. -/
theorem write_limit_wraps_below_cursor :
    (construct [0, 0, 0] 3 268435456).bitNum = 0
      ∧ (construct [0, 0, 0] 3 268435456).maxWriteBitNum = -2147483648
      ∧ ∃ s, runWriteOps (construct [0, 0, 0] 3 268435456) [WriteOp.flag true] = some s
        ∧ s.bitNum = 0 ∧ s.maxWriteBitNum = -2147483648 ∧ s.error = true
        ∧ ¬ (s.bitNum ≤ s.maxWriteBitNum) :=
  ⟨rfl, rfl, _, rfl, rfl, rfl, rfl, by decide⟩

/-- C15 as amended: in every state reached from a freshly bound stream whose write limit
`maxSize << 3`, as `S32`, is not negative (as it is for every `0 ≤ maxWriteSize < 2^28`,
where it is `maxWriteSize * 8`), over a buffer shorter than `2^28 - 1` bytes (so that no
cursor sum leaves the `S32` range), by a sequence of write operations (`writeBits` with
any bit count, `writeFlag`, `writeInt`, `writeInt64`, `writeString`), the main cursor
satisfies `0 ≤ bitNum ≤ maxWriteBitNum`, and the limit is the one the binding left. -/
theorem write_cursor_bounds (buf : List Nat) (size mw : Int) (ops : List WriteOp)
    (sf : BitStream) (hW : 0 ≤ (construct buf size mw).maxWriteBitNum)
    (hsz : buf.length < 268435455)
    (h : runWriteOps (construct buf size mw) ops = some sf) :
    0 ≤ sf.bitNum ∧ sf.bitNum ≤ sf.maxWriteBitNum
      ∧ sf.maxWriteBitNum = (construct buf size mw).maxWriteBitNum
      ∧ (0 ≤ mw → mw < 268435456 → sf.maxWriteBitNum = mw * 8) := by
  obtain ⟨⟨⟨h1, _, _, _, _, _, _⟩, hL⟩, hm⟩ :=
    runWriteOps_inv ops _ sf (construct_inv buf size mw hsz) h
  refine ⟨h1, (hL (by rw [hm]; exact hW)).1, hm, ?_⟩
  intro h0 h28
  rw [hm]
  show shl3S32 (if mw < 0 then size else mw) = mw * 8
  rw [if_neg (by omega), shl3S32_eq _ (by omega)]

theorem write_cursor_bounds_witness :
    0 ≤ (⟨[255, 1, 2, 0], 24, 10, false, 4, 32, 32, 32, true⟩ : BitStream).bitNum
      ∧ (⟨[255, 1, 2, 0], 24, 10, false, 4, 32, 32, 32, true⟩ : BitStream).bitNum
          ≤ (⟨[255, 1, 2, 0], 24, 10, false, 4, 32, 32, 32, true⟩ : BitStream).maxWriteBitNum
      ∧ (⟨[255, 1, 2, 0], 24, 10, false, 4, 32, 32, 32, true⟩ : BitStream).maxWriteBitNum
          = (construct [0, 0, 0, 0] 4 4).maxWriteBitNum
      ∧ ((0 : Int) ≤ 4 → (4 : Int) < 268435456 →
        (⟨[255, 1, 2, 0], 24, 10, false, 4, 32, 32, 32, true⟩ : BitStream).maxWriteBitNum
          = 4 * 8) :=
  write_cursor_bounds [0, 0, 0, 0] 4 4
    [WriteOp.int 255 8, WriteOp.flag true, WriteOp.bits 5 [2], WriteOp.int64 9 64,
      WriteOp.string (some [0]) 4]
    ⟨[255, 1, 2, 0], 24, 10, false, 4, 32, 32, 32, true⟩ (by decide) (by decide) rfl

end Base

/-! ## C19: flags are not clobbered -/

namespace Base

theorem bitAt_set_same (d : List Nat) (q : Int) (val : Bool) (hq : 0 ≤ q)
    (hlen : q / 8 < d.length) :
    bitAt (d.set (q / 8).toNat (flagByte (d.getD (q / 8).toNat 0) (q % 8).toNat val)) q
      = val := by
  unfold bitAt
  have hi : (q / 8).toNat < d.length := by omega
  rw [List.getD_eq_getElem?_getD, List.getElem?_set_self hi]
  show (flagByte _ _ val).testBit _ = val
  rw [flagByte_testBit _ _ _ val (by omega) (by omega), if_pos rfl]

theorem bitAt_set_other (d : List Nat) (p q : Int) (val : Bool) (hp : 0 ≤ p) (hq : 0 ≤ q)
    (hne : p ≠ q) :
    bitAt (d.set (q / 8).toNat (flagByte (d.getD (q / 8).toNat 0) (q % 8).toNat val)) p
      = bitAt d p := by
  unfold bitAt
  by_cases hb : (q / 8).toNat = (p / 8).toNat
  · rw [hb]
    by_cases hi : (p / 8).toNat < d.length
    · rw [List.getD_eq_getElem?_getD, List.getElem?_set_self hi]
      show (flagByte _ _ val).testBit _ = _
      rw [flagByte_testBit _ _ _ val (by omega) (by omega), if_neg (by omega)]
    · rw [List.set_eq_of_length_le (by omega)]
  · rw [List.getD_eq_getElem?_getD, List.getElem?_set_ne hb, ← List.getD_eq_getElem?_getD]

theorem bitAt_copy_before (d src rest : List Nat) (o : Nat) (p : Int) (hp : 0 ≤ p)
    (hlt : p < 8 * (o : Int)) (ho : o ≤ d.length) :
    bitAt (d.take o ++ src ++ rest) p = bitAt d p := by
  unfold bitAt
  have hi : (p / 8).toNat < (d.take o).length := by
    rw [List.length_take]; omega
  rw [List.append_assoc, List.getD_append _ _ _ _ hi, List.getD_eq_getElem?_getD,
    List.getElem?_take, if_pos (by rw [List.length_take] at hi; omega),
    ← List.getD_eq_getElem?_getD]

/-- One traced call from a state that satisfies the limit-free invariant: it is kept,
the cursors do not go back, the bits below the flag cursor are kept, and what is stored
lies at or beyond the cursors. -/
theorem tracedStep_spec (s s1 : BitStream) (op : FlagOrBits) (ev : List WriteEvent)
    (hI : PassInv s) (h : tracedStep s op = some (s1, ev)) :
    PassInv s1 ∧ s.flagNum ≤ s1.flagNum ∧ s.bitNum ≤ s1.bitNum
      ∧ (s1.tailFlag = false → s.tailFlag = false)
      ∧ (∀ p, 0 ≤ p → p < s.flagNum → bitAt s1.dataPtr p = bitAt s.dataPtr p)
      ∧ (ev = []
        ∨ (∃ q v, ev = [WriteEvent.flag q v] ∧ s.flagNum ≤ q ∧ q < s1.flagNum
            ∧ bitAt s1.dataPtr q = v)
        ∨ (∃ lo n, ev = [WriteEvent.copy lo n] ∧ s.tailFlag = false
            ∧ s.bitNum ≤ 8 * lo)) := by
  cases op with
  | flag val =>
    simp only [tracedStep] at h
    cases hw : writeFlag s val with
    | none => rw [hw] at h; cases h
    | some r =>
      obtain ⟨ret, s2⟩ := r
      rw [hw] at h
      simp only [] at h
      obtain ⟨hI2, hf, hb, htl, hq0, hfT⟩ := writeFlag_pass s s2 val ret hI hw
      rcases writeFlag_cases s s2 val ret hw with ⟨hov, _, hs2⟩ | ⟨hroom, _, h0, hlen, hs2⟩
      · rw [if_pos hov] at h
        cases h
        refine ⟨hI2, hf, hb, htl, ?_, Or.inl rfl⟩
        intro p _ _
        rw [hs2]
        show bitAt (flagSlot s s.maxWriteBitNum).dataPtr p = _
        rw [(flagSlot_frame s s.maxWriteBitNum).2.1]
      · rw [if_neg (by omega)] at h
        cases h
        refine ⟨hI2, hf, hb, htl, ?_, Or.inr (Or.inl ⟨_, _, rfl, hfT, ?_, ?_⟩)⟩
        · intro p hp hlt
          rw [hs2]
          exact bitAt_set_other s.dataPtr p _ val hp hq0 (by omega)
        · rw [hs2]
          show (flagSlot s s.maxWriteBitNum).flagNum < (flagSlot s s.maxWriteBitNum).flagNum + 1
          omega
        · rw [hs2]
          exact bitAt_set_same s.dataPtr _ val hq0 hlen
  | bits bitCount bitPtr =>
    simp only [tracedStep] at h
    cases hw : writeBits s bitCount bitPtr with
    | none => rw [hw] at h; cases h
    | some s2 =>
      rw [hw] at h
      simp only [] at h
      obtain ⟨hI2, hf, hb, htl⟩ := writeBits_pass s s2 bitCount bitPtr hI hw
      rcases writeBits_cases s s2 bitCount bitPtr hw with ⟨hz, hs2⟩ | ⟨_, hre, hs2⟩ |
        ⟨hnz, ht, hlim, ho, _, hlen, hs2, _⟩
      · rw [if_pos (Or.inl hz)] at h
        cases h
        refine ⟨hI2, by rw [hf], hb, fun h => by rw [← htl]; exact h, ?_, Or.inl rfl⟩
        intro p _ _
        rw [hs2]
      · rw [if_pos (Or.inr hre)] at h
        cases h
        refine ⟨hI2, by rw [hf], hb, fun h => by rw [← htl]; exact h, ?_, Or.inl rfl⟩
        intro p _ _
        rw [hs2]
      · have hc : ¬ (bitCount = 0 ∨ s.tailFlag = true
            ∨ addS32 (roundBits bitCount) s.bitNum > s.maxWriteBitNum) := by
          rintro (h1 | h1 | h1)
          · exact hnz h1
          · rw [ht] at h1; exact Bool.noConfusion h1
          · omega
        rw [if_neg hc] at h
        cases h
        obtain ⟨_, i2, _, _, i5, _⟩ := hI
        refine ⟨hI2, by rw [hf], hb, fun h => by rw [← htl]; exact h, ?_,
          Or.inr (Or.inr ⟨_, _, rfl, ht, by omega⟩)⟩
        intro p hp hlt
        rw [hs2]
        have h5 := i5 ht
        exact bitAt_copy_before s.dataPtr _ _ (s.bitNum / 8).toNat p hp (by omega) (by omega)

/-- A traced sequence of calls from a state that satisfies the limit-free invariant. -/
theorem tracedRun_spec (ops : List FlagOrBits) (s sf : BitStream) (tr : List WriteEvent)
    (hI : PassInv s) (h : tracedRun s ops = some (sf, tr)) :
    (∀ q v, WriteEvent.flag q v ∈ tr → s.flagNum ≤ q)
      ∧ (∀ lo n, WriteEvent.copy lo n ∈ tr → s.tailFlag = false ∧ s.bitNum ≤ 8 * lo)
      ∧ tr.Pairwise (fun e later => ¬ clobbers e later)
      ∧ (∀ p, 0 ≤ p → p < s.flagNum → bitAt sf.dataPtr p = bitAt s.dataPtr p)
      ∧ (∀ q v, WriteEvent.flag q v ∈ tr → bitAt sf.dataPtr q = v) := by
  induction ops generalizing s tr with
  | nil =>
    simp only [tracedRun] at h
    cases h
    refine ⟨?_, ?_, List.Pairwise.nil, fun _ _ _ => rfl, ?_⟩
    · intro q v hm; cases hm
    · intro lo n hm; cases hm
    · intro q v hm; cases hm
  | cons op ops ih =>
    simp only [tracedRun] at h
    cases h1 : tracedStep s op with
    | none => rw [h1] at h; cases h
    | some r1 =>
      obtain ⟨s1, ev⟩ := r1
      rw [h1] at h
      simp only [] at h
      cases h2 : tracedRun s1 ops with
      | none => rw [h2] at h; cases h
      | some r2 =>
        obtain ⟨sf2, evs⟩ := r2
        rw [h2] at h
        cases h
        obtain ⟨hI1, hf, hb, htl, hframe, hev⟩ := tracedStep_spec s s1 op ev hI h1
        obtain ⟨a1, a2, a3, a4, a5⟩ := ih s1 evs hI1 h2
        have hflagL : ∀ q v, WriteEvent.flag q v ∈ evs → s.flagNum ≤ q := by
          intro q v hm
          have := a1 q v hm
          omega
        have hcopyL : ∀ lo n, WriteEvent.copy lo n ∈ evs →
            s.tailFlag = false ∧ s.bitNum ≤ 8 * lo := by
          intro lo n hm
          obtain ⟨c1, c2⟩ := a2 lo n hm
          exact ⟨htl c1, by omega⟩
        have hframeL : ∀ p, 0 ≤ p → p < s.flagNum →
            bitAt sf.dataPtr p = bitAt s.dataPtr p := by
          intro p hp hlt
          rw [a4 p hp (by omega), hframe p hp hlt]
        rcases hev with rfl | ⟨q, v, rfl, hq1, hq2, hq3⟩ | ⟨lo, n, rfl, hc1, hc2⟩
        · simp only [List.nil_append]
          exact ⟨hflagL, hcopyL, a3, hframeL, a5⟩
        · have hq0 : 0 ≤ q := by
            obtain ⟨_, _, _, i4, _, _⟩ := hI
            omega
          refine ⟨?_, ?_, ?_, hframeL, ?_⟩
          · intro q2 v2 hm
            simp only [List.singleton_append, List.mem_cons] at hm
            rcases hm with hm | hm
            · cases hm; exact hq1
            · exact hflagL q2 v2 hm
          · intro lo n hm
            simp only [List.singleton_append, List.mem_cons] at hm
            rcases hm with hm | hm
            · cases hm
            · exact hcopyL lo n hm
          · simp only [List.singleton_append, List.pairwise_cons]
            refine ⟨?_, a3⟩
            intro e he
            cases e with
            | flag q2 v2 =>
              have := a1 q2 v2 he
              show ¬ (q = q2)
              omega
            | copy lo n =>
              obtain ⟨c1, c2⟩ := a2 lo n he
              obtain ⟨_, _, _, _, j5, _⟩ := hI1
              have := j5 c1
              show ¬ (lo ≤ q / 8 ∧ q / 8 < lo + n)
              omega
          · intro q2 v2 hm
            simp only [List.singleton_append, List.mem_cons] at hm
            rcases hm with hm | hm
            · cases hm
              rw [a4 q hq0 hq2, hq3]
            · exact a5 q2 v2 hm
        · refine ⟨?_, ?_, ?_, hframeL, ?_⟩
          · intro q2 v2 hm
            simp only [List.singleton_append, List.mem_cons] at hm
            rcases hm with hm | hm
            · cases hm
            · exact hflagL q2 v2 hm
          · intro lo2 n2 hm
            simp only [List.singleton_append, List.mem_cons] at hm
            rcases hm with hm | hm
            · cases hm; exact ⟨hc1, hc2⟩
            · exact hcopyL lo2 n2 hm
          · simp only [List.singleton_append, List.pairwise_cons]
            refine ⟨?_, a3⟩
            intro e _
            show ¬ False
            exact fun hF => hF
          · intro q2 v2 hm
            simp only [List.singleton_append, List.mem_cons] at hm
            rcases hm with hm | hm
            · cases hm
            · exact a5 q2 v2 hm

/-- C19: flags are never clobbered by later writes.  For every sequence of `writeFlag`
and `writeBits` calls (any bit counts) applied to a freshly bound stream (any size and
any `maxWriteSize`, over a buffer shorter than `2^28 - 1` bytes, which keeps every
cursor of the pass inside the `S32` range; no `setPosition` in between), with the record
`tr` of what each call stored: no event that
follows a flag in the record is a flag at the same bit offset or a copy over the byte
that holds it, and in the final buffer the bit at the offset of every recorded flag is
the value passed to that call. -/
theorem flags_not_clobbered (buf : List Nat) (size mw : Int) (ops : List FlagOrBits)
    (sf : BitStream) (tr : List WriteEvent) (hsz : buf.length < 268435455)
    (h : tracedRun (construct buf size mw) ops = some (sf, tr)) :
    tr.Pairwise (fun e later => ¬ clobbers e later)
      ∧ (∀ q v, WriteEvent.flag q v ∈ tr → bitAt sf.dataPtr q = v) := by
  obtain ⟨_, _, a3, _, a5⟩ :=
    tracedRun_spec ops _ sf tr (construct_pass buf size mw hsz) h
  exact ⟨a3, a5⟩

theorem flags_not_clobbered_witness :
    ([WriteEvent.flag 0 true, WriteEvent.copy 1 1, WriteEvent.flag 1 false,
        WriteEvent.flag 2 true, WriteEvent.copy 2 2, WriteEvent.flag 3 true,
        WriteEvent.flag 4 true] : List WriteEvent).Pairwise
        (fun e later => ¬ clobbers e later)
      ∧ (∀ q v, WriteEvent.flag q v ∈
          ([WriteEvent.flag 0 true, WriteEvent.copy 1 1, WriteEvent.flag 1 false,
            WriteEvent.flag 2 true, WriteEvent.copy 2 2, WriteEvent.flag 3 true,
            WriteEvent.flag 4 true] : List WriteEvent) →
          bitAt (⟨[29, 170, 1, 2], 32, 5, false, 4, 32, 32, 32, true⟩ : BitStream).dataPtr q
            = v) :=
  flags_not_clobbered [0, 0, 0, 0] 4 4
    [FlagOrBits.flag true, FlagOrBits.bits 8 [170], FlagOrBits.flag false,
      FlagOrBits.flag true, FlagOrBits.bits 16 [1, 2], FlagOrBits.bits 5 [9],
      FlagOrBits.flag true, FlagOrBits.flag true]
    ⟨[29, 170, 1, 2], 32, 5, false, 4, 32, 32, 32, true⟩
    [WriteEvent.flag 0 true, WriteEvent.copy 1 1, WriteEvent.flag 1 false,
      WriteEvent.flag 2 true, WriteEvent.copy 2 2, WriteEvent.flag 3 true,
      WriteEvent.flag 4 true]
    (by decide) rfl

end Base

/-! ## C20: writes stay inside the bound buffer -/

namespace Base

/-- C20, the claim fails: on a stream bound over 8 bytes, `setPosition(0x10000000)`
succeeds and leaves the `S32` main cursor at `0x80000000`, that is `-2^31`; the next
`writeBits(8, ..)` passes the limit test (`8 - 2^31 ≤ 64`) and its `memcpy` addresses
byte `-2^28` of the buffer, outside the block.  Likewise `setPosition(0x0FFFFFFF)` leaves
the cursor at `0x7FFFFFF8`, not negative: the `S32` sum `8 + bitNum` of the limit test
wraps to `-2^31`, the test is passed and the `memcpy` addresses byte `2^28 - 1` of the
8 byte buffer. -/
theorem setPosition_then_write_outside :
    ∃ s1 s2, setPosition (construct [0, 0, 0, 0, 0, 0, 0, 0] 8 8) 268435456 = (true, s1)
      ∧ s1.bitNum = -2147483648 ∧ s1.maxWriteBitNum = 64
      ∧ s1.bitNum / 8 = -268435456
      ∧ writeBits s1 8 [1] = none
      ∧ setPosition (construct [0, 0, 0, 0, 0, 0, 0, 0] 8 8) 268435455 = (true, s2)
      ∧ s2.bitNum = 2147483640 ∧ s2.maxWriteBitNum = 64
      ∧ addS32 (roundBits 8) s2.bitNum = -2147483648
      ∧ s2.bitNum / 8 = 268435455
      ∧ writeBits s2 8 [1] = none :=
  ⟨_, _, rfl, rfl, rfl, rfl, rfl, rfl, rfl, rfl, rfl, rfl, rfl⟩

theorem getD_splice (d src : List Nat) (o k i : Nat) (h : o + k ≤ d.length)
    (hk : k ≤ src.length) (hi : i < o ∨ o + k ≤ i) :
    (d.take o ++ src.take k ++ d.drop (o + k)).getD i 0 = d.getD i 0 := by
  have hA : (d.take o).length = o := by rw [List.length_take]; omega
  have hP : (src.take k).length = k := by rw [List.length_take]; omega
  rcases hi with hi | hi
  · rw [List.append_assoc, List.getD_append _ _ _ _ (by omega), List.getD_eq_getElem?_getD,
      List.getElem?_take, if_pos hi, ← List.getD_eq_getElem?_getD]
  · rw [List.getD_append_right _ _ _ _ (by rw [List.length_append, hA, hP]; exact hi),
      List.length_append, hA, hP, List.getD_eq_getElem?_getD, List.getElem?_drop,
      ← List.getD_eq_getElem?_getD]
    congr 1
    omega

theorem flagSlot_flagNum_range (s : BitStream) (limit : Int)
    (hb : 0 ≤ s.bitNum ∧ s.bitNum < 2147483647)
    (hf : 0 ≤ s.flagNum ∧ s.flagNum < 2147483647) :
    0 ≤ (flagSlot s limit).flagNum ∧ (flagSlot s limit).flagNum < 2147483647 := by
  unfold flagSlot
  split
  · simp only []
    split <;> exact hb
  · exact hf

/-- C20 as amended: writes stay inside the bound buffer as long as no cursor sum leaves
the `S32` range.  For a stream whose write limit is `maxWriteSize * 8` with
`maxWriteSize ≤` the size of the buffer, the buffer shorter than `2^28` bytes, in any
state with `0 ≤ bitNum`, `0 ≤ flagNum`, both below the top of the `S32` range (every
state of a write pass, and the state after `setPosition(pos)` for `pos < 2^28`):
`writeBits` with `bitCount ≥ 0` from a source block that holds the bytes, when
`bitNum` plus the rounded count is below `2^31`, and `writeFlag` always have a result,
keep the length of the buffer and change no byte at an index `≥ maxWriteSize`. -/
theorem writes_inside_buffer (s : BitStream) (mw : Int) (val : Bool)
    (hmax : s.maxWriteBitNum = mw * 8) (hcap : mw ≤ s.dataPtr.length)
    (hlen : s.dataPtr.length < 268435456)
    (hb : 0 ≤ s.bitNum ∧ s.bitNum < 2147483647)
    (hf : 0 ≤ s.flagNum ∧ s.flagNum < 2147483647) :
    (∀ (bitCount : Int) (src : List Nat), 0 ≤ bitCount → (bitCount + 7) / 8 ≤ src.length →
        s.bitNum + 8 * ((bitCount + 7) / 8) < 2147483648 →
        ∃ s1, writeBits s bitCount src = some s1
          ∧ s1.dataPtr.length = s.dataPtr.length
          ∧ ∀ i : Nat, s1.dataPtr.getD i 0 ≠ s.dataPtr.getD i 0 → (i : Int) < mw)
    ∧ (∃ ret s1, writeFlag s val = some (ret, s1)
        ∧ s1.dataPtr.length = s.dataPtr.length
        ∧ ∀ i : Nat, s1.dataPtr.getD i 0 ≠ s.dataPtr.getD i 0 → (i : Int) < mw)
    ∧ (∀ pos : Nat, pos < 268435456 →
        0 ≤ (setPosition s pos).2.bitNum ∧ (setPosition s pos).2.bitNum < 2147483647
        ∧ 0 ≤ (setPosition s pos).2.flagNum ∧ (setPosition s pos).2.flagNum < 2147483647
        ∧ ((setPosition s pos).1 = true → (setPosition s pos).2.bitNum = (pos : Int) * 8)
        ∧ (setPosition s pos).2.maxWriteBitNum = s.maxWriteBitNum
        ∧ (setPosition s pos).2.dataPtr = s.dataPtr) := by
  refine ⟨?_, ?_, ?_⟩
  · intro bitCount src hbc hsrc hfit
    unfold writeBits
    by_cases h0 : bitCount = 0
    · rw [if_pos h0]
      exact ⟨s, rfl, rfl, fun i hne => absurd rfl hne⟩
    · rw [if_neg h0]
      by_cases ht : s.tailFlag = true
      · rw [if_pos ht]
        exact ⟨_, rfl, rfl, fun i hne => absurd rfl hne⟩
      · rw [if_neg ht]
        simp only []
        have hr := roundBits_eq bitCount
        rw [addS32_eq _ _ (by omega)]
        by_cases hov : roundBits bitCount + s.bitNum > s.maxWriteBitNum
        · rw [if_pos hov]
          exact ⟨_, rfl, rfl, fun i hne => absurd rfl hne⟩
        · rw [if_neg hov]
          obtain ⟨o, ho⟩ := Int.eq_ofNat_of_zero_le (show 0 ≤ s.bitNum / 8 by omega)
          obtain ⟨k, hk⟩ := Int.eq_ofNat_of_zero_le
            (show 0 ≤ (roundBits bitCount + 7) / 8 by omega)
          have hfit2 : o + k ≤ s.dataPtr.length := by omega
          have hks : k ≤ src.length := by omega
          rw [ho, hk, memcpy_into _ _ _ _ hfit2 hks]
          refine ⟨_, rfl, ?_, ?_⟩
          · show (s.dataPtr.take o ++ src.take k ++ s.dataPtr.drop (o + k)).length = _
            simp only [List.length_append, List.length_take, List.length_drop]
            omega
          · intro i hne
            by_contra hge
            apply hne
            show (s.dataPtr.take o ++ src.take k ++ s.dataPtr.drop (o + k)).getD i 0 = _
            exact getD_splice _ _ _ _ _ hfit2 hks (Or.inr (by omega))
  · rw [writeFlag_eq_flagSlot]
    obtain ⟨_, hd, hm, _, _⟩ := flagSlot_frame s s.maxWriteBitNum
    have hq := flagSlot_flagNum_range s s.maxWriteBitNum hb hf
    generalize flagSlot s s.maxWriteBitNum = t at hd hm hq ⊢
    rw [addS32_eq _ _ (by omega)]
    by_cases hov : t.flagNum + 1 > t.maxWriteBitNum
    · rw [if_pos hov]
      exact ⟨_, _, rfl, by rw [← hd], fun i hne => absurd (by rw [← hd]) hne⟩
    · rw [if_neg hov]
      have hr : 0 ≤ t.flagNum / 8 ∧ t.flagNum / 8 < t.dataPtr.length := by
        rw [hd]; omega
      unfold getByte setByte
      rw [if_pos hr]
      simp only []
      rw [if_pos hr]
      refine ⟨_, _, rfl, ?_, ?_⟩
      · show (t.dataPtr.set _ _).length = _
        rw [List.length_set, hd]
      · intro i hne
        by_contra hge
        apply hne
        show (t.dataPtr.set _ _).getD i 0 = _
        rw [List.getD_eq_getElem?_getD, List.getElem?_set_ne (by omega),
          ← List.getD_eq_getElem?_getD, hd]
  · intro pos hpos
    have hp : toS32 (toU32 ((pos : Int) * 8)) = (pos : Int) * 8 :=
      toS32_toU32 _ (by omega)
    unfold setPosition
    by_cases h : pos ≠ 0 ∧ s.flagNum ≠ 0
    · rw [if_pos h]
      exact ⟨hb.1, hb.2, hf.1, hf.2, fun h1 => absurd h1 Bool.false_ne_true, rfl, rfl⟩
    · rw [if_neg h]
      refine ⟨?_, ?_, le_refl _, by norm_num, fun _ => hp, rfl, rfl⟩
      · show 0 ≤ toS32 (toU32 ((pos : Int) * 8))
        rw [hp]; omega
      · show toS32 (toU32 ((pos : Int) * 8)) < 2147483647
        rw [hp]; omega

theorem writes_inside_buffer_witness :
    (∃ s1, writeBits (construct [0, 0, 0, 0] 4 2) 12 [5, 6] = some s1
        ∧ s1.dataPtr.length = (construct [0, 0, 0, 0] 4 2).dataPtr.length
        ∧ ∀ i : Nat, s1.dataPtr.getD i 0 ≠ (construct [0, 0, 0, 0] 4 2).dataPtr.getD i 0 →
            (i : Int) < 2)
    ∧ (∃ ret s1, writeFlag (construct [0, 0, 0, 0] 4 2) true = some (ret, s1)
        ∧ s1.dataPtr.length = (construct [0, 0, 0, 0] 4 2).dataPtr.length
        ∧ ∀ i : Nat, s1.dataPtr.getD i 0 ≠ (construct [0, 0, 0, 0] 4 2).dataPtr.getD i 0 →
            (i : Int) < 2)
    ∧ (setPosition (construct [0, 0, 0, 0] 4 2) 3).2.bitNum = ((3 : Nat) : Int) * 8 :=
  ⟨(writes_inside_buffer (construct [0, 0, 0, 0] 4 2) 2 true rfl (by decide) (by decide)
      (by decide) (by decide)).1 12 [5, 6] (by decide) (by decide) (by decide),
    (writes_inside_buffer (construct [0, 0, 0, 0] 4 2) 2 true rfl (by decide) (by decide)
      (by decide) (by decide)).2.1,
    ((writes_inside_buffer (construct [0, 0, 0, 0] 4 2) 2 true rfl (by decide) (by decide)
      (by decide) (by decide)).2.2 3 (by decide)).2.2.2.2.1 rfl⟩

end Base
